import Mathlib

/-!
# Maintenance work orders: stock ledger, work intervals, cost and KPIs

A shallow embedding of the work-order engine of `src/script.js`
(`handleSaveManagedParts`, `saveWorkOrder`, `handleWorkOrderAction`,
`getTotalWorkDurationMs`, `calculateTotalCost`, `calculateScheduledUptimeMs`,
`updateKpis`, `generateMachineReport`, `generateNextWorkOrderId`, and the
buttons that call the transition operations) and theorems about it.

Modelling conventions.

* Timestamps (ISO strings in the source) are integers: milliseconds since the
  epoch.  An absent, `null` or empty value is `none`.  Invalid date strings do
  not occur in the orders of the model; `getTotalWorkDurationMsOf` is the
  function of lines 1796-1810 on stored intervals that may hold them.
* Integers (milliseconds, quantities, stocks) are exact `Int`.  The numbers of
  `calculateTotalCost` are doubles: each is the rational it denotes, and every
  `+`, `*` and `/` rounds to the nearest double (`roundDouble`).  KPIs are exact
  ratios in `ℚ`: the final `toFixed(2)` text rendering of a KPI is not part of
  the model; a KPI is the number handed to `toFixed`, or the sentinel `N/A`.
* The document store is a list of documents per collection.  The in-memory
  arrays `state.parts`, `state.workOrders`, `state.solicitudes` are rebuilt from
  the store by the snapshot listeners (lines 208-313), so an operation reads the
  collection itself.  The one place where memory and store part ways is the
  write through the shared interval object at line 2403, which stays in
  `state.workOrders` when the call fails: `handleWorkOrderActionInMemory`
  follows both, and agrees with `handleWorkOrderAction` when they are in sync.
* An operation returns the state it leaves behind together with the message it
  shows; a thrown error aborts the remaining writes and keeps the earlier ones.
* A call reads the clock once: the `new Date()` of lines 2289, 2300, 2308 and
  2312 of `saveWorkOrder` are one value `now`, as is line 2383 of
  `handleWorkOrderAction`.
* `Date` getters that depend on the time zone (`getDay`, reading a date and
  time input) use a fixed offset `utcOffsetMs` from UTC; daylight saving is
  not modelled.
-/

namespace Mantenimiento

/-! ## Data model -/

/-- A document of the `parts` collection: `fb_id` is the document id, the other
fields are the document data written by `handlePartSubmit` (lines 1145-1165). -/
structure Part where
  fb_id : String
  id : String
  cost : ℚ
  stock : Int
  deriving DecidableEq

/-- One entry of `partsUsed`: `{ partId, quantity }`. -/
structure PartUsage where
  partId : String
  quantity : Int
  deriving DecidableEq

/-! ## Store access for parts -/

/-- `getDoc(doc(state.collections.parts, docId))`: the document with that id,
if it exists. -/
def getPartDoc (parts : List Part) (docId : String) : Option Part :=
  parts.find? (fun p => p.fb_id == docId)

/-- `updateDoc(partDocRef, { stock: newStock })`. -/
def updatePartStock (parts : List Part) (docId : String) (newStock : Int) : List Part :=
  parts.map (fun p => if p.fb_id == docId then { p with stock := newStock } else p)

/-- `state.parts.find(p => p.id === partId)`. -/
def findPartById (parts : List Part) (partId : String) : Option Part :=
  parts.find? (fun p => p.id == partId)

/-- The stock persisted for the document `docId`, if the document exists. -/
def stockOf (parts : List Part) (docId : String) : Option Int :=
  (getPartDoc parts docId).map (fun p => p.stock)

/-! ## JavaScript `Map` with string keys

Insertion order is kept; `set` on an existing key replaces the value in place. -/

abbrev JsMap := List (String × Int)

/-- `map.get(key)` (`none` is `undefined`). -/
def JsMap.get? (m : JsMap) (key : String) : Option Int :=
  (m.find? (fun e => e.1 == key)).map (fun e => e.2)

/-- `map.has(key)`. -/
def JsMap.has (m : JsMap) (key : String) : Bool :=
  m.any (fun e => e.1 == key)

/-- `map.set(key, value)`. -/
def JsMap.set : JsMap → String → Int → JsMap
  | [], key, value => [(key, value)]
  | e :: rest, key, value =>
    if e.1 == key then (key, value) :: rest else e :: JsMap.set rest key value

/-- `new Map(list.map(p => [p.partId, p.quantity]))`, also the map filled by
the `forEach` of lines 2058-2063. -/
def partsMap (l : List PartUsage) : JsMap :=
  l.foldl (fun m p => JsMap.set m p.partId p.quantity) []

/-! ## Stock ledger: reconciliation (`handleSaveManagedParts`) -/

/-- Lines 2066-2072: the loop over `newPartsMap`, started from `deltas`. -/
def deltasFromNew (originalPartsMap : JsMap) : JsMap → JsMap → JsMap
  | [], deltas => deltas
  | (partId, newQty) :: rest, deltas =>
    let oldQty := (JsMap.get? originalPartsMap partId).getD 0
    let delta := newQty - oldQty
    if delta ≠ 0 then
      deltasFromNew originalPartsMap rest
        (JsMap.set deltas partId ((JsMap.get? deltas partId).getD 0 - delta))
    else deltasFromNew originalPartsMap rest deltas

/-- Lines 2074-2078: the loop over `originalPartsMap`, started from `deltas`. -/
def deltasFromOld (newPartsMap : JsMap) : JsMap → JsMap → JsMap
  | [], deltas => deltas
  | (partId, oldQty) :: rest, deltas =>
    if !(JsMap.has newPartsMap partId) then
      deltasFromOld newPartsMap rest
        (JsMap.set deltas partId ((JsMap.get? deltas partId).getD 0 + oldQty))
    else deltasFromOld newPartsMap rest deltas

/-- Lines 2054-2078: the map `stockDeltas` computed from the order's old
parts-used list and the list shown in the modal. -/
def stockDeltas (oldParts newParts : List PartUsage) : JsMap :=
  let originalPartsMap := partsMap oldParts
  let newPartsMap := partsMap newParts
  deltasFromOld newPartsMap originalPartsMap (deltasFromNew originalPartsMap newPartsMap [])

/-- Lines 2082-2092: one iteration of the reconciliation loop.  The result is
the parts collection after the iteration, or the message of the thrown error. -/
def applyStockDelta (parts : List Part) (partId : String) (delta : Int) :
    Except String (List Part) :=
  match getPartDoc parts partId with
  | some partDoc =>
    let currentStock := partDoc.stock
    let newStock := currentStock + delta
    if newStock < 0 then
      .error s!"Stock insuficiente para {partId}. Stock: {currentStock}, Necesita: {-delta}."
    else .ok (updatePartStock parts partId newStock)
  | none => .ok parts

/-- Lines 2081-2093: the loop over `stockDeltas.entries()`.  Returns the parts
collection as the loop leaves it and the thrown error, if any. -/
def applyStockDeltas : List Part → JsMap → List Part × Option String
  | parts, [] => (parts, none)
  | parts, (partId, delta) :: rest =>
    match applyStockDelta parts partId delta with
    | .ok parts' => applyStockDeltas parts' rest
    | .error msg => (parts, some msg)

/-! ## Work orders, requests, users -/

/-- The options of the `wo-status` select (line 2481): 'Pendiente',
'En Proceso', 'Pausado', 'Completado', 'Cancelado'. -/
inductive Status where
  | Pendiente | EnProceso | Pausado | Completado | Cancelado
  deriving DecidableEq

/-- The values of the `wo-type` select: 'Preventivo', 'Correctivo'. -/
inductive OrderType where
  | Preventivo | Correctivo
  deriving DecidableEq

/-- One entry of `workIntervals`: `{ start, end? }`; `end_ = none` is an open
interval. -/
structure Interval where
  start : Int
  end_ : Option Int
  deriving DecidableEq

/-- A document of the `workOrders` collection.  `date` is the calendar day
(days since the epoch) of the 'YYYY-MM-DD' string; `leadTechnician = ""` is an
unassigned lead; a `failureType` or `maintenanceType` of `none` is `null`. -/
structure WorkOrder where
  fb_id : String
  id : String
  machineId : String
  description : String
  status : Status
  type : OrderType
  date : Option Int
  startTime : Option Int
  endTime : Option Int
  requester : String
  leadTechnician : String
  supportTechnicians : List String
  technicians : List String
  partsUsed : List PartUsage
  failureType : Option String
  maintenanceType : Option String
  workIntervals : List Interval
  createdAt : Option Int
  additionalCost : Option ℚ
  deriving DecidableEq

/-- Status of a request (`solicitudes` collection). -/
inductive SolicitudStatus where
  | Pendiente | Aprobado | Rechazado | Cancelado
  deriving DecidableEq

/-- A document of the `solicitudes` collection. -/
structure Solicitud where
  fb_id : String
  status : SolicitudStatus
  workOrderId : Option String
  deriving DecidableEq

/-- A document of the `technicians` collection (line 1461: `salario` is a
number, 0 when not given). -/
structure Technician where
  username : String
  role : String
  salario : ℚ
  deriving DecidableEq

/-- The signed-in user (`state.currentUser`); `managedMachineIds` is `none`
when the field is not an array. -/
structure User where
  username : String
  role : String
  managedMachineIds : Option (List String)
  deriving DecidableEq

/-- A time input 'HH:MM' after `split(':').map(Number)`. -/
structure TimeOfDay where
  hour : Int
  minute : Int
  deriving DecidableEq

/-- The weekday group of a schedule (lines 969-973); `activeDays` holds the
weekday numbers whose texts are listed, an empty time input is `none`. -/
structure WeekdaySchedule where
  activeDays : List Int
  startTime : Option TimeOfDay
  endTime : Option TimeOfDay
  deriving DecidableEq

/-- The Saturday or Sunday group of a schedule (lines 974-983). -/
structure DaySchedule where
  active : Bool
  startTime : Option TimeOfDay
  endTime : Option TimeOfDay
  deriving DecidableEq

/-- `machine.schedule`. -/
structure Schedule where
  weekday : Option WeekdaySchedule
  saturday : Option DaySchedule
  sunday : Option DaySchedule
  deriving DecidableEq

/-- A document of the `machines` collection. -/
structure Machine where
  id : String
  scheduleDisabled : Bool
  schedule : Option Schedule
  deriving DecidableEq

/-- The collections an operation reads and writes, the signed-in user and the
offset of the browser's time zone from UTC in milliseconds. -/
structure AppState where
  currentUser : User
  utcOffsetMs : Int
  machines : List Machine
  parts : List Part
  technicians : List Technician
  workOrders : List WorkOrder
  solicitudes : List Solicitud
  deriving DecidableEq

/-- What an operation leaves behind: the state, the text and kind of the toast
it shows (if any) and the message of the error its `catch` block received. -/
structure Outcome where
  state : AppState
  toast : Option (String × String)
  error : Option String
  deriving DecidableEq

/-- Milliseconds in a day (`24 * 60 * 60 * 1000`). -/
def oneDayMs : Int := 24 * 60 * 60 * 1000

/-- `state.workOrders.find(wo => wo.id === orderId)`. -/
def findOrder (orders : List WorkOrder) (orderId : String) : Option WorkOrder :=
  orders.find? (fun wo => wo.id == orderId)

/-! ## Worked time -/

/-- Lines 1796-1810, on the interval list. -/
def totalIntervalsMs : List Interval → Int
  | [] => 0
  | i :: rest =>
    match i.end_ with
    | some e => (e - i.start) + totalIntervalsMs rest
    | none => totalIntervalsMs rest

/-- Lines 1796-1810. -/
def getTotalWorkDurationMs (order : WorkOrder) : Int :=
  totalIntervalsMs order.workIntervals

/-- The value of `interval.start` or `interval.end` in a stored interval:
absent (`undefined`, `null` or the empty text), a text that `new Date` cannot
read (its `getTime()` is `NaN`), or a valid date. -/
inductive DateText where
  | absent
  | invalid
  | valid (t : Int)
  deriving DecidableEq

/-- An entry of a stored `workIntervals` array, with no assumption on its
fields. -/
structure StoredInterval where
  start : DateText
  end_ : DateText
  deriving DecidableEq

/-- Lines 1796-1810 on the stored value of `order.workIntervals`: `none` is a
value that is absent or not an array. -/
def getTotalWorkDurationMsOf (workIntervals : Option (List StoredInterval)) : Int :=
  match workIntervals with
  | none => 0
  | some intervals =>
    intervals.foldl
      (fun totalMs interval =>
        match interval.start, interval.end_ with
        | DateText.valid start, DateText.valid end_ => totalMs + (end_ - start)
        | _, _ => totalMs)
      0

/-- An interval of the model as it is stored: a valid start, and a valid end or
none. -/
def Interval.stored (i : Interval) : StoredInterval :=
  { start := DateText.valid i.start
    end_ := match i.end_ with
      | some e => DateText.valid e
      | none => DateText.absent }

/-- Number of intervals with no `end`. -/
def openCount (l : List Interval) : Nat :=
  (l.filter (fun i => i.end_.isNone)).length

/-! ## Stock ledger: consumption on completion -/

/-- Lines 2319-2333: one iteration of the completion loop of `saveWorkOrder`. -/
def consumePartSave (parts : List Part) (partUsage : PartUsage) : Except String (List Part) :=
  if partUsage.quantity > 0 then
    match findPartById parts partUsage.partId with
    | some partToUpdate =>
      match getPartDoc parts partToUpdate.fb_id with
      | some partDoc =>
        let currentStock := partDoc.stock
        let newStock := currentStock - partUsage.quantity
        if newStock < 0 then
          .error s!"Stock insuficiente para {partUsage.partId}. Stock: {currentStock}, Necesita: {partUsage.quantity}."
        else .ok (updatePartStock parts partToUpdate.fb_id newStock)
      | none => .ok parts
    | none => .ok parts
  else .ok parts

/-- Lines 2414-2426: one iteration of the completion loop of
`handleWorkOrderAction`. -/
def consumePartAction (parts : List Part) (partUsage : PartUsage) : Except String (List Part) :=
  match findPartById parts partUsage.partId with
  | some partToUpdate =>
    match getPartDoc parts partToUpdate.fb_id with
    | some partDoc =>
      let currentStock := partDoc.stock
      let newStock := currentStock - partUsage.quantity
      if newStock < 0 then
        .error s!"Stock insuficiente para {partUsage.partId}. No se puede completar la orden."
      else .ok (updatePartStock parts partToUpdate.fb_id newStock)
    | none => .ok parts
  | none => .ok parts

/-- A `for ... of` loop over `partsUsed` whose body is `step`: it stops at the
first thrown error and keeps the writes made before it. -/
def consumeLoop (step : List Part → PartUsage → Except String (List Part)) :
    List Part → List PartUsage → List Part × Option String
  | parts, [] => (parts, none)
  | parts, partUsage :: rest =>
    match step parts partUsage with
    | .ok parts' => consumeLoop step parts' rest
    | .error msg => (parts, some msg)

/-! ## `handleSaveManagedParts` -/

/-- `updateDoc(orderDocRef, { partsUsed: newPartsList })` on the document
`docId`. -/
def updateOrderParts (orders : List WorkOrder) (docId : String) (newPartsList : List PartUsage) :
    List WorkOrder :=
  orders.map (fun wo => if wo.fb_id == docId then { wo with partsUsed := newPartsList } else wo)

/-- Lines 2041-2107.  `orderId` is the value of `manage-parts-wo-id` and
`newPartsList` the rows of `#current-parts-list`. -/
def handleSaveManagedParts (s : AppState) (orderId : String) (newPartsList : List PartUsage) :
    Outcome :=
  if orderId = "" then ⟨s, none, none⟩
  else
    match findOrder s.workOrders orderId with
    | none => ⟨s, some ("Orden no encontrada.", "error"), none⟩
    | some originalOrder =>
      match applyStockDeltas s.parts (stockDeltas originalOrder.partsUsed newPartsList) with
      | (parts', some msg) => ⟨{ s with parts := parts' }, some (msg, "error"), some msg⟩
      | (parts', none) =>
        ⟨{ s with parts := parts',
                  workOrders := updateOrderParts s.workOrders originalOrder.fb_id newPartsList },
          some ("Repuestos actualizados correctamente.", "success"), none⟩

/-! ## `handleWorkOrderAction` -/

/-- Lines 2401-2404: the last interval, when it is open, gets `end = now`. -/
def closeLastInterval (now : Int) : List Interval → List Interval
  | [] => []
  | [i] => [if i.end_.isNone then { i with end_ := some now } else i]
  | i :: j :: rest => i :: closeLastInterval now (j :: rest)

/-- Lines 2382-2409: the interval list written by the action. -/
def actionIntervals (order : WorkOrder) (newStatus : Status) (now : Int) : List Interval :=
  if newStatus = Status.EnProceso then order.workIntervals ++ [{ start := now, end_ := none }]
  else if newStatus = Status.Pausado ∨ newStatus = Status.Completado then
    closeLastInterval now order.workIntervals
  else order.workIntervals

/-- The text of a status, as the source writes it. -/
def Status.text : Status → String
  | .Pendiente => "Pendiente"
  | .EnProceso => "En Proceso"
  | .Pausado => "Pausado"
  | .Completado => "Completado"
  | .Cancelado => "Cancelado"

/-- Lines 2381-2409 and 2430: `updateDoc(orderRef, updates)` applied to the
stored document, where `updates` is computed from `order`. -/
def applyActionUpdates (order : WorkOrder) (newStatus : Status) (now : Int)
    (stored : WorkOrder) : WorkOrder :=
  { stored with
    status := newStatus
    startTime :=
      if newStatus = Status.EnProceso ∧ order.status = Status.Pendiente then some now
      else stored.startTime
    date :=
      if newStatus = Status.EnProceso ∧ order.status = Status.Pendiente then some (now / oneDayMs)
      else stored.date
    endTime :=
      if newStatus = Status.Completado ∧ order.endTime.isNone then some now else stored.endTime
    workIntervals := actionIntervals order newStatus now }

/-- `updateDoc(orderRef, updates)` on the document `docId`. -/
def updateOrderDoc (orders : List WorkOrder) (docId : String) (f : WorkOrder → WorkOrder) :
    List WorkOrder :=
  orders.map (fun wo => if wo.fb_id == docId then f wo else wo)

/-- Lines 2411-2428: the stock deduction of the quick buttons.  Returns the
parts collection as the loop leaves it and the thrown error, if any. -/
def actionPartsLoop (parts : List Part) (order : WorkOrder) (newStatus : Status) :
    List Part × Option String :=
  if newStatus = Status.Completado ∧ order.status ≠ Status.Completado then
    consumeLoop consumePartAction parts order.partsUsed
  else (parts, none)

/-- Lines 2366-2441 for a session whose `state.workOrders` is the collection
as stored (`handleWorkOrderActionInMemory` is the function without that
assumption).  `now` is the single timestamp of line 2383. -/
def handleWorkOrderAction (s : AppState) (orderId : String) (newStatus : Status) (now : Int) :
    Outcome :=
  if orderId = "" then ⟨s, none, none⟩
  else
    match findOrder s.workOrders orderId with
    | none => ⟨s, none, none⟩
    | some order =>
      if s.currentUser.role = "Técnico" ∧ order.leadTechnician ≠ s.currentUser.username then
        ⟨s, some ("Solo el técnico responsable puede cambiar el estado de la orden.", "error"), none⟩
      else if newStatus = Status.EnProceso ∧ order.leadTechnician = "" then
        ⟨s, some ("Debe asignar un técnico responsable antes de iniciar.", "warning"), none⟩
      else
        match actionPartsLoop s.parts order newStatus with
        | (parts', some msg) =>
          ⟨{ s with parts := parts' },
            some ("Error al actualizar la orden de trabajo.", "error"), some msg⟩
        | (parts', none) =>
          ⟨{ s with parts := parts',
                    workOrders := updateOrderDoc s.workOrders order.fb_id
                      (applyActionUpdates order newStatus now) },
            some ("Orden de trabajo actualizada a: " ++ newStatus.text, "success"), none⟩

/-! ## `handleWorkOrderAction` on the in-memory orders

`handleWorkOrderAction` reads the order from the array `state.workOrders`, which
the snapshot listener of lines 290-291 rebuilds each time the collection
changes.  Line 2382 copies the interval array but not the interval objects, so
line 2403 writes `end` into the object held by `state.workOrders`, whether or
not the call goes on to `updateDoc`. -/

/-- The browser session: the store, and the array `state.workOrders` as it is in
memory. -/
structure Session where
  store : AppState
  workOrders : List WorkOrder
  deriving DecidableEq

/-- What a call leaves behind in a session. -/
structure SessionOutcome where
  session : Session
  toast : Option (String × String)
  error : Option String
  deriving DecidableEq

/-- Line 2403 as seen in `state.workOrders`: the order found by line 2369 has its
last interval, when it is open, ended at `now`. -/
def closeInMemory (now : Int) (orderId : String) : List WorkOrder → List WorkOrder
  | [] => []
  | wo :: rest =>
    if wo.id = orderId then
      { wo with workIntervals := closeLastInterval now wo.workIntervals } :: rest
    else wo :: closeInMemory now orderId rest

/-- Lines 2366-2441 with `state.workOrders` kept apart from the collection.  The
order is read from memory; a pause or a completion first ends the open interval
in memory (line 2403); a thrown error leaves the collection of orders as it was
and the memory as written; after `updateDoc` (line 2430) the snapshot listener
makes the memory the new collection. -/
def handleWorkOrderActionInMemory (c : Session) (orderId : String) (newStatus : Status)
    (now : Int) : SessionOutcome :=
  if orderId = "" then ⟨c, none, none⟩
  else
    match findOrder c.workOrders orderId with
    | none => ⟨c, none, none⟩
    | some order =>
      if c.store.currentUser.role = "Técnico"
          ∧ order.leadTechnician ≠ c.store.currentUser.username then
        ⟨c, some ("Solo el técnico responsable puede cambiar el estado de la orden.", "error"),
          none⟩
      else if newStatus = Status.EnProceso ∧ order.leadTechnician = "" then
        ⟨c, some ("Debe asignar un técnico responsable antes de iniciar.", "warning"), none⟩
      else
        let memory :=
          if newStatus = Status.Pausado ∨ newStatus = Status.Completado then
            closeInMemory now orderId c.workOrders
          else c.workOrders
        match actionPartsLoop c.store.parts order newStatus with
        | (parts', some msg) =>
          ⟨{ store := { c.store with parts := parts' }, workOrders := memory },
            some ("Error al actualizar la orden de trabajo.", "error"), some msg⟩
        | (parts', none) =>
          let stored := updateOrderDoc c.store.workOrders order.fb_id
            (applyActionUpdates order newStatus now)
          ⟨{ store := { c.store with parts := parts', workOrders := stored },
             workOrders := stored },
            some ("Orden de trabajo actualizada a: " ++ newStatus.text, "success"), none⟩

/-! ## `saveWorkOrder` -/

/-- The work-order form as `saveWorkOrder` reads it.  `hiddenId` is
`work-order-id-hidden` (empty for a new order), `partsRows` the rows of
`#wo-parts-list`; a date input is a calendar day (days since the epoch), a time
input is minutes after midnight, and an empty input is `none`. -/
structure WorkOrderForm where
  hiddenId : String
  sourceSolicitudId : String
  partsRows : List PartUsage
  leadTechnician : String
  supportTechnicians : List String
  startDate : Option Int
  startTime : Option Int
  endDate : Option Int
  endTime : Option Int
  machineId : String
  description : String
  status : Status
  type : OrderType
  requester : String
  failureType : String
  maintenanceType : String
  deriving DecidableEq

/-- `/^MA-\d{2}-\d{4}$/.test(orderId)`. -/
def idRegexTest (orderId : String) : Bool :=
  match orderId.toList with
  | ['M', 'A', '-', y1, y2, '-', n1, n2, n3, n4] =>
    y1.isDigit && y2.isDigit && n1.isDigit && n2.isDigit && n3.isDigit && n4.isDigit
  | _ => false

/-- Lines 2214-2226: the timestamp of a date input and a time input.  With both,
the text is read in the browser's zone; a date alone is read as UTC midnight. -/
def formTimestamp (utcOffsetMs : Int) (date time : Option Int) : Option Int :=
  match date, time with
  | some d, some t => some (d * oneDayMs + t * 60000 - utcOffsetMs)
  | some d, none => some (d * oneDayMs)
  | none, _ => none

/-- `[...new Set(list)]`: the first occurrence of each element, in order. -/
def jsSetOrder : List String → List String
  | [] => []
  | a :: rest => a :: (jsSetOrder rest).filter (fun b => b != a)

/-- Lines 2298-2301: the first interval with no `end` gets `end = now`. -/
def closeFirstOpen (now : Int) : List Interval → List Interval
  | [] => []
  | i :: rest =>
    if i.end_.isNone then { i with end_ := some now } :: rest
    else i :: closeFirstOpen now rest

/-- Lines 2289-2295: the start of the interval opened by a save: the manual
start time when no interval is open and it is not in the future, else `now`. -/
def intervalStart (workIntervals : List Interval) (startTime : Option Int) (now : Int) : Int :=
  match startTime with
  | some manualStart =>
    if !(workIntervals.any (fun i => i.end_.isNone)) && decide (manualStart ≤ now)
    then manualStart else now
  | none => now

/-- Lines 2287-2304: the `else if (newStatus !== oldStatus)` block. -/
def statusChangeIntervals (workIntervals : List Interval) (oldStatus : Option Status)
    (newStatus : Status) (startTime : Option Int) (now : Int) : List Interval :=
  if some newStatus ≠ oldStatus then
    if newStatus = Status.EnProceso ∧ oldStatus ≠ some Status.EnProceso then
      workIntervals ++ [{ start := intervalStart workIntervals startTime now, end_ := none }]
    else if (newStatus = Status.Pausado ∨ newStatus = Status.Completado)
        ∧ oldStatus = some Status.EnProceso then
      closeFirstOpen now workIntervals
    else workIntervals
  else workIntervals

/-- Lines 2279-2304: the value of `orderData.workIntervals` after the interval
block, where `workIntervals` is the copy of the existing order's list,
`startTime` and `endTime` are `orderData.startTime` and `orderData.endTime`. -/
def saveIntervals (workIntervals : List Interval) (oldStatus : Option Status)
    (newStatus : Status) (startTime endTime : Option Int) (now : Int) : List Interval :=
  match newStatus, startTime, endTime with
  | Status.Completado, some start, some end_ =>
    if end_ > start then [{ start := start, end_ := some end_ }] else workIntervals
  | _, _, _ => statusChangeIntervals workIntervals oldStatus newStatus startTime now

/-- `setDoc(doc(state.collections.workOrders, orderId), orderData, { merge: true })`:
the document `orderId` takes every field of `orderData`; `createdAt` and
`additionalCost` are absent from `orderData` when they are `none` and then keep
the stored value. -/
def setOrderDoc (orders : List WorkOrder) (orderId : String) (orderData : WorkOrder) :
    List WorkOrder :=
  if orders.any (fun wo => wo.fb_id == orderId) then
    orders.map (fun wo =>
      if wo.fb_id == orderId then
        { orderData with
          fb_id := orderId
          createdAt := orderData.createdAt.orElse (fun _ => wo.createdAt)
          additionalCost := orderData.additionalCost.orElse (fun _ => wo.additionalCost) }
      else wo)
  else orders ++ [{ orderData with fb_id := orderId }]

/-- Lines 2340-2349: the request the order came from is approved when it is
still pending. -/
def approveSolicitud (solicitudes : List Solicitud) (sourceSolicitudId orderId : String) :
    List Solicitud :=
  if sourceSolicitudId = "" then solicitudes
  else
    match solicitudes.find? (fun q => q.fb_id == sourceSolicitudId) with
    | some solicitud =>
      if solicitud.status = SolicitudStatus.Pendiente then
        solicitudes.map (fun q =>
          if q.fb_id == sourceSolicitudId then
            { q with status := SolicitudStatus.Aprobado, workOrderId := some orderId }
          else q)
      else solicitudes
    | none => solicitudes

/-- Lines 2234-2313: `orderData` as it is written, from the form, the existing
order (`none` is `{}`), the `updates` argument (`none` is `{}`, `some st` is
`{ status: st }`) and the clock. -/
def buildOrderData (utcOffsetMs : Int) (form : WorkOrderForm) (orderId : String)
    (existingOrder : Option WorkOrder) (updates : Option Status) (now : Int) : WorkOrder :=
  let startTimeISO := formTimestamp utcOffsetMs form.startDate form.startTime
  let endTimeISO := formTimestamp utcOffsetMs form.endDate form.endTime
  let isNew := form.hiddenId = ""
  let oldStatus := existingOrder.map (fun o => o.status)
  let newStatus := updates.getD form.status
  let workIntervals :=
    saveIntervals ((existingOrder.map (fun o => o.workIntervals)).getD []) oldStatus newStatus
      startTimeISO endTimeISO now
  { fb_id := (existingOrder.map (fun o => o.fb_id)).getD orderId
    id := orderId
    machineId := form.machineId
    description := form.description
    status := newStatus
    type := form.type
    date := form.startDate
    startTime := startTimeISO
    endTime :=
      if newStatus = Status.Completado ∧ endTimeISO.isNone then
        some ((workIntervals.getLast?.bind (fun i => i.end_)).getD now)
      else endTimeISO
    requester := form.requester
    leadTechnician := form.leadTechnician
    supportTechnicians := form.supportTechnicians
    technicians :=
      jsSetOrder ((form.leadTechnician :: form.supportTechnicians).filter (fun t => t != ""))
    partsUsed := form.partsRows
    failureType := if form.type = OrderType.Correctivo then some form.failureType else none
    maintenanceType := if form.type = OrderType.Preventivo then some form.maintenanceType else none
    workIntervals := workIntervals
    createdAt := if isNew then some now else existingOrder.bind (fun o => o.createdAt)
    additionalCost := existingOrder.bind (fun o => o.additionalCost) }

/-- Lines 2181-2272: the checks made before anything is written, in the order
of the source; the result is the text of the first failing check. -/
def saveValidation (s : AppState) (form : WorkOrderForm) (orderId : String) : Option String :=
  if !idRegexTest orderId then
    some "Formato de ID incorrecto. Debe ser MA-AA-NNNN (ej. MA-25-0001)."
  else if form.hiddenId = "" ∧ s.workOrders.any (fun wo => wo.id == orderId) then
    some "El ID de la orden de trabajo ya existe."
  else
    let endNotAfterStart :=
      match formTimestamp s.utcOffsetMs form.startDate form.startTime,
        formTimestamp s.utcOffsetMs form.endDate form.endTime with
      | some start, some end_ => decide (end_ ≤ start)
      | _, _ => false
    if endNotAfterStart then
      some "La fecha/hora final debe ser posterior a la fecha/hora de inicio."
    else if form.type = OrderType.Correctivo ∧ form.failureType = "" then
      some "Para órdenes correctivas, es obligatorio seleccionar un tipo de falla."
    else if form.type = OrderType.Preventivo ∧ form.maintenanceType = "" then
      some "Para órdenes preventivas, es obligatorio seleccionar un tipo de mantenimiento."
    else if form.leadTechnician = "" ∧ form.status ≠ Status.Cancelado then
      some "Debe asignar un técnico responsable para guardar la orden."
    else none

/-- Line 2274: `isNew ? {} : state.workOrders.find(wo => wo.id === orderId) || {}`
(`none` is `{}`). -/
def existingOrderOf (s : AppState) (form : WorkOrderForm) (orderId : String) : Option WorkOrder :=
  if form.hiddenId = "" then none else findOrder s.workOrders orderId

/-- Lines 2315-2335: the stock deduction of a completing save.  Returns the
parts collection as the loop leaves it and the thrown error, if any. -/
def savePartsLoop (parts : List Part) (orderData : WorkOrder) (oldStatus : Option Status) :
    List Part × Option String :=
  if orderData.status = Status.Completado ∧ oldStatus ≠ some Status.Completado then
    consumeLoop consumePartSave parts orderData.partsUsed
  else (parts, none)

/-- Lines 2178-2359.  `form` is the content of the modal, `updates` the second
argument (`none` for the Save button, `some st` for the Start, Pause, Resume and
Complete buttons of lines 386-389) and `now` the reading of the clock. -/
def saveWorkOrder (s : AppState) (form : WorkOrderForm) (orderId : String)
    (updates : Option Status) (now : Int) : Outcome :=
  match saveValidation s form orderId with
  | some msg => ⟨s, some (msg, "error"), none⟩
  | none =>
    let existingOrder := existingOrderOf s form orderId
    let orderData := buildOrderData s.utcOffsetMs form orderId existingOrder updates now
    match savePartsLoop s.parts orderData (existingOrder.map (fun o => o.status)) with
    | (parts', some msg) =>
      ⟨{ s with parts := parts' }, some ("Error al guardar la orden de trabajo.", "error"),
        some msg⟩
    | (parts', none) =>
      ⟨{ s with parts := parts',
                workOrders := setOrderDoc s.workOrders orderId orderData,
                solicitudes := approveSolicitud s.solicitudes form.sourceSolicitudId orderId },
        some ("Orden de trabajo guardada.", "success"), none⟩

/-! ## The buttons that call the transition operations -/

/-- The Start, Pause, Resume and Complete buttons of the modal (`wo-start-btn`,
...) and of the cards (`start-task-btn`, ...). -/
inductive ActionButton where
  | start | pause | resume | complete
  deriving DecidableEq

/-- The status a button asks for (lines 386-389 for the modal, which calls
`saveWorkOrder(id, { status })`; lines 1781-1788 and 1928-1935 for the cards,
which call `handleWorkOrderAction(id, status)`). -/
def ActionButton.requested : ActionButton → Status
  | .start => Status.EnProceso
  | .pause => Status.Pausado
  | .resume => Status.EnProceso
  | .complete => Status.Completado

/-- Lines 2623-2662: the buttons the modal shows.  `hiddenId` is
`work-order-id-hidden`, `status` the value of `wo-status` and `shown` the
buttons shown before the call, which stay when the order is not found. -/
def updateWorkOrderModalButtons (s : AppState) (hiddenId : String) (status : Status)
    (shown : List ActionButton) : List ActionButton :=
  if hiddenId = "" then []
  else
    match findOrder s.workOrders hiddenId with
    | none => shown
    | some order =>
      if ¬ (s.currentUser.role = "Admin" ∨ s.currentUser.username = order.leadTechnician) then []
      else
        match status with
        | Status.Pendiente => [ActionButton.start]
        | Status.EnProceso => [ActionButton.pause, ActionButton.complete]
        | Status.Pausado => [ActionButton.resume, ActionButton.complete]
        | _ => []

/-- Lines 1737-1762: the buttons in the footer of a card of `createWorkOrderCard`. -/
def workOrderCardButtons (s : AppState) (order : WorkOrder) : List ActionButton :=
  if s.currentUser.role = "Invitado" ∨ s.currentUser.role = "Jefe de Area" then []
  else
    match order.status with
    | Status.Pendiente => [ActionButton.start]
    | Status.EnProceso => [ActionButton.pause, ActionButton.complete]
    | Status.Pausado => [ActionButton.resume]
    | _ => []

/-- Lines 1877-1907: the status buttons of a card of `createAssignedOrderCard`. -/
def assignedOrderCardButtons (s : AppState) (order : WorkOrder) : List ActionButton :=
  if s.currentUser.username = order.leadTechnician then
    match order.status with
    | Status.Pendiente => [ActionButton.start]
    | Status.EnProceso => [ActionButton.pause, ActionButton.complete]
    | Status.Pausado => [ActionButton.resume]
    | _ => []
  else []

/-- Lines 2461 and 2541-2547 of `showWorkOrderModal(orderId)`: whether the
Save button of the modal stays visible. -/
def saveButtonShown (s : AppState) (orderId : String) : Bool :=
  let order := if orderId = "" then none else findOrder s.workOrders orderId
  let isLeadTechnician :=
    match order with
    | some o => decide (s.currentUser.username = o.leadTechnician)
    | none => false
  let canControl :=
    decide (s.currentUser.role = "Admin") || isLeadTechnician || decide (orderId = "")
  !(!canControl || decide (s.currentUser.role = "Invitado")
    || decide (order.map (fun o => o.status) = some Status.Completado)
    || decide (order.map (fun o => o.status) = some Status.Cancelado))

/-! ## `generateNextWorkOrderId`

Strings are handled as lists of characters; numbers read by `parseInt` are
exact integers. -/

/-- `text.startsWith(start)`. -/
def startsWith : List Char → List Char → Bool
  | _, [] => true
  | [], _ :: _ => false
  | c :: cs, p :: ps => c == p && startsWith cs ps

/-- `text.split(sep)` for a separator of one character. -/
def jsSplit (sep : Char) : List Char → List (List Char)
  | [] => [[]]
  | c :: cs =>
    if c = sep then [] :: jsSplit sep cs
    else
      match jsSplit sep cs with
      | seg :: rest => (c :: seg) :: rest
      | [] => [[c]]

/-- The white space that `parseInt` skips (tab, line feed, vertical tab, form
feed, carriage return, space, no-break space, the Unicode space separators,
the line and paragraph separators, the byte order mark). -/
def isJsWhiteSpace (c : Char) : Bool :=
  [9, 10, 11, 12, 13, 32, 160, 5760, 8192, 8193, 8194, 8195, 8196, 8197, 8198, 8199, 8200,
    8201, 8202, 8232, 8233, 8239, 8287, 12288, 65279].contains c.toNat

/-- The value of a character as a digit of the radix, if it is one. -/
def digitValue (radix : Nat) (c : Char) : Option Nat :=
  let v : Option Nat :=
    if 48 ≤ c.toNat ∧ c.toNat ≤ 57 then some (c.toNat - 48)
    else if 97 ≤ c.toNat ∧ c.toNat ≤ 122 then some (c.toNat - 97 + 10)
    else if 65 ≤ c.toNat ∧ c.toNat ≤ 90 then some (c.toNat - 65 + 10)
    else none
  v.filter (fun d => d < radix)

/-- The values of the longest run of digits of the radix at the start. -/
def takeDigits (radix : Nat) : List Char → List Nat
  | [] => []
  | c :: cs =>
    match digitValue radix c with
    | some d => d :: takeDigits radix cs
    | none => []

/-- The sign read by `parseInt` and the text after it. -/
def parseSign : List Char → Int × List Char
  | [] => (1, [])
  | c :: rest => if c = '-' then (-1, rest) else if c = '+' then (1, rest) else (1, c :: rest)

/-- The radix chosen by `parseInt(text)` and the text after a `0x` mark. -/
def parseRadix : List Char → Nat × List Char
  | c :: d :: rest => if c = '0' ∧ (d = 'x' ∨ d = 'X') then (16, rest) else (10, c :: d :: rest)
  | s => (10, s)

/-- `parseInt(text)`; `none` is `NaN`. -/
def parseInt (text : List Char) : Option Int :=
  let signed := parseSign (text.dropWhile isJsWhiteSpace)
  let based := parseRadix signed.2
  match takeDigits based.1 based.2 with
  | [] => none
  | digits => some (signed.1 * ((digits.foldl (fun acc d => acc * based.1 + d) 0 : Nat) : Int))

/-- `text.padStart(targetLength, pad)` for a pad of one character. -/
def padStart (targetLength : Nat) (pad : Char) (text : List Char) : List Char :=
  List.replicate (targetLength - text.length) pad ++ text

/-- `Math.max(...numbers)` for a list that is not empty. -/
def mathMax : List Int → Int
  | [] => 0
  | a :: rest => rest.foldl max a

/-- Lines 2567-2568: the text `MA-YY-`, where `YY` is
`fullYear.toString().slice(-2)`. -/
def yearMark (fullYear : Nat) : List Char :=
  let yearText := (toString fullYear).toList
  "MA-".toList ++ yearText.drop (yearText.length - 2) ++ "-".toList

/-- Lines 2570-2573: the numbers of the orders whose id starts with the year
mark: `parseInt(wo.id.split('-')[2])`, without the `NaN` results. -/
def relevantOrders (mark : List Char) (orders : List WorkOrder) : List Int :=
  (orders.filter (fun wo => startsWith wo.id.toList mark)).filterMap
    (fun wo =>
      match (jsSplit '-' wo.id.toList)[2]? with
      | some segment => parseInt segment
      | none => none)

/-- Lines 2566-2580.  `fullYear` is `new Date().getFullYear()` and `orders` is
`state.workOrders`. -/
def generateNextWorkOrderId (fullYear : Nat) (orders : List WorkOrder) : String :=
  let relevant := relevantOrders (yearMark fullYear) orders
  let maxNumber : Int := if relevant.length > 0 then mathMax relevant else 0
  let nextNumber := maxNumber + 1
  let nextSequence := padStart 4 '0' (toString nextNumber).toList
  String.mk (yearMark fullYear ++ nextSequence)

/-! ## Double-precision numbers

`calculateTotalCost` computes with JavaScript numbers that are not integers.  A
finite number is the rational it denotes, and `+`, `*` and `/` return the double
nearest to the exact result, a tie going to the even mantissa (IEEE 754
binary64: 53 binary digits, smallest exponent -1074).  A result of magnitude
`2 ^ 1024` or more (`Infinity` in the source) and `NaN` are outside the model. -/

/-- The number of binary digits of `n`, counted in at most `fuel` halvings. -/
def bitLengthLoop : Nat → Nat → Nat
  | 0, _ => 0
  | fuel + 1, n => if n = 0 then 0 else bitLengthLoop fuel (n / 2) + 1

/-- The number of binary digits of `n`. -/
def bitLength (n : Nat) : Nat := bitLengthLoop n n

/-- The integer nearest to `n / d`, a tie going to the even one. -/
def roundNearestEven (n d : Nat) : Nat :=
  let q := n / d
  let r := n % d
  if 2 * r < d then q else if 2 * r > d then q + 1 else if q % 2 = 0 then q else q + 1

/-- The exponent of the last binary digit a double keeps of the positive number
`n / d`: 52 below the exponent of its leading digit, and never below -1074. -/
def ulpExponent (n d : Nat) : Int :=
  let e0 : Int := (bitLength n : Int) - (bitLength d : Int)
  let e : Int := if n * 2 ^ (-e0).toNat ≥ d * 2 ^ e0.toNat then e0 else e0 - 1
  max (e - 52) (-1074)

/-- The double nearest to the positive number `n / d`. -/
def roundPositive (n d : Nat) : ℚ :=
  let u := ulpExponent n d
  (roundNearestEven (n * 2 ^ (-u).toNat) (d * 2 ^ u.toNat) : ℚ) * (2 : ℚ) ^ u

/-- The double nearest to `x`. -/
def roundDouble (x : ℚ) : ℚ :=
  if x.num = 0 then 0
  else if 0 < x.num then roundPositive x.num.natAbs x.den
  else - roundPositive x.num.natAbs x.den

/-- `a + b` on numbers. -/
def jsAdd (a b : ℚ) : ℚ := roundDouble (a + b)

/-- `a * b` on numbers. -/
def jsMul (a b : ℚ) : ℚ := roundDouble (a * b)

/-- `a / b` on numbers, for `b` that is not 0. -/
def jsDiv (a b : ℚ) : ℚ := roundDouble (a / b)

/-! ## Cost (`calculateTotalCost`) -/

/-- The object returned by `calculateTotalCost(order, true)`. -/
structure CostParts where
  partsCost : ℚ
  laborCost : ℚ
  totalCost : ℚ
  deriving DecidableEq

/-- Lines 3376-3403 with `returnParts = true`; `+`, `*` and `/` are the
double-precision operations, in the order of the source. -/
def calculateTotalCostParts (s : AppState) (order : WorkOrder) : CostParts :=
  let partsCost : ℚ :=
    order.partsUsed.foldl (fun sum partUsage =>
      jsAdd sum (match findPartById s.parts partUsage.partId with
        | some part => jsMul part.cost (partUsage.quantity : ℚ)
        | none => 0)) 0
  let totalWorkMs := getTotalWorkDurationMs order
  let hoursWorked : ℚ := jsDiv (totalWorkMs : ℚ) (1000 * 60 * 60)
  let laborCost : ℚ :=
    if order.technicians.length > 0 ∧ hoursWorked > 0 then
      order.technicians.foldl (fun sum techUsername =>
        match s.technicians.find? (fun t => t.username == techUsername) with
        | some technician =>
          if technician.salario ≠ 0 then
            jsAdd sum (jsMul hoursWorked (jsDiv technician.salario 160))
          else sum
        | none => sum) 0
    else 0
  { partsCost := partsCost
    laborCost := laborCost
    totalCost := jsAdd (jsAdd partsCost laborCost) (order.additionalCost.getD 0) }

/-- Lines 3376-3403 with `returnParts = false`. -/
def calculateTotalCost (s : AppState) (order : WorkOrder) : ℚ :=
  (calculateTotalCostParts s order).totalCost

/-! ## Schedule (`calculateScheduledUptimeMs`)

A `Date` is its `getTime()` value; `getDay()` reads it in a zone at the fixed
offset `utcOffsetMs` from UTC, in which `setDate(getDate() + 1)` adds 24 hours. -/

/-- `Math.round(num / den)` for `den > 0`: the nearest integer, halves up. -/
def jsRound (num den : Int) : Int := (2 * num + den) / (2 * den)

/-- `date.getDay()`: 0 is Sunday; the epoch day was a Thursday. -/
def getDay (utcOffsetMs : Int) (date : Int) : Int :=
  ((date + utcOffsetMs) / oneDayMs + 4) % 7

/-- Lines 3343-3359: the day-group selected for a weekday number, as the pair
of its start and end times. -/
def dailySchedule (schedule : Schedule) (dayOfWeek : Int) :
    Option (Option TimeOfDay × Option TimeOfDay) :=
  if schedule.weekday.isSome ∨ schedule.saturday.isSome ∨ schedule.sunday.isSome then
    if dayOfWeek ≥ 1 ∧ dayOfWeek ≤ 5 then
      match schedule.weekday with
      | some g => if g.activeDays.contains dayOfWeek then some (g.startTime, g.endTime) else none
      | none => none
    else if dayOfWeek = 6 then
      match schedule.saturday with
      | some g => if g.active then some (g.startTime, g.endTime) else none
      | none => none
    else if dayOfWeek = 0 then
      match schedule.sunday with
      | some g => if g.active then some (g.startTime, g.endTime) else none
      | none => none
    else none
  else none

/-- Lines 3361-3368: what one day adds to the total. -/
def dailyUptimeMs (schedule : Schedule) (dayOfWeek : Int) : Int :=
  match dailySchedule schedule dayOfWeek with
  | some (some startTime, some endTime) =>
    let ms := ((endTime.hour * 60 + endTime.minute)
      - (startTime.hour * 60 + startTime.minute)) * 60 * 1000
    if ms > 0 then ms else 0
  | _ => 0

/-- Lines 3341-3371: the `while` loop, run for at most `fuel` days from
`currentDate`. -/
def uptimeLoop (utcOffsetMs : Int) (schedule : Schedule) (endDate : Int) :
    Nat → Int → Int
  | 0, _ => 0
  | fuel + 1, currentDate =>
    if currentDate ≤ endDate then
      dailyUptimeMs schedule (getDay utcOffsetMs currentDate)
        + uptimeLoop utcOffsetMs schedule endDate fuel (currentDate + oneDayMs)
    else 0

/-- The number of iterations of the `while` loop of lines 3341-3371. -/
def loopDays (startDate endDate : Int) : Nat :=
  if startDate ≤ endDate then ((endDate - startDate) / oneDayMs + 1).toNat else 0

/-- Line 3333: `Math.round((end - start) / oneDayMs) + 1 || 1`. -/
def dayCount (startDate endDate : Int) : Int :=
  let n := jsRound (endDate - startDate) oneDayMs + 1
  if n = 0 then 1 else n

/-- Lines 3328-3372: what one machine adds to the total. -/
def machineUptimeMs (utcOffsetMs : Int) (machine : Machine) (startDate endDate : Int) : Int :=
  if machine.scheduleDisabled then 0
  else
    match machine.schedule with
    | none => dayCount startDate endDate * 10 * 60 * 60 * 1000
    | some schedule =>
      uptimeLoop utcOffsetMs schedule endDate (loopDays startDate endDate) startDate

/-- Lines 3324-3374. -/
def calculateScheduledUptimeMs (utcOffsetMs : Int) (machines : List Machine)
    (startDate endDate : Int) : Int :=
  machines.foldl (fun totalScheduledMs machine =>
    totalScheduledMs + machineUptimeMs utcOffsetMs machine startDate endDate) 0

/-! ## KPIs (`updateKpis`, `generateMachineReport`) -/

/-- A KPI: the sentinel 'N/A' or the number that is then formatted. -/
inductive Kpi where
  | na
  | value (q : ℚ)
  deriving DecidableEq

/-- `new Date(o.createdAt || o.date)` as a number.  An order with neither has
an invalid date in the source; it is given 0 here and excluded by hypothesis
in the theorems. -/
def failureTimestamp (o : WorkOrder) : Int :=
  match o.createdAt with
  | some createdAt => createdAt
  | none => (o.date.getD 0) * oneDayMs

/-- `.filter(o => o.type === 'Correctivo').sort((a, b) => new Date(a.createdAt
|| a.date) - new Date(b.createdAt || b.date))`: a stable sort by timestamp. -/
def correctiveOrdersSorted (orders : List WorkOrder) : List WorkOrder :=
  (orders.filter (fun o => o.type = OrderType.Correctivo)).insertionSort
    (fun a b => failureTimestamp a ≤ failureTimestamp b)

/-- Lines 3445-3455 and 2817-2826: MTBF in days from the sorted corrective
orders. -/
def mtbfKpi (correctiveOrders : List WorkOrder) : Kpi :=
  if correctiveOrders.length > 1 then
    match correctiveOrders.head?, correctiveOrders.getLast? with
    | some first, some last =>
      let timeBetweenFailures := failureTimestamp last - failureTimestamp first
      if timeBetweenFailures > 0 then
        let mtbfMs : ℚ := (timeBetweenFailures : ℚ) / ((correctiveOrders.length : ℚ) - 1)
        Kpi.value (mtbfMs / (1000 * 60 * 60 * 24))
      else Kpi.na
    | _, _ => Kpi.na
  else Kpi.na

/-- `orders.reduce((sum, o) => sum + getTotalWorkDurationMs(o), 0)`. -/
def totalRepairTime (orders : List WorkOrder) : Int :=
  orders.foldl (fun sum o => sum + getTotalWorkDurationMs o) 0

/-- Lines 3459-3464 and 2828-2834: MTTR in hours from the completed corrective
orders. -/
def mttrKpi (repairOrders : List WorkOrder) : Kpi :=
  if repairOrders.length > 0 then
    let mttrMs : ℚ := (totalRepairTime repairOrders : ℚ) / (repairOrders.length : ℚ)
    Kpi.value (mttrMs / (1000 * 60 * 60))
  else Kpi.na

/-- Lines 3468-3472: the machines the availability is computed for. -/
def machinesForKpi (s : AppState) (machineId : String) : List Machine :=
  let selected :=
    if machineId = "all" then s.machines
    else (s.machines.find? (fun m => m.id == machineId)).toList
  match s.currentUser.managedMachineIds with
  | some managedIds =>
    if s.currentUser.role = "Jefe de Area" then selected.filter (fun m => managedIds.contains m.id)
    else selected
  | none => selected

/-- Lines 3474-3489: availability in percent. -/
def availabilityKpi (s : AppState) (machineId : String) (repairOrders : List WorkOrder)
    (startDate endDate : Int) : Kpi :=
  if (machinesForKpi s machineId).length > 0 then
    let scheduledUptimeMs :=
      calculateScheduledUptimeMs s.utcOffsetMs (machinesForKpi s machineId) startDate endDate
    let totalDowntimeMs := totalRepairTime repairOrders
    if scheduledUptimeMs > 0 then
      let actualUptimeMs := max 0 (scheduledUptimeMs - totalDowntimeMs)
      Kpi.value ((actualUptimeMs : ℚ) / (scheduledUptimeMs : ℚ) * 100)
    else Kpi.na
  else Kpi.na

/-- The texts `updateKpis` writes for MTBF, MTTR and availability. -/
structure Kpis where
  mtbf : Kpi
  mttr : Kpi
  availability : Kpi
  deriving DecidableEq

/-- Lines 3439-3441: the orders in scope, for the value `machineId` of
`kpi-machine-select`. -/
def periodOrders (machineId : String) (ordersInPeriod : List WorkOrder) : List WorkOrder :=
  if machineId = "all" then ordersInPeriod
  else ordersInPeriod.filter (fun wo => wo.machineId == machineId)

/-- Line 3458: the completed corrective orders among `orders`. -/
def repairOrders (orders : List WorkOrder) : List WorkOrder :=
  orders.filter (fun o => o.type = OrderType.Correctivo ∧ o.status = Status.Completado)

/-- Lines 3436-3489.  `machineId` is the value of `kpi-machine-select`. -/
def updateKpis (s : AppState) (machineId : String) (ordersInPeriod : List WorkOrder)
    (startDate endDate : Int) : Kpis :=
  { mtbf := mtbfKpi (correctiveOrdersSorted (periodOrders machineId ordersInPeriod))
    mttr := mttrKpi (repairOrders (periodOrders machineId ordersInPeriod))
    availability :=
      availabilityKpi s machineId (repairOrders (periodOrders machineId ordersInPeriod))
        startDate endDate }

/-- Lines 2794-2834: the MTBF and MTTR of `generateMachineReport` for the value
`machineId` of `report-machine-select`; `none` when the function returns
before computing them. -/
def generateMachineReportKpis (s : AppState) (machineId : String) : Option (Kpi × Kpi) :=
  if machineId = "" then none
  else
    match s.machines.find? (fun m => m.id == machineId) with
    | none => none
    | some _ =>
      let machineWorkOrders := s.workOrders.filter (fun o => o.machineId == machineId)
      let correctiveOrdersForKpi := correctiveOrdersSorted machineWorkOrders
      some (mtbfKpi correctiveOrdersForKpi,
        mttrKpi (correctiveOrdersForKpi.filter (fun o => o.status = Status.Completado)))

/-! ## Specification predicates -/

/-- What the spec asks of one stock-ledger step on the document `docId` whose
persisted stock is `s`, for the signed delta `d`: the step throws iff
`s + d < 0`, and otherwise it persists exactly `s + d` for that document and
leaves the stock of every other document as it was. -/
def LedgerStepSpec (parts : List Part) (docId : String) (s d : Int)
    (result : Except String (List Part)) : Prop :=
  ((∃ msg, result = .error msg) ↔ s + d < 0) ∧
  (¬ s + d < 0 → ∃ parts', result = .ok parts' ∧ stockOf parts' docId = some (s + d) ∧
    ∀ other, other ≠ docId → stockOf parts' other = stockOf parts other)

/-- The quantity of `partId` in a parts-used list; a part that is absent counts
as 0. -/
def quantityIn (l : List PartUsage) (partId : String) : Int :=
  ((l.find? (fun u => u.partId == partId)).map (fun u => u.quantity)).getD 0

/-- The delta the reconciliation loop applies to `partId`: the value of its
entry in `stockDeltas`, and 0 when it has no entry (no step runs for it). -/
def deltaFor (deltas : JsMap) (partId : String) : Int :=
  (JsMap.get? deltas partId).getD 0

/-- The keys of a map, in insertion order. -/
def JsMap.keys (m : JsMap) : List String := m.map (fun e => e.1)

/-- Every part document has a stock that is not negative. -/
def StockNonneg (parts : List Part) : Prop := ∀ p ∈ parts, 0 ≤ p.stock

/-- The document id of every part is its `id` field, as `handlePartSubmit`
writes it (line 1164: `doc(state.collections.parts, partData.id)`). -/
def PartsKeyed (parts : List Part) : Prop := ∀ p ∈ parts, p.fb_id = p.id

/-- A step of a completion loop on keyed parts: it keeps the parts keyed and
touches no document but the one of its own part. -/
def StepFrame (step : List Part → PartUsage → Except String (List Part)) : Prop :=
  ∀ parts parts' u, PartsKeyed parts → step parts u = .ok parts' →
    PartsKeyed parts' ∧ ∀ other, other ≠ u.partId → stockOf parts' other = stockOf parts other

/-- The operation showed an error toast. -/
def Outcome.failed (o : Outcome) : Prop := o.toast.map (fun t => t.2) = some "error"

/-! ## The state machine of section 4.1 -/

/-- The edges of the state machine: start from Pending, pause and complete
from In Progress, resume and complete from Paused, cancel from a state that is
not terminal. -/
def allowedTransition (old new : Status) : Prop :=
  (old = Status.Pendiente ∧ new = Status.EnProceso) ∨
  (old = Status.EnProceso ∧ (new = Status.Pausado ∨ new = Status.Completado)) ∨
  (old = Status.Pausado ∧ (new = Status.EnProceso ∨ new = Status.Completado)) ∨
  ((old = Status.Pendiente ∨ old = Status.EnProceso ∨ old = Status.Pausado)
    ∧ new = Status.Cancelado)

/-- A call of one of the two transition operations that follows the state
machine: the order exists and its status and the new status form an edge; or the
order is created by `saveWorkOrder` in the initial state Pending; or the form is
saved with the status unchanged. -/
inductive Transition : AppState → AppState → Prop where
  | action (s : AppState) (orderId : String) (newStatus : Status) (now : Int) (order : WorkOrder) :
      findOrder s.workOrders orderId = some order →
      allowedTransition order.status newStatus →
      Transition s (handleWorkOrderAction s orderId newStatus now).state
  | save (s : AppState) (form : WorkOrderForm) (orderId : String) (updates : Option Status)
      (now : Int) (order : WorkOrder) :
      existingOrderOf s form orderId = some order →
      allowedTransition order.status (updates.getD form.status) →
      Transition s (saveWorkOrder s form orderId updates now).state
  | edit (s : AppState) (form : WorkOrderForm) (orderId : String) (updates : Option Status)
      (now : Int) (order : WorkOrder) :
      existingOrderOf s form orderId = some order →
      order.status = updates.getD form.status →
      Transition s (saveWorkOrder s form orderId updates now).state
  | create (s : AppState) (form : WorkOrderForm) (orderId : String) (updates : Option Status)
      (now : Int) :
      existingOrderOf s form orderId = none →
      updates.getD form.status = Status.Pendiente →
      Transition s (saveWorkOrder s form orderId updates now).state

/-- The states reached from `s0` by a sequence of such calls. -/
inductive Reachable (s0 : AppState) : AppState → Prop where
  | init : Reachable s0 s0
  | step {s s' : AppState} : Reachable s0 s → Transition s s' → Reachable s0 s'

/-- Every order is Pending and has no interval. -/
def InitialOrders (s : AppState) : Prop :=
  ∀ o ∈ s.workOrders, o.status = Status.Pendiente ∧ o.workIntervals = []

/-- Every interval but the last one has an `end`. -/
def AllButLastClosed (l : List Interval) : Prop := openCount l.dropLast = 0

/-- The invariant of an order's interval list: only the last interval can be
open, and none is open unless the order is In Progress or Cancelled. -/
def OrderInv (status : Status) (l : List Interval) : Prop :=
  AllButLastClosed l ∧
  (status ≠ Status.EnProceso → status ≠ Status.Cancelado → openCount l = 0)

/-! ## Cost formula of section 4.3 -/

/-- The unit cost of the part `partId` in the current part records; 0 for a
part that does not exist. -/
def unitCostOf (s : AppState) (partId : String) : ℚ :=
  ((findPartById s.parts partId).map (fun p => p.cost)).getD 0

/-- The hourly rate `salario / 160` of the technician `username`; 0 for a
technician that does not exist. -/
def hourlyRateOf (s : AppState) (username : String) : ℚ :=
  ((s.technicians.find? (fun t => t.username == username)).map (fun t => t.salario)).getD 0 / 160

/-- `getTotalWorkDurationMs(order)` in hours. -/
def workedHours (order : WorkOrder) : ℚ :=
  (getTotalWorkDurationMs order : ℚ) / (1000 * 60 * 60)

/-- The spec's `partsCost`: sum over the parts-used list of unit cost times
quantity. -/
def specPartsCost (s : AppState) (order : WorkOrder) : ℚ :=
  (order.partsUsed.map (fun u => unitCostOf s u.partId * (u.quantity : ℚ))).sum

/-- The spec's `laborCost`: worked hours times the sum of the hourly rates of
the order's technicians. -/
def specLaborCost (s : AppState) (order : WorkOrder) : ℚ :=
  workedHours order * (order.technicians.map (fun t => hourlyRateOf s t)).sum

/-- The arithmetic mean of the worked time, in hours, of the orders of a list
that is not empty. -/
def meanWorkedHours (orders : List WorkOrder) : ℚ :=
  (orders.map workedHours).sum / (orders.length : ℚ)

/-- The corrective orders among `orders`. -/
def correctiveOrders (orders : List WorkOrder) : List WorkOrder :=
  orders.filter (fun o => o.type = OrderType.Correctivo)

/-- The failure timestamps in scope: `createdAt`, falling back to `date`, of
the corrective orders. -/
def failureTimestamps (orders : List WorkOrder) : List Int :=
  (correctiveOrders orders).map failureTimestamp

/-- The spec's MTBF in days: `(last - first) / (count - 1)` milliseconds,
converted to days. -/
def mtbfDays (first last : Int) (count : Nat) : ℚ :=
  ((last - first : Int) : ℚ) / ((count : ℚ) - 1) / (1000 * 60 * 60 * 24)

/-- Every order has a creation time or a date, so that `new Date(o.createdAt ||
o.date)` is a valid date. -/
def HasFailureDate (orders : List WorkOrder) : Prop :=
  ∀ o ∈ orders, o.createdAt.isSome ∨ o.date.isSome

/-- The spec's `downtimeMs`: the sum of the worked durations of the completed
corrective orders among `orders`. -/
def downtimeMs (orders : List WorkOrder) : Int :=
  ((repairOrders orders).map getTotalWorkDurationMs).sum

/-- The spec's availability in percent for a scheduled uptime that is not 0. -/
def specAvailability (scheduledUptimeMs downtime : Int) : ℚ :=
  max 0 (((scheduledUptimeMs : ℚ) - (downtime : ℚ)) / (scheduledUptimeMs : ℚ)) * 100

/-- The number `x` is a finite double: rounding leaves it as it is, and its
magnitude is below `2 ^ 1024`. -/
def IsDouble (x : ℚ) : Prop := roundDouble x = x ∧ -(2 : ℚ) ^ 1024 < x ∧ x < (2 : ℚ) ^ 1024

instance (x : ℚ) : Decidable (IsDouble x) := by
  unfold IsDouble
  exact inferInstance

/-- The labor terms of the cost formula: worked hours times the hourly rate, for
each technician of the order. -/
def laborTerms (s : AppState) (order : WorkOrder) : List ℚ :=
  order.technicians.map (fun t => workedHours order * hourlyRateOf s t)

/-- The parts terms of the cost formula: unit cost times quantity, for each
entry of the parts-used list. -/
def partsTerms (s : AppState) (order : WorkOrder) : List ℚ :=
  order.partsUsed.map (fun u => unitCostOf s u.partId * (u.quantity : ℚ))

/-- Every quotient, product and partial sum of the cost formula of section 4.3
is a finite double, so that no operation of the formula is rounded. -/
def CostIsExact (s : AppState) (order : WorkOrder) : Prop :=
  IsDouble (workedHours order) ∧
  (∀ t ∈ order.technicians, IsDouble (hourlyRateOf s t)) ∧
  (∀ x ∈ laborTerms s order, IsDouble x) ∧
  (∀ l ∈ (laborTerms s order).inits, IsDouble l.sum) ∧
  (∀ x ∈ partsTerms s order, IsDouble x) ∧
  (∀ l ∈ (partsTerms s order).inits, IsDouble l.sum) ∧
  IsDouble (specPartsCost s order + specLaborCost s order) ∧
  IsDouble (specPartsCost s order + specLaborCost s order + order.additionalCost.getD 0)

instance (s : AppState) (order : WorkOrder) : Decidable (CostIsExact s order) := by
  unfold CostIsExact
  exact inferInstance

/-- Every used part and every technician of the order exists. -/
def OrderResolved (s : AppState) (order : WorkOrder) : Prop :=
  (∀ u ∈ order.partsUsed, (findPartById s.parts u.partId).isSome) ∧
  (∀ t ∈ order.technicians, (s.technicians.find? (fun x => x.username == t)).isSome)

/-- No interval ends before it starts. -/
def IntervalsOrdered (l : List Interval) : Prop :=
  ∀ i ∈ l, ∀ e, i.end_ = some e → i.start ≤ e

/-- The invariant holds for every order of the collection. -/
def StateInv (s : AppState) : Prop :=
  ∀ o ∈ s.workOrders, OrderInv o.status o.workIntervals

/-! ## Schedule model of section 4.4 -/

/-- Minutes after midnight of a time of day. -/
def minutesOf (t : TimeOfDay) : Int := t.hour * 60 + t.minute

/-- The day-group of a schedule that matches a weekday number, in the spec's
words: the weekday group on Monday to Friday when the number is in its active
days, the Saturday group on day 6 and the Sunday group on day 0 when their
active flag is set; the result is the pair of its start and end times. -/
def matchingGroup (schedule : Schedule) (dayOfWeek : Int) :
    Option (Option TimeOfDay × Option TimeOfDay) :=
  if 1 ≤ dayOfWeek ∧ dayOfWeek ≤ 5 then
    (schedule.weekday.filter (fun g => g.activeDays.contains dayOfWeek)).map
      (fun g => (g.startTime, g.endTime))
  else if dayOfWeek = 6 then
    (schedule.saturday.filter (fun g => g.active)).map (fun g => (g.startTime, g.endTime))
  else if dayOfWeek = 0 then
    (schedule.sunday.filter (fun g => g.active)).map (fun g => (g.startTime, g.endTime))
  else none

/-- The scheduled minutes of a day, in the spec's words: `endMinutes -
startMinutes` of the matching group when that span is positive, 0 otherwise and
0 when no group matches (or a time of the group is empty). -/
def specDayMinutes (schedule : Schedule) (dayOfWeek : Int) : Int :=
  match matchingGroup schedule dayOfWeek with
  | some (some startTime, some endTime) => max 0 (minutesOf endTime - minutesOf startTime)
  | _ => 0

/-- The days the `while` loop of lines 3341-3371 visits: `startDate`, then
every 24 hours while the date is not after `endDate`. -/
def visitedDays (startDate endDate : Int) : List Int :=
  (List.range (loopDays startDate endDate)).map
    (fun (k : Nat) => startDate + (k : Int) * oneDayMs)

/-- The spec's scheduled uptime of a machine with the schedule `schedule`, in
milliseconds: the scheduled minutes of every visited day. -/
def specScheduleUptimeMs (utcOffsetMs : Int) (schedule : Schedule) (startDate endDate : Int) :
    Int :=
  ((visitedDays startDate endDate).map
    (fun day => specDayMinutes schedule (getDay utcOffsetMs day) * (60 * 1000))).sum

/-! ## Identifier policy of section 6 -/

/-- The sequence number `NNNN` of an id of the form `MA-YY-NNNN`. -/
def specSequence (id : String) : Nat :=
  match id.toList with
  | [_, _, _, _, _, _, n1, n2, n3, n4] =>
    (((n1.toNat - 48) * 10 + (n2.toNat - 48)) * 10 + (n3.toNat - 48)) * 10 + (n4.toNat - 48)
  | _ => 0

/-- The maximum sequence number among the ids that start with the year mark,
0 when there is none. -/
def specMaxSequence (mark : List Char) (orders : List WorkOrder) : Nat :=
  ((orders.filter (fun wo => startsWith wo.id.toList mark)).map
    (fun wo => specSequence wo.id)).foldl max 0

/-- The id the spec asks for: the year mark followed by 1 + the maximum
sequence number, padded with zeros to 4 digits. -/
def specNextId (fullYear : Nat) (orders : List WorkOrder) : String :=
  String.mk (yearMark fullYear
    ++ padStart 4 '0' (toString (1 + specMaxSequence (yearMark fullYear) orders)).toList)

/-- The number written by a text of decimal digits. -/
def digitsValue (l : List Char) : Nat :=
  l.foldl (fun acc c => acc * 10 + (c.toNat - 48)) 0

/-- Every order id has the form `MA-YY-NNNN` that `saveWorkOrder` accepts. -/
def IdsWellFormed (orders : List WorkOrder) : Prop :=
  ∀ wo ∈ orders, idRegexTest wo.id = true

/-! ## Persisted orders -/

/-- The document id of every order is its `id` field, as `saveWorkOrder`
writes it (line 2337: `doc(state.collections.workOrders, orderId)`). -/
def OrdersKeyed (orders : List WorkOrder) : Prop := ∀ wo ∈ orders, wo.fb_id = wo.id

/-- The stored document `stored` holds what `orderData` wrote: every field of
`orderData` but the document id and the two fields a merge can leave alone. -/
def OrderWritten (stored orderData : WorkOrder) : Prop :=
  stored = { orderData with
    fb_id := stored.fb_id, createdAt := stored.createdAt,
    additionalCost := stored.additionalCost }

/-- The signed-in user passes the check of lines 2373-2376 for the order. -/
def MayChangeStatus (s : AppState) (order : WorkOrder) : Prop :=
  ¬ (s.currentUser.role = "Técnico" ∧ order.leadTechnician ≠ s.currentUser.username)

instance (s : AppState) (order : WorkOrder) : Decidable (MayChangeStatus s order) := by
  unfold MayChangeStatus
  exact inferInstance

/-- The operation showed a success toast. -/
def Outcome.succeeded (o : Outcome) : Prop := o.toast.map (fun t => t.2) = some "success"

instance (o : Outcome) : Decidable o.succeeded := by
  unfold Outcome.succeeded
  exact inferInstance

/-! ## Requests of section 3 -/

/-- What the spec asks of a request after a successful save of the order
`orderId` that came from the request `sourceSolicitudId` (empty when the save has
no source request): the source request becomes Approved and linked to the order
when it is still Pending, every other request stays as it was. -/
def specRequestAfterSave (sourceSolicitudId orderId : String) (q : Solicitud) : Solicitud :=
  if sourceSolicitudId ≠ "" ∧ q.fb_id = sourceSolicitudId ∧ q.status = SolicitudStatus.Pendiente
  then { q with status := SolicitudStatus.Aprobado, workOrderId := some orderId }
  else q

/-- A validation rule of section 3 is violated by the form and the id. -/
def ViolatesValidation (s : AppState) (form : WorkOrderForm) (orderId : String) : Prop :=
  idRegexTest orderId = false ∨
  (form.hiddenId = "" ∧ ∃ wo ∈ s.workOrders, wo.id = orderId) ∨
  (form.type = OrderType.Correctivo ∧ form.failureType = "") ∨
  (form.type = OrderType.Preventivo ∧ form.maintenanceType = "") ∨
  (∃ st en, formTimestamp s.utcOffsetMs form.startDate form.startTime = some st ∧
    formTimestamp s.utcOffsetMs form.endDate form.endTime = some en ∧ en ≤ st) ∨
  (form.leadTechnician = "" ∧ form.status ≠ Status.Cancelado)

/-! ## Worked time of section 4.2 -/

/-- The duration of a stored interval that has both a valid start and a valid
end; `none` for every other interval. -/
def closedDuration (i : StoredInterval) : Option Int :=
  match i.start, i.end_ with
  | DateText.valid start, DateText.valid end_ => some (end_ - start)
  | _, _ => none

/-- The sum of the durations of the intervals with a valid start and a valid
end. -/
def specWorkedMs (intervals : List StoredInterval) : Int :=
  (intervals.filterMap closedDuration).sum

/-! ## Error texts of section 5 -/

/-- The text `part` occurs in `text`. -/
def containsText (text part : String) : Bool :=
  text.toList.tails.any (fun t => startsWith t part.toList)

/-! ## Scenario data -/

/-- Part P1 of the spec's scenarios: unit cost 50, stock 3. -/
def scenarioPart : Part := { fb_id := "P1", id := "P1", cost := 50, stock := 3 }

/-- An order in progress that used 5 units of P1. -/
def scenarioOrder : WorkOrder :=
  { fb_id := "MA-25-0001", id := "MA-25-0001", machineId := "M1", description := "",
    status := Status.EnProceso, type := OrderType.Correctivo, date := some 20089,
    startTime := some 1735725600000, endTime := none, requester := "admin",
    leadTechnician := "ana", supportTechnicians := ["luis"], technicians := ["ana", "luis"],
    partsUsed := [⟨"P1", 5⟩], failureType := some "Mecánica", maintenanceType := none,
    workIntervals := [⟨1735725600000, none⟩], createdAt := some 1735725000000,
    additionalCost := none }

/-- A state holding the scenario part and order, with an administrator signed
in. -/
def scenarioState : AppState :=
  { currentUser := ⟨"admin", "Admin", none⟩, utcOffsetMs := -21600000, machines := [],
    parts := [scenarioPart],
    technicians := [⟨"ana", "Técnico", 16000⟩, ⟨"luis", "Técnico", 24000⟩],
    workOrders := [scenarioOrder], solicitudes := [] }

/-- The order of the cost scenario: technicians with salaries 16000 and 24000,
one closed interval of 2 hours, part P1 (cost 50) used 3 times, no additional
cost. -/
def costOrder : WorkOrder :=
  { scenarioOrder with
    status := Status.Completado, partsUsed := [⟨"P1", 3⟩],
    workIntervals := [⟨1735725600000, some 1735732800000⟩],
    endTime := some 1735732800000 }

/-- Two corrective orders without `createdAt` and with the same date, so
that both timestamps fall back to that day. -/
def sameDayOrders : List WorkOrder :=
  [{ scenarioOrder with createdAt := none },
   { scenarioOrder with fb_id := "MA-25-0002", id := "MA-25-0002", createdAt := none }]

/-- Machine M1 of the availability scenario: weekdays 08:00-17:00, no
weekend. -/
def scenarioMachine : Machine :=
  { id := "M1", scheduleDisabled := false,
    schedule := some
      { weekday := some { activeDays := [1, 2, 3, 4, 5], startTime := some ⟨8, 0⟩,
                          endTime := some ⟨17, 0⟩ },
        saturday := some { active := false, startTime := none, endTime := none },
        sunday := some { active := false, startTime := none, endTime := none } } }

/-- A machine with no schedule defined, not schedule-disabled. -/
def unscheduledMachine : Machine := { id := "M2", scheduleDisabled := false, schedule := none }

/-- The scenario state with machine M1. -/
def kpiState : AppState := { scenarioState with machines := [scenarioMachine] }

/-- Monday 2025-01-06 00:00:00 in the zone of the scenario state (UTC-6). -/
def mondayStart : Int := 1736143200000

/-- Monday 2025-01-06 23:59:59 in the same zone. -/
def mondayEnd : Int := 1736229599000

/-- Three corrective orders created 0, 2 and 6 days after 2025-01-01T10:00Z. -/
def spacedOrders : List WorkOrder :=
  [{ scenarioOrder with createdAt := some 1735898400000 },
   { scenarioOrder with fb_id := "MA-25-0002", id := "MA-25-0002",
                        createdAt := some 1735725600000 },
   { scenarioOrder with fb_id := "MA-25-0003", id := "MA-25-0003",
                        createdAt := some 1736244000000 }]

/-- The scenario order before work started: Pending, no interval. -/
def pendingOrder : WorkOrder :=
  { scenarioOrder with
    status := Status.Pendiente, startTime := none, workIntervals := [] }

/-- The scenario state with the order still Pending. -/
def pendingState : AppState := { scenarioState with workOrders := [pendingOrder] }

/-- The modal's form for the scenario order, as `showWorkOrderModal` fills it. -/
def scenarioForm : WorkOrderForm :=
  { hiddenId := "MA-25-0001", sourceSolicitudId := "", partsRows := [⟨"P1", 5⟩],
    leadTechnician := "ana", supportTechnicians := ["luis"], startDate := some 20089,
    startTime := some 240, endDate := none, endTime := none, machineId := "M1",
    description := "", status := Status.EnProceso, type := OrderType.Correctivo,
    requester := "admin", failureType := "Mecánica", maintenanceType := "" }

/-- The existing orders of the id scenario: MA-25-0001, MA-25-0007 and an
order of another year, MA-24-0042. -/
def idScenarioOrders : List WorkOrder :=
  [scenarioOrder, { scenarioOrder with fb_id := "MA-25-0007", id := "MA-25-0007" },
   { scenarioOrder with fb_id := "MA-24-0042", id := "MA-24-0042" }]

/-- The Pending scenario order with no lead technician assigned. -/
def unassignedOrder : WorkOrder := { pendingOrder with leadTechnician := "", technicians := [] }

/-- The scenario state holding only the unassigned order. -/
def unassignedState : AppState := { scenarioState with workOrders := [unassignedOrder] }

/-- The scenario order paused after two hours of work. -/
def pausedOrder : WorkOrder :=
  { scenarioOrder with
    status := Status.Pausado, workIntervals := [⟨1735725600000, some 1735732800000⟩] }

/-- The scenario state with the order Paused. -/
def pausedState : AppState := { scenarioState with workOrders := [pausedOrder] }

/-- The modal's form for the scenario order with status Cancelled chosen and the
lead technician cleared. -/
def cancelForm : WorkOrderForm :=
  { scenarioForm with status := Status.Cancelado, leadTechnician := "", supportTechnicians := [] }

/-- The modal's form for the scenario order with an end date and time filled
in (2025-01-01 06:00 local, 12:00Z) and one unit of P1. -/
def completeForm : WorkOrderForm :=
  { scenarioForm with endDate := some 20089, endTime := some 360, partsRows := [⟨"P1", 1⟩] }

/-- The modal's form for the scenario order with status Completed chosen in the
status select and one unit of P1. -/
def directCompleteForm : WorkOrderForm :=
  { scenarioForm with status := Status.Completado, partsRows := [⟨"P1", 1⟩] }

/-- The scenario state with the order Completed. -/
def completedState : AppState := { scenarioState with workOrders := [costOrder] }

/-- The scenario state with two requests: S1 still Pending, S2 rejected. -/
def requestState : AppState :=
  { scenarioState with
    solicitudes := [⟨"S1", SolicitudStatus.Pendiente, none⟩,
                    ⟨"S2", SolicitudStatus.Rechazado, none⟩] }

/-- The modal's form for a new corrective order created from request S1. -/
def requestForm : WorkOrderForm :=
  { scenarioForm with hiddenId := "", sourceSolicitudId := "S1", status := Status.Pendiente }

/-- The modal's form for the scenario order with the lead technician cleared. -/
def noLeadForm : WorkOrderForm := { scenarioForm with leadTechnician := "" }

/-- The modal's form for the Paused scenario order, as `showWorkOrderModal`
fills it: the start date and time are those of the order's `startTime`. -/
def pausedForm : WorkOrderForm := { scenarioForm with status := Status.Pausado }

/-- The scenario order with two parts used: 2 units of P1 and 5 of P2. -/
def twoPartOrder : WorkOrder := { scenarioOrder with partsUsed := [⟨"P1", 2⟩, ⟨"P2", 5⟩] }

/-- A state with P1 (stock 3) and P2 (stock 1) and the order that uses both. -/
def twoPartState : AppState :=
  { scenarioState with
    parts := [scenarioPart, { fb_id := "P2", id := "P2", cost := 20, stock := 1 }],
    workOrders := [twoPartOrder] }

/-- The modal's form for the order that uses both parts. -/
def twoPartForm : WorkOrderForm := { scenarioForm with partsRows := [⟨"P1", 2⟩, ⟨"P2", 5⟩] }

/-- A store whose only order is MA-25-9999. -/
def fullYearOrders : List WorkOrder :=
  [{ scenarioOrder with fb_id := "MA-25-9999", id := "MA-25-9999" }]

/-- The scenario state with salaries 15000 and 13000. -/
def minuteState : AppState :=
  { scenarioState with
    technicians := [⟨"ana", "Técnico", 15000⟩, ⟨"luis", "Técnico", 13000⟩] }

/-- The order of the cost scenario with one closed interval of one minute and
no part used. -/
def minuteOrder : WorkOrder :=
  { costOrder with
    partsUsed := [], workIntervals := [⟨1735725600000, some 1735725660000⟩],
    endTime := some 1735725660000 }

/-- A session on the scenario state whose memory is in sync with the store. -/
def scenarioSession : Session := { store := scenarioState, workOrders := scenarioState.workOrders }

/-- The session after the completion of the scenario order failed at 12:00Z. -/
def failedSession : Session :=
  (handleWorkOrderActionInMemory scenarioSession "MA-25-0001" Status.Completado
    1735732800000).session

/-- The session after the failed completion, with P1 restocked to 10. -/
def restockedSession : Session :=
  { failedSession with
    store := { failedSession.store with parts := [{ scenarioPart with stock := 10 }] } }

/-! # Theorems -/

/-! ## Store lemmas -/

theorem getPartDoc_fb_id {parts : List Part} {docId : String} {p : Part}
    (h : getPartDoc parts docId = some p) : p.fb_id = docId := by
  have := List.find?_some h
  simpa using this

theorem stockOf_cons (p : Part) (rest : List Part) (docId : String) :
    stockOf (p :: rest) docId = if p.fb_id = docId then some p.stock else stockOf rest docId := by
  unfold stockOf getPartDoc
  rw [List.find?_cons]
  by_cases h : p.fb_id = docId
  · have hb : (p.fb_id == docId) = true := by simpa using h
    simp [hb, h]
  · have hb : (p.fb_id == docId) = false := by simpa using h
    simp [hb, h]

theorem updatePartStock_cons (p : Part) (rest : List Part) (docId : String) (v : Int) :
    updatePartStock (p :: rest) docId v =
      (if p.fb_id = docId then { p with stock := v } else p) :: updatePartStock rest docId v := by
  simp [updatePartStock]

theorem stockOf_updatePartStock_self {parts : List Part} {docId : String} {s : Int}
    (v : Int) (h : stockOf parts docId = some s) :
    stockOf (updatePartStock parts docId v) docId = some v := by
  induction parts with
  | nil => simp [stockOf, getPartDoc] at h
  | cons p rest ih =>
    rw [updatePartStock_cons, stockOf_cons]
    rw [stockOf_cons] at h
    by_cases hp : p.fb_id = docId
    · simp [hp]
    · simp only [hp, if_false] at h ⊢
      exact ih h

theorem stockOf_updatePartStock_other {parts : List Part} {docId other : String}
    (v : Int) (h : other ≠ docId) :
    stockOf (updatePartStock parts docId v) other = stockOf parts other := by
  induction parts with
  | nil => rfl
  | cons p rest ih =>
    rw [updatePartStock_cons, stockOf_cons, stockOf_cons, ih]
    by_cases hp : p.fb_id = docId
    · have hne : ¬ p.fb_id = other := fun e => h (e.symm.trans hp)
      have hne' : ¬ docId = other := fun e => h e.symm
      simp [hp, hne']
    · simp [hp]

theorem stockOf_updatePartStock_none {parts : List Part} {docId other : String}
    (v : Int) (h : stockOf parts other = none) :
    stockOf (updatePartStock parts docId v) other = none := by
  induction parts with
  | nil => rfl
  | cons p rest ih =>
    rw [updatePartStock_cons, stockOf_cons]
    rw [stockOf_cons] at h
    by_cases hq : p.fb_id = other
    · simp [hq] at h
    · simp only [hq, if_false] at h
      by_cases hp : p.fb_id = docId
      · simp [hp, hq, ih h]
        intro e; exact hq (hp.trans e)
      · simp [hp, hq, ih h]

theorem stockOf_eq_some {parts : List Part} {docId : String} {s : Int}
    (h : stockOf parts docId = some s) :
    ∃ p, getPartDoc parts docId = some p ∧ p.stock = s := by
  unfold stockOf at h
  cases hg : getPartDoc parts docId with
  | none => simp [hg] at h
  | some p => exact ⟨p, rfl, by simpa [hg] using h⟩

/-! ## C1: the stock-ledger step -/

theorem applyStockDelta_spec (parts : List Part) (partId : String) (s d : Int)
    (h : stockOf parts partId = some s) :
    applyStockDelta parts partId d =
      if s + d < 0 then
        .error s!"Stock insuficiente para {partId}. Stock: {s}, Necesita: {-d}."
      else .ok (updatePartStock parts partId (s + d)) := by
  obtain ⟨p, hp, hs⟩ := stockOf_eq_some h
  subst hs
  simp only [applyStockDelta, hp]

theorem consumePartAction_spec (parts : List Part) (u : PartUsage) (p : Part) (s : Int)
    (hfind : findPartById parts u.partId = some p) (h : stockOf parts p.fb_id = some s) :
    consumePartAction parts u =
      if s - u.quantity < 0 then
        .error s!"Stock insuficiente para {u.partId}. No se puede completar la orden."
      else .ok (updatePartStock parts p.fb_id (s - u.quantity)) := by
  obtain ⟨p', hp, hs⟩ := stockOf_eq_some h
  subst hs
  simp only [consumePartAction, hfind, hp]

theorem consumePartSave_spec (parts : List Part) (u : PartUsage) (p : Part) (s : Int)
    (hq : 0 < u.quantity)
    (hfind : findPartById parts u.partId = some p) (h : stockOf parts p.fb_id = some s) :
    consumePartSave parts u =
      if s - u.quantity < 0 then
        .error s!"Stock insuficiente para {u.partId}. Stock: {s}, Necesita: {u.quantity}."
      else .ok (updatePartStock parts p.fb_id (s - u.quantity)) := by
  obtain ⟨p', hp, hs⟩ := stockOf_eq_some h
  subst hs
  simp only [consumePartSave, hfind, hp, gt_iff_lt, hq, if_true]

theorem ledgerStepSpec_of_eq {parts : List Part} {docId : String} {s d : Int}
    {result : Except String (List Part)} {msg : String}
    (hs : stockOf parts docId = some s)
    (h : result = if s + d < 0 then .error msg else .ok (updatePartStock parts docId (s + d))) :
    LedgerStepSpec parts docId s d result := by
  subst h
  by_cases hneg : s + d < 0
  · refine ⟨⟨fun _ => hneg, fun _ => ⟨msg, by simp [hneg]⟩⟩, fun h => absurd hneg h⟩
  · refine ⟨⟨?_, fun h => absurd h hneg⟩, fun _ => ?_⟩
    · rintro ⟨m, hm⟩
      simp [hneg] at hm
    · exact ⟨_, by simp [hneg], stockOf_updatePartStock_self _ hs,
        fun other ho => stockOf_updatePartStock_other _ ho⟩

/-- C1: for a part whose persisted stock is `s`, the per-part step of
`handleSaveManagedParts` with the signed delta `d`, and the per-part step of the
completion loops of `handleWorkOrderAction` and of `saveWorkOrder` with
`d = -quantity`, fail iff `s + d < 0` and otherwise persist exactly `s + d` as
the part's stock, touching no other part; `saveWorkOrder` runs the step for a
positive quantity only and skips an entry whose quantity is not positive. -/
theorem stock_ledger_step (parts : List Part) (p : Part) (s d q : Int)
    (hfind : findPartById parts p.id = some p) (hdoc : p.fb_id = p.id)
    (hs : stockOf parts p.id = some s) :
    LedgerStepSpec parts p.id s d (applyStockDelta parts p.id d) ∧
    LedgerStepSpec parts p.id s (-q) (consumePartAction parts ⟨p.id, q⟩) ∧
    (0 < q → LedgerStepSpec parts p.id s (-q) (consumePartSave parts ⟨p.id, q⟩)) ∧
    (¬ 0 < q → consumePartSave parts ⟨p.id, q⟩ = .ok parts) := by
  have hs' : stockOf parts p.fb_id = some s := by rw [hdoc]; exact hs
  refine ⟨ledgerStepSpec_of_eq hs (applyStockDelta_spec parts p.id s d hs), ?_, fun hq => ?_,
    fun hq => by unfold consumePartSave; rw [if_neg hq]⟩
  · have h := consumePartAction_spec parts ⟨p.id, q⟩ p s hfind hs'
    rw [hdoc] at h
    exact ledgerStepSpec_of_eq hs h
  · have h := consumePartSave_spec parts ⟨p.id, q⟩ p s hq hfind hs'
    rw [hdoc] at h
    exact ledgerStepSpec_of_eq hs h

/-- Witness of C1: part P1 with stock 3, delta -2 and quantity 2. -/
theorem stock_ledger_step_witness :
    LedgerStepSpec [⟨"P1", "P1", 50, 3⟩] "P1" 3 (-2)
        (applyStockDelta [⟨"P1", "P1", 50, 3⟩] "P1" (-2)) ∧
      LedgerStepSpec [⟨"P1", "P1", 50, 3⟩] "P1" 3 (-2)
        (consumePartAction [⟨"P1", "P1", 50, 3⟩] ⟨"P1", 2⟩) ∧
      LedgerStepSpec [⟨"P1", "P1", 50, 3⟩] "P1" 3 (-2)
        (consumePartSave [⟨"P1", "P1", 50, 3⟩] ⟨"P1", 2⟩) :=
  have h := stock_ledger_step [⟨"P1", "P1", 50, 3⟩] ⟨"P1", "P1", 50, 3⟩ 3 (-2) 2 rfl rfl rfl
  ⟨h.1, h.2.1, h.2.2.1 (by decide)⟩

/-! ## C4: the deltas of a reconciliation -/

theorem JsMap.get?_cons (e : String × Int) (m : JsMap) (key : String) :
    JsMap.get? (e :: m) key = if e.1 = key then some e.2 else JsMap.get? m key := by
  unfold JsMap.get?
  rw [List.find?_cons]
  by_cases h : e.1 = key
  · have hb : (e.1 == key) = true := by simpa using h
    simp [hb, h]
  · have hb : (e.1 == key) = false := by simpa using h
    simp [hb, h]

theorem JsMap.get?_set_self (m : JsMap) (key : String) (v : Int) :
    JsMap.get? (JsMap.set m key v) key = some v := by
  induction m with
  | nil => simp [JsMap.set, JsMap.get?_cons]
  | cons e rest ih =>
    by_cases h : e.1 = key
    · simp [JsMap.set, h, JsMap.get?_cons]
    · have hb : (e.1 == key) = false := by simpa using h
      simp [JsMap.set, hb, JsMap.get?_cons, h, ih]

theorem JsMap.get?_set_other (m : JsMap) {key other : String} (v : Int) (h : other ≠ key) :
    JsMap.get? (JsMap.set m key v) other = JsMap.get? m other := by
  induction m with
  | nil =>
    have : ¬ key = other := fun e => h e.symm
    simp [JsMap.set, JsMap.get?_cons, this, JsMap.get?]
  | cons e rest ih =>
    by_cases he : e.1 = key
    · have : ¬ key = other := fun e => h e.symm
      have h2 : ¬ e.1 = other := fun e' => h (e'.symm.trans he)
      simp [JsMap.set, he, JsMap.get?_cons, this]
    · have hb : (e.1 == key) = false := by simpa using he
      simp [JsMap.set, hb, JsMap.get?_cons, ih]

theorem JsMap.has_eq_isSome (m : JsMap) (key : String) :
    JsMap.has m key = (JsMap.get? m key).isSome := by
  induction m with
  | nil => rfl
  | cons e rest ih =>
    rw [JsMap.get?_cons]
    by_cases h : e.1 = key
    · simp [JsMap.has, h]
    · have hb : (e.1 == key) = false := by simpa using h
      have : JsMap.has (e :: rest) key = JsMap.has rest key := by
        simp [JsMap.has, hb]
      rw [this, ih]
      simp [h]

theorem JsMap.keys_set (m : JsMap) (key : String) (v : Int) :
    JsMap.keys (JsMap.set m key v) = if key ∈ JsMap.keys m then JsMap.keys m
      else JsMap.keys m ++ [key] := by
  induction m with
  | nil => simp [JsMap.set, JsMap.keys]
  | cons e rest ih =>
    by_cases h : e.1 = key
    · simp [JsMap.set, JsMap.keys, h]
    · have hb : (e.1 == key) = false := by simpa using h
      have h' : ¬ key = e.1 := fun e' => h e'.symm
      simp only [JsMap.keys] at ih
      by_cases hm : key ∈ List.map (fun e => e.1) rest
      · simp [JsMap.set, JsMap.keys, hb, h', hm, ih]
      · simp [JsMap.set, JsMap.keys, hb, h', hm, ih]

theorem JsMap.keys_set_nodup (m : JsMap) (key : String) (v : Int)
    (h : (JsMap.keys m).Nodup) : (JsMap.keys (JsMap.set m key v)).Nodup := by
  rw [JsMap.keys_set]
  by_cases hm : key ∈ JsMap.keys m
  · simpa [hm] using h
  · simp only [hm, if_false]
    rw [List.nodup_append]
    refine ⟨h, List.nodup_singleton _, ?_⟩
    intro a ha hb
    simp only [List.mem_singleton] at hb
    subst hb
    exact hm ha

theorem JsMap.get?_eq_none_of_not_mem (m : JsMap) (key : String)
    (h : key ∉ JsMap.keys m) : JsMap.get? m key = none := by
  induction m with
  | nil => rfl
  | cons e rest ih =>
    simp only [JsMap.keys, List.map_cons, List.mem_cons, not_or] at h
    rw [JsMap.get?_cons]
    have h1 : ¬ e.1 = key := fun e' => h.1 e'.symm
    simp only [h1, if_false]
    exact ih h.2

theorem partsMap_fold_keys_nodup (l : List PartUsage) (m : JsMap) (h : (JsMap.keys m).Nodup) :
    (JsMap.keys (l.foldl (fun m p => JsMap.set m p.partId p.quantity) m)).Nodup := by
  induction l generalizing m with
  | nil => exact h
  | cons a rest ih => exact ih _ (JsMap.keys_set_nodup m _ _ h)

theorem partsMap_keys_nodup (l : List PartUsage) : (JsMap.keys (partsMap l)).Nodup :=
  partsMap_fold_keys_nodup l [] List.nodup_nil

theorem partsMap_fold_get? (l : List PartUsage) (m : JsMap) (partId : String)
    (h : (l.map (fun u => u.partId)).Nodup) :
    JsMap.get? (l.foldl (fun m p => JsMap.set m p.partId p.quantity) m) partId =
      match l.find? (fun u => u.partId == partId) with
      | some u => some u.quantity
      | none => JsMap.get? m partId := by
  induction l generalizing m with
  | nil => rfl
  | cons a rest ih =>
    simp only [List.map_cons, List.nodup_cons] at h
    rw [List.foldl_cons, ih _ h.2, List.find?_cons]
    by_cases ha : a.partId = partId
    · have hb : (a.partId == partId) = true := by simpa using ha
      have hnone : rest.find? (fun u => u.partId == partId) = none := by
        rw [List.find?_eq_none]
        intro u hu
        have : u.partId ≠ a.partId := fun e => h.1 (e ▸ List.mem_map_of_mem _ hu)
        simpa [← ha] using this
      simp only [hb, hnone]
      rw [← ha]
      exact JsMap.get?_set_self _ _ _
    · have hb : (a.partId == partId) = false := by simpa using ha
      simp only [hb]
      cases rest.find? (fun u => u.partId == partId) with
      | some u => rfl
      | none => exact JsMap.get?_set_other _ _ (fun e => ha e.symm)

theorem partsMap_get? (l : List PartUsage) (partId : String)
    (h : (l.map (fun u => u.partId)).Nodup) :
    (JsMap.get? (partsMap l) partId).getD 0 = quantityIn l partId := by
  unfold partsMap quantityIn
  rw [partsMap_fold_get? l [] partId h]
  cases l.find? (fun u => u.partId == partId) <;> rfl

theorem deltaFor_set (deltas : JsMap) (key partId : String) (v : Int) :
    deltaFor (JsMap.set deltas key v) partId = if partId = key then v else deltaFor deltas partId := by
  unfold deltaFor
  by_cases h : partId = key
  · subst h
    simp [JsMap.get?_set_self]
  · simp [JsMap.get?_set_other _ _ h, h]

theorem deltaFor_deltasFromNew (originalPartsMap entries deltas : JsMap) (partId : String)
    (h : (JsMap.keys entries).Nodup) :
    deltaFor (deltasFromNew originalPartsMap entries deltas) partId =
      deltaFor deltas partId -
        (match JsMap.get? entries partId with
          | some newQty => newQty - (JsMap.get? originalPartsMap partId).getD 0
          | none => 0) := by
  induction entries generalizing deltas with
  | nil => simp [deltasFromNew, JsMap.get?]
  | cons e rest ih =>
    obtain ⟨key, newQty⟩ := e
    simp only [JsMap.keys, List.map_cons, List.nodup_cons] at h
    have hrest : key = partId → JsMap.get? rest partId = none := fun hk =>
      JsMap.get?_eq_none_of_not_mem rest partId (hk ▸ h.1)
    rw [JsMap.get?_cons]
    unfold deltasFromNew
    by_cases hd : newQty - (JsMap.get? originalPartsMap key).getD 0 = 0
    · simp only [ne_eq, hd, not_true_eq_false, if_false]
      rw [ih _ h.2]
      by_cases hk : key = partId
      · simp only [hk, if_true, hrest hk]
        rw [← hk, hd]
      · simp only [hk, if_false]
    · simp only [ne_eq, hd, not_false_eq_true, if_true]
      rw [ih _ h.2, deltaFor_set]
      by_cases hk : key = partId
      · simp only [hk, if_true, hrest hk]
        subst hk
        simp [deltaFor]
      · have hk' : ¬ partId = key := fun e => hk e.symm
        simp only [hk, hk', if_false]

theorem deltaFor_deltasFromOld (newPartsMap entries deltas : JsMap) (partId : String)
    (h : (JsMap.keys entries).Nodup) :
    deltaFor (deltasFromOld newPartsMap entries deltas) partId =
      deltaFor deltas partId +
        (match JsMap.get? entries partId with
          | some oldQty => if (JsMap.get? newPartsMap partId).isSome then 0 else oldQty
          | none => 0) := by
  induction entries generalizing deltas with
  | nil => simp [deltasFromOld, JsMap.get?]
  | cons e rest ih =>
    obtain ⟨key, oldQty⟩ := e
    simp only [JsMap.keys, List.map_cons, List.nodup_cons] at h
    have hrest : key = partId → JsMap.get? rest partId = none := fun hk =>
      JsMap.get?_eq_none_of_not_mem rest partId (hk ▸ h.1)
    rw [JsMap.get?_cons]
    unfold deltasFromOld
    rw [JsMap.has_eq_isSome]
    by_cases hn : (JsMap.get? newPartsMap key).isSome = true
    · simp only [hn, Bool.not_true, Bool.false_eq_true, if_false]
      rw [ih _ h.2]
      by_cases hk : key = partId
      · simp only [hk, if_true, hrest hk]
        rw [← hk, hn]
        simp
      · simp only [hk, if_false]
    · have hn' : (JsMap.get? newPartsMap key).isSome = false := by simpa using hn
      simp only [hn', Bool.not_false, if_true]
      rw [ih _ h.2, deltaFor_set]
      by_cases hk : key = partId
      · simp only [hk, if_true, hrest hk]
        subst hk
        simp [deltaFor, hn']
      · have hk' : ¬ partId = key := fun e => hk e.symm
        simp only [hk, hk', if_false]

theorem deltasFromNew_keys_nodup (originalPartsMap entries deltas : JsMap)
    (h : (JsMap.keys deltas).Nodup) :
    (JsMap.keys (deltasFromNew originalPartsMap entries deltas)).Nodup := by
  induction entries generalizing deltas with
  | nil => exact h
  | cons e rest ih =>
    obtain ⟨key, newQty⟩ := e
    unfold deltasFromNew
    by_cases hd : newQty - (JsMap.get? originalPartsMap key).getD 0 = 0
    · simp only [ne_eq, hd, not_true_eq_false, if_false]
      exact ih _ h
    · simp only [ne_eq, hd, not_false_eq_true, if_true]
      exact ih _ (JsMap.keys_set_nodup _ _ _ h)

theorem deltasFromOld_keys_nodup (newPartsMap entries deltas : JsMap)
    (h : (JsMap.keys deltas).Nodup) :
    (JsMap.keys (deltasFromOld newPartsMap entries deltas)).Nodup := by
  induction entries generalizing deltas with
  | nil => exact h
  | cons e rest ih =>
    obtain ⟨key, oldQty⟩ := e
    unfold deltasFromOld
    by_cases hn : JsMap.has newPartsMap key = true
    · simp only [hn, Bool.not_true, Bool.false_eq_true, if_false]
      exact ih _ h
    · have hn' : JsMap.has newPartsMap key = false := by simpa using hn
      simp only [hn', Bool.not_false, if_true]
      exact ih _ (JsMap.keys_set_nodup _ _ _ h)

/-- C4: in `handleSaveManagedParts`, for an old and a new parts-used list with
distinct part ids each, the delta applied to the stock of a part is its old
quantity minus its new quantity, a part absent from a list counting as 0 (so a
removed part gets its old quantity back, an added part loses its new quantity,
and a part in neither list gets no delta); each part has at most one entry in
`stockDeltas`. -/
theorem stock_delta_is_old_minus_new (oldParts newParts : List PartUsage)
    (hold : (oldParts.map (fun u => u.partId)).Nodup)
    (hnew : (newParts.map (fun u => u.partId)).Nodup) :
    (JsMap.keys (stockDeltas oldParts newParts)).Nodup ∧
    ∀ partId, deltaFor (stockDeltas oldParts newParts) partId
      = quantityIn oldParts partId - quantityIn newParts partId := by
  refine ⟨deltasFromOld_keys_nodup _ _ _ (deltasFromNew_keys_nodup _ _ _ List.nodup_nil), ?_⟩
  intro partId
  unfold stockDeltas
  simp only []
  rw [deltaFor_deltasFromOld _ _ _ _ (partsMap_keys_nodup oldParts),
    deltaFor_deltasFromNew _ _ _ _ (partsMap_keys_nodup newParts),
    ← partsMap_get? oldParts partId hold, ← partsMap_get? newParts partId hnew]
  cases hn : JsMap.get? (partsMap newParts) partId <;>
    cases ho : JsMap.get? (partsMap oldParts) partId <;>
    simp [deltaFor, JsMap.get?]

/-- Witness of C4: old list P1 x 5, P2 x 1; new list P1 x 2, P3 x 4; part P1. -/
theorem stock_delta_is_old_minus_new_witness :
    deltaFor (stockDeltas [⟨"P1", 5⟩, ⟨"P2", 1⟩] [⟨"P1", 2⟩, ⟨"P3", 4⟩]) "P1" = 5 - 2 ∧
    deltaFor (stockDeltas [⟨"P1", 5⟩, ⟨"P2", 1⟩] [⟨"P1", 2⟩, ⟨"P3", 4⟩]) "P2" = 1 - 0 ∧
    deltaFor (stockDeltas [⟨"P1", 5⟩, ⟨"P2", 1⟩] [⟨"P1", 2⟩, ⟨"P3", 4⟩]) "P3" = 0 - 4 :=
  have h := stock_delta_is_old_minus_new [⟨"P1", 5⟩, ⟨"P2", 1⟩] [⟨"P1", 2⟩, ⟨"P3", 4⟩]
    (by decide) (by decide)
  ⟨h.2 "P1", h.2 "P2", h.2 "P3"⟩

/-! ## C5: stock never goes negative -/

theorem stockNonneg_updatePartStock {parts : List Part} (docId : String) {v : Int}
    (h : StockNonneg parts) (hv : 0 ≤ v) : StockNonneg (updatePartStock parts docId v) := by
  intro p hp
  simp only [updatePartStock, List.mem_map] at hp
  obtain ⟨p0, hp0, rfl⟩ := hp
  by_cases hd : (p0.fb_id == docId) = true
  · simpa [hd] using hv
  · simpa [hd] using h p0 hp0

theorem applyStockDelta_ok_cases {parts parts' : List Part} {partId : String} {delta : Int}
    (h : applyStockDelta parts partId delta = .ok parts') :
    parts' = parts ∨ ∃ v, 0 ≤ v ∧ parts' = updatePartStock parts partId v := by
  unfold applyStockDelta at h
  cases hg : getPartDoc parts partId with
  | none =>
    rw [hg] at h
    injection h with h
    exact Or.inl h.symm
  | some p =>
    rw [hg] at h
    dsimp only at h
    by_cases hlt : p.stock + delta < 0
    · rw [if_pos hlt] at h
      cases h
    · rw [if_neg hlt] at h
      injection h with h
      exact Or.inr ⟨_, not_lt.mp hlt, h.symm⟩

theorem consumePartAction_ok_cases {parts parts' : List Part} {u : PartUsage}
    (h : consumePartAction parts u = .ok parts') :
    parts' = parts ∨ ∃ docId v, 0 ≤ v ∧ parts' = updatePartStock parts docId v := by
  unfold consumePartAction at h
  cases hf : findPartById parts u.partId with
  | none =>
    rw [hf] at h
    injection h with h
    exact Or.inl h.symm
  | some p0 =>
    rw [hf] at h
    dsimp only at h
    cases hg : getPartDoc parts p0.fb_id with
    | none =>
      rw [hg] at h
      injection h with h
      exact Or.inl h.symm
    | some p =>
      rw [hg] at h
      dsimp only at h
      by_cases hlt : p.stock - u.quantity < 0
      · rw [if_pos hlt] at h
        cases h
      · rw [if_neg hlt] at h
        injection h with h
        exact Or.inr ⟨_, _, not_lt.mp hlt, h.symm⟩

theorem consumePartSave_eq_of_pos {parts : List Part} {u : PartUsage} (hq : 0 < u.quantity) :
    consumePartSave parts u =
      match findPartById parts u.partId with
      | some partToUpdate =>
        match getPartDoc parts partToUpdate.fb_id with
        | some partDoc =>
          if partDoc.stock - u.quantity < 0 then
            .error s!"Stock insuficiente para {u.partId}. Stock: {partDoc.stock}, Necesita: {u.quantity}."
          else .ok (updatePartStock parts partToUpdate.fb_id (partDoc.stock - u.quantity))
        | none => .ok parts
      | none => .ok parts := by
  unfold consumePartSave
  rw [if_pos hq]

theorem consumePartSave_eq_of_not_pos {parts : List Part} {u : PartUsage} (hq : ¬ 0 < u.quantity) :
    consumePartSave parts u = .ok parts := by
  unfold consumePartSave
  rw [if_neg hq]

theorem consumePartSave_ok_cases {parts parts' : List Part} {u : PartUsage}
    (h : consumePartSave parts u = .ok parts') :
    parts' = parts ∨ ∃ docId v, 0 ≤ v ∧ parts' = updatePartStock parts docId v := by
  by_cases hq : 0 < u.quantity
  · rw [consumePartSave_eq_of_pos hq] at h
    cases hf : findPartById parts u.partId with
    | none =>
      rw [hf] at h
      injection h with h
      exact Or.inl h.symm
    | some p0 =>
      rw [hf] at h
      dsimp only at h
      cases hg : getPartDoc parts p0.fb_id with
      | none =>
        rw [hg] at h
        injection h with h
        exact Or.inl h.symm
      | some p =>
        rw [hg] at h
        dsimp only at h
        by_cases hlt : p.stock - u.quantity < 0
        · rw [if_pos hlt] at h
          cases h
        · rw [if_neg hlt] at h
          injection h with h
          exact Or.inr ⟨_, _, not_lt.mp hlt, h.symm⟩
  · rw [consumePartSave_eq_of_not_pos hq] at h
    injection h with h
    exact Or.inl h.symm

theorem applyStockDelta_nonneg {parts parts' : List Part} {partId : String} {delta : Int}
    (h : StockNonneg parts) (hstep : applyStockDelta parts partId delta = .ok parts') :
    StockNonneg parts' := by
  rcases applyStockDelta_ok_cases hstep with rfl | ⟨v, hv, rfl⟩
  · exact h
  · exact stockNonneg_updatePartStock _ h hv

theorem consumePartAction_nonneg {parts parts' : List Part} {u : PartUsage}
    (h : StockNonneg parts) (hstep : consumePartAction parts u = .ok parts') :
    StockNonneg parts' := by
  rcases consumePartAction_ok_cases hstep with rfl | ⟨d, v, hv, rfl⟩
  · exact h
  · exact stockNonneg_updatePartStock _ h hv

theorem consumePartSave_nonneg {parts parts' : List Part} {u : PartUsage}
    (h : StockNonneg parts) (hstep : consumePartSave parts u = .ok parts') :
    StockNonneg parts' := by
  rcases consumePartSave_ok_cases hstep with rfl | ⟨d, v, hv, rfl⟩
  · exact h
  · exact stockNonneg_updatePartStock _ h hv

theorem applyStockDeltas_nonneg (deltas : JsMap) {parts : List Part} (h : StockNonneg parts) :
    StockNonneg (applyStockDeltas parts deltas).1 := by
  induction deltas generalizing parts with
  | nil => exact h
  | cons e rest ih =>
    obtain ⟨partId, delta⟩ := e
    unfold applyStockDeltas
    cases hstep : applyStockDelta parts partId delta with
    | error msg => exact h
    | ok parts' => exact ih (applyStockDelta_nonneg h hstep)

theorem consumeLoop_nonneg (step : List Part → PartUsage → Except String (List Part))
    (hstep : ∀ parts parts' u, StockNonneg parts → step parts u = .ok parts' → StockNonneg parts')
    (l : List PartUsage) {parts : List Part} (h : StockNonneg parts) :
    StockNonneg (consumeLoop step parts l).1 := by
  induction l generalizing parts with
  | nil => exact h
  | cons u rest ih =>
    unfold consumeLoop
    cases hs : step parts u with
    | error msg => exact h
    | ok parts' => exact ih (hstep _ _ _ h hs)

theorem handleSaveManagedParts_nonneg (s : AppState) (orderId : String)
    (newPartsList : List PartUsage) (h : StockNonneg s.parts) :
    StockNonneg (handleSaveManagedParts s orderId newPartsList).state.parts := by
  unfold handleSaveManagedParts
  split
  · exact h
  · split
    · exact h
    · rename_i originalOrder _
      have hl := applyStockDeltas_nonneg (stockDeltas originalOrder.partsUsed newPartsList) h
      split <;> rename_i heq <;> rw [heq] at hl <;> exact hl

theorem actionPartsLoop_nonneg (order : WorkOrder) (newStatus : Status) {parts : List Part}
    (h : StockNonneg parts) : StockNonneg (actionPartsLoop parts order newStatus).1 := by
  unfold actionPartsLoop
  split
  · exact consumeLoop_nonneg _ (fun _ _ _ => consumePartAction_nonneg) _ h
  · exact h

theorem savePartsLoop_nonneg (orderData : WorkOrder) (oldStatus : Option Status)
    {parts : List Part} (h : StockNonneg parts) :
    StockNonneg (savePartsLoop parts orderData oldStatus).1 := by
  unfold savePartsLoop
  split
  · exact consumeLoop_nonneg _ (fun _ _ _ => consumePartSave_nonneg) _ h
  · exact h

theorem handleWorkOrderAction_parts (s : AppState) (orderId : String) (newStatus : Status)
    (now : Int) :
    (handleWorkOrderAction s orderId newStatus now).state.parts = s.parts ∨
    ∃ order, findOrder s.workOrders orderId = some order ∧
      (handleWorkOrderAction s orderId newStatus now).state.parts
        = (actionPartsLoop s.parts order newStatus).1 := by
  unfold handleWorkOrderAction
  split
  · exact Or.inl rfl
  · split
    · exact Or.inl rfl
    · rename_i order hfind
      split
      · exact Or.inl rfl
      · split
        · exact Or.inl rfl
        · right
          refine ⟨order, hfind, ?_⟩
          split <;> rename_i heq <;> rw [heq]

theorem saveWorkOrder_parts (s : AppState) (form : WorkOrderForm) (orderId : String)
    (updates : Option Status) (now : Int) :
    (saveWorkOrder s form orderId updates now).state.parts = s.parts ∨
    (saveWorkOrder s form orderId updates now).state.parts
      = (savePartsLoop s.parts
          (buildOrderData s.utcOffsetMs form orderId (existingOrderOf s form orderId) updates now)
          ((existingOrderOf s form orderId).map (fun o => o.status))).1 := by
  unfold saveWorkOrder
  split
  · exact Or.inl rfl
  · right
    dsimp only
    split <;> rename_i heq <;> rw [heq]

theorem handleWorkOrderAction_nonneg (s : AppState) (orderId : String) (newStatus : Status)
    (now : Int) (h : StockNonneg s.parts) :
    StockNonneg (handleWorkOrderAction s orderId newStatus now).state.parts := by
  rcases handleWorkOrderAction_parts s orderId newStatus now with h1 | ⟨order, _, h1⟩
  · rw [h1]; exact h
  · rw [h1]; exact actionPartsLoop_nonneg _ _ h

theorem saveWorkOrder_nonneg (s : AppState) (form : WorkOrderForm) (orderId : String)
    (updates : Option Status) (now : Int) (h : StockNonneg s.parts) :
    StockNonneg (saveWorkOrder s form orderId updates now).state.parts := by
  rcases saveWorkOrder_parts s form orderId updates now with h1 | h1
  · rw [h1]; exact h
  · rw [h1]; exact savePartsLoop_nonneg _ _ h

/-- C5: if every part's persisted stock is at least 0 before a call of
`handleSaveManagedParts`, `saveWorkOrder` or `handleWorkOrderAction` (whatever
the form, the new status and the quantities), then every part's persisted stock
is at least 0 in the state the call leaves behind, whether it succeeds, is
rejected or aborts part-way. -/
theorem stock_never_negative (s : AppState) (h : StockNonneg s.parts) :
    (∀ orderId newPartsList,
      StockNonneg (handleSaveManagedParts s orderId newPartsList).state.parts) ∧
    (∀ form orderId updates now,
      StockNonneg (saveWorkOrder s form orderId updates now).state.parts) ∧
    (∀ orderId newStatus now,
      StockNonneg (handleWorkOrderAction s orderId newStatus now).state.parts) :=
  ⟨fun orderId l => handleSaveManagedParts_nonneg s orderId l h,
    fun form orderId updates now => saveWorkOrder_nonneg s form orderId updates now h,
    fun orderId newStatus now => handleWorkOrderAction_nonneg s orderId newStatus now h⟩

/-! ## C3: a completion with insufficient stock -/

theorem findPartById_eq_getPartDoc {parts : List Part} (h : PartsKeyed parts) (partId : String) :
    findPartById parts partId = getPartDoc parts partId := by
  unfold findPartById getPartDoc
  induction parts with
  | nil => rfl
  | cons p rest ih =>
    have hp : p.fb_id = p.id := h p (List.mem_cons_self _ _)
    have hrest : PartsKeyed rest := fun q hq => h q (List.mem_cons_of_mem _ hq)
    rw [List.find?_cons, List.find?_cons, hp, ih hrest]

theorem partsKeyed_updatePartStock {parts : List Part} (docId : String) (v : Int)
    (h : PartsKeyed parts) : PartsKeyed (updatePartStock parts docId v) := by
  intro p hp
  simp only [updatePartStock, List.mem_map] at hp
  obtain ⟨p0, hp0, rfl⟩ := hp
  by_cases hd : (p0.fb_id == docId) = true
  · simpa [hd] using h p0 hp0
  · simpa [hd] using h p0 hp0

theorem getPartDoc_self {parts : List Part} {docId : String} {p : Part}
    (h : getPartDoc parts docId = some p) : getPartDoc parts p.fb_id = some p := by
  rw [getPartDoc_fb_id h]; exact h

theorem consumePartAction_keyed {parts : List Part} (h : PartsKeyed parts) (u : PartUsage) :
    consumePartAction parts u =
      match getPartDoc parts u.partId with
      | some p =>
        if p.stock - u.quantity < 0 then
          .error s!"Stock insuficiente para {u.partId}. No se puede completar la orden."
        else .ok (updatePartStock parts u.partId (p.stock - u.quantity))
      | none => .ok parts := by
  unfold consumePartAction
  rw [findPartById_eq_getPartDoc h]
  cases hg : getPartDoc parts u.partId with
  | none => rfl
  | some p =>
    dsimp only
    rw [getPartDoc_self hg, getPartDoc_fb_id hg]

theorem consumePartSave_keyed {parts : List Part} (h : PartsKeyed parts) (u : PartUsage)
    (hq : 0 < u.quantity) :
    consumePartSave parts u =
      match getPartDoc parts u.partId with
      | some p =>
        if p.stock - u.quantity < 0 then
          .error s!"Stock insuficiente para {u.partId}. Stock: {p.stock}, Necesita: {u.quantity}."
        else .ok (updatePartStock parts u.partId (p.stock - u.quantity))
      | none => .ok parts := by
  rw [consumePartSave_eq_of_pos hq, findPartById_eq_getPartDoc h]
  cases hg : getPartDoc parts u.partId with
  | none => rfl
  | some p =>
    dsimp only
    rw [getPartDoc_self hg, getPartDoc_fb_id hg]

theorem consumePartAction_frame : StepFrame consumePartAction := by
  intro parts parts' u h hstep
  rw [consumePartAction_keyed h] at hstep
  cases hg : getPartDoc parts u.partId with
  | none =>
    rw [hg] at hstep
    injection hstep with hstep
    subst hstep
    exact ⟨h, fun _ _ => rfl⟩
  | some p =>
    rw [hg] at hstep
    dsimp only at hstep
    by_cases hlt : p.stock - u.quantity < 0
    · rw [if_pos hlt] at hstep
      cases hstep
    · rw [if_neg hlt] at hstep
      injection hstep with hstep
      subst hstep
      exact ⟨partsKeyed_updatePartStock _ _ h, fun other ho => stockOf_updatePartStock_other _ ho⟩

theorem consumePartSave_frame : StepFrame consumePartSave := by
  intro parts parts' u h hstep
  by_cases hq : 0 < u.quantity
  · rw [consumePartSave_keyed h u hq] at hstep
    cases hg : getPartDoc parts u.partId with
    | none =>
      rw [hg] at hstep
      injection hstep with hstep
      subst hstep
      exact ⟨h, fun _ _ => rfl⟩
    | some p =>
      rw [hg] at hstep
      dsimp only at hstep
      by_cases hlt : p.stock - u.quantity < 0
      · rw [if_pos hlt] at hstep
        cases hstep
      · rw [if_neg hlt] at hstep
        injection hstep with hstep
        subst hstep
        exact ⟨partsKeyed_updatePartStock _ _ h,
          fun other ho => stockOf_updatePartStock_other _ ho⟩
  · rw [consumePartSave_eq_of_not_pos hq] at hstep
    injection hstep with hstep
    subst hstep
    exact ⟨h, fun _ _ => rfl⟩

theorem consumeLoop_insufficient (step : List Part → PartUsage → Except String (List Part))
    (hframe : StepFrame step) (u : PartUsage) (st : Int)
    (hfail : ∀ parts, PartsKeyed parts → stockOf parts u.partId = some st →
      ∃ msg, step parts u = .error msg)
    (l : List PartUsage) (hnodup : (l.map (fun x => x.partId)).Nodup) (hu : u ∈ l)
    (parts : List Part) (hk : PartsKeyed parts) (hs : stockOf parts u.partId = some st) :
    (consumeLoop step parts l).2.isSome = true ∧
      stockOf (consumeLoop step parts l).1 u.partId = some st := by
  induction l generalizing parts with
  | nil => cases hu
  | cons a rest ih =>
    simp only [List.map_cons, List.nodup_cons] at hnodup
    unfold consumeLoop
    rcases List.mem_cons.mp hu with rfl | hmem
    · obtain ⟨msg, hmsg⟩ := hfail parts hk hs
      rw [hmsg]
      exact ⟨rfl, hs⟩
    · cases hstep : step parts a with
      | error msg => exact ⟨rfl, hs⟩
      | ok parts' =>
        have hne : u.partId ≠ a.partId := fun e =>
          hnodup.1 (e ▸ List.mem_map_of_mem (fun x => x.partId) hmem)
        obtain ⟨hk', hother⟩ := hframe parts parts' a hk hstep
        exact ih hnodup.2 hmem parts' hk' (by rw [hother _ hne]; exact hs)

theorem stockOf_of_getPartDoc {parts : List Part} {docId : String} {p : Part}
    (h : getPartDoc parts docId = some p) : stockOf parts docId = some p.stock := by
  simp [stockOf, h]

theorem consumePartAction_insufficient (u : PartUsage) (st : Int) (hlt : st < u.quantity)
    (parts : List Part) (hk : PartsKeyed parts) (hs : stockOf parts u.partId = some st) :
    ∃ msg, consumePartAction parts u = .error msg := by
  obtain ⟨p, hp, rfl⟩ := stockOf_eq_some hs
  rw [consumePartAction_keyed hk, hp]
  dsimp only
  rw [if_pos (by omega)]
  exact ⟨_, rfl⟩

theorem consumePartSave_insufficient (u : PartUsage) (st : Int) (hlt : st < u.quantity)
    (hst : 0 ≤ st)
    (parts : List Part) (hk : PartsKeyed parts) (hs : stockOf parts u.partId = some st) :
    ∃ msg, consumePartSave parts u = .error msg := by
  obtain ⟨p, hp, rfl⟩ := stockOf_eq_some hs
  rw [consumePartSave_keyed hk u (by omega), hp]
  dsimp only
  rw [if_pos (by omega)]
  exact ⟨_, rfl⟩

theorem stockOf_of_findPartById {parts : List Part} (hk : PartsKeyed parts) {partId : String}
    {p : Part} (h : findPartById parts partId = some p) :
    stockOf parts partId = some p.stock := by
  rw [findPartById_eq_getPartDoc hk] at h
  exact stockOf_of_getPartDoc h

/-- C3: when the parts-used list of an order that is not yet completed holds a
known part whose persisted stock is smaller than the used quantity (part ids
distinct in the list, part documents keyed by their id), completing the order
through `handleWorkOrderAction`, or through `saveWorkOrder` with that list in
the form (stock not negative), fails with an error toast, leaves that part's
persisted stock as it was and writes nothing to the order collection: neither
the new status nor an end timestamp nor intervals. -/
theorem completion_fails_on_insufficient_stock (s : AppState) (u : PartUsage) (p : Part)
    (now : Int) (hk : PartsKeyed s.parts)
    (hp : findPartById s.parts u.partId = some p) (hlt : p.stock < u.quantity) :
    (∀ order, order.id ≠ "" → findOrder s.workOrders order.id = some order →
      order.status ≠ Status.Completado → u ∈ order.partsUsed →
      (order.partsUsed.map (fun x => x.partId)).Nodup →
      (handleWorkOrderAction s order.id Status.Completado now).failed ∧
      stockOf (handleWorkOrderAction s order.id Status.Completado now).state.parts u.partId
        = some p.stock ∧
      (handleWorkOrderAction s order.id Status.Completado now).state.workOrders = s.workOrders) ∧
    (∀ form orderId updates, updates.getD form.status = Status.Completado →
      (existingOrderOf s form orderId).map (fun o => o.status) ≠ some Status.Completado →
      u ∈ form.partsRows → (form.partsRows.map (fun x => x.partId)).Nodup → 0 ≤ p.stock →
      (saveWorkOrder s form orderId updates now).failed ∧
      stockOf (saveWorkOrder s form orderId updates now).state.parts u.partId = some p.stock ∧
      (saveWorkOrder s form orderId updates now).state.workOrders = s.workOrders) := by
  have hs : stockOf s.parts u.partId = some p.stock := stockOf_of_findPartById hk hp
  constructor
  · intro order hid hfind hstatus hu hnodup
    have hloop := consumeLoop_insufficient consumePartAction consumePartAction_frame u p.stock
      (consumePartAction_insufficient u p.stock hlt) order.partsUsed hnodup hu s.parts hk hs
    have hl : actionPartsLoop s.parts order Status.Completado
        = consumeLoop consumePartAction s.parts order.partsUsed := by
      unfold actionPartsLoop
      rw [if_pos ⟨rfl, hstatus⟩]
    unfold handleWorkOrderAction
    split
    · rename_i hempty
      exact absurd hempty hid
    · rw [hfind]
      dsimp only
      split
      · exact ⟨rfl, hs, rfl⟩
      · rw [if_neg (by simp), hl]
        split
        · rename_i heq
          rw [heq] at hloop
          exact ⟨rfl, hloop.2, rfl⟩
        · rename_i heq
          rw [heq] at hloop
          simp at hloop
  · intro form orderId updates hnew hold hu hnodup hst
    have hloop := consumeLoop_insufficient consumePartSave consumePartSave_frame u p.stock
      (consumePartSave_insufficient u p.stock hlt hst) form.partsRows hnodup hu s.parts hk hs
    have hl : savePartsLoop s.parts
        (buildOrderData s.utcOffsetMs form orderId (existingOrderOf s form orderId) updates now)
        ((existingOrderOf s form orderId).map (fun o => o.status))
        = consumeLoop consumePartSave s.parts form.partsRows := by
      unfold savePartsLoop
      rw [if_pos ⟨hnew, hold⟩]
      rfl
    unfold saveWorkOrder
    split
    · exact ⟨rfl, hs, rfl⟩
    · dsimp only
      rw [hl]
      split
      · rename_i heq
        rw [heq] at hloop
        exact ⟨rfl, hloop.2, rfl⟩
      · rename_i heq
        rw [heq] at hloop
        simp at hloop

theorem scenarioState_partsKeyed : PartsKeyed scenarioState.parts := by
  intro p hp
  simp only [scenarioState, List.mem_singleton] at hp
  subst hp
  rfl

theorem scenarioState_stockNonneg : StockNonneg scenarioState.parts := by
  intro p hp
  simp only [scenarioState, List.mem_singleton] at hp
  subst hp
  decide

/-- Witness of C3: order MA-25-0001 used 5 units of P1, whose stock is 3. -/
theorem completion_fails_on_insufficient_stock_witness :
    ((handleWorkOrderAction scenarioState "MA-25-0001" Status.Completado 1735732800000).failed ∧
      stockOf (handleWorkOrderAction scenarioState "MA-25-0001" Status.Completado
        1735732800000).state.parts "P1" = some 3 ∧
      (handleWorkOrderAction scenarioState "MA-25-0001" Status.Completado
        1735732800000).state.workOrders = [scenarioOrder]) ∧
    ((saveWorkOrder scenarioState scenarioForm "MA-25-0001" (some Status.Completado)
        1735732800000).failed ∧
      stockOf (saveWorkOrder scenarioState scenarioForm "MA-25-0001" (some Status.Completado)
        1735732800000).state.parts "P1" = some 3 ∧
      (saveWorkOrder scenarioState scenarioForm "MA-25-0001" (some Status.Completado)
        1735732800000).state.workOrders = [scenarioOrder]) :=
  have h := completion_fails_on_insufficient_stock scenarioState ⟨"P1", 5⟩ scenarioPart
    1735732800000 scenarioState_partsKeyed rfl (by decide)
  ⟨h.1 scenarioOrder (by decide) rfl (by decide) (by decide) (by decide),
    h.2 scenarioForm "MA-25-0001" (some Status.Completado) rfl (by decide) (by decide)
      (by decide) (by decide)⟩

/-- Witness of C5: the scenario state, whose only part has stock 3. -/
theorem stock_never_negative_witness :
    StockNonneg scenarioState.parts ∧
    StockNonneg (handleSaveManagedParts scenarioState "MA-25-0001" [⟨"P1", 9⟩]).state.parts ∧
    StockNonneg (saveWorkOrder scenarioState scenarioForm "MA-25-0001"
      (some Status.Completado) 1735732800000).state.parts ∧
    StockNonneg (handleWorkOrderAction scenarioState "MA-25-0001" Status.Completado
      1735732800000).state.parts :=
  have h := stock_never_negative scenarioState scenarioState_stockNonneg
  ⟨scenarioState_stockNonneg, h.1 _ _, h.2.1 _ _ _ _, h.2.2 _ _ _⟩

/-! ## C2: at most one open interval -/

theorem openCount_cons (i : Interval) (l : List Interval) :
    openCount (i :: l) = (if i.end_.isNone then 1 else 0) + openCount l := by
  unfold openCount
  rw [List.filter_cons]
  by_cases h : i.end_.isNone = true
  · simp [h]; omega
  · simp [h]

theorem openCount_append (l l' : List Interval) :
    openCount (l ++ l') = openCount l + openCount l' := by
  unfold openCount
  rw [List.filter_append, List.length_append]

theorem allButLastClosed_of_openCount_zero {l : List Interval} (h : openCount l = 0) :
    AllButLastClosed l := by
  unfold AllButLastClosed
  induction l with
  | nil => rfl
  | cons i rest ih =>
    rw [openCount_cons] at h
    cases rest with
    | nil => rfl
    | cons j rest' =>
      rw [List.dropLast_cons₂, openCount_cons]
      have := ih (by omega)
      omega

theorem openCount_le_one_of_allButLastClosed {l : List Interval} (h : AllButLastClosed l) :
    openCount l ≤ 1 := by
  unfold AllButLastClosed at h
  induction l with
  | nil => simp [openCount]
  | cons i rest ih =>
    cases rest with
    | nil =>
      rw [openCount_cons]
      have : openCount [] = 0 := rfl
      split <;> omega
    | cons j rest' =>
      rw [List.dropLast_cons₂, openCount_cons] at h
      rw [openCount_cons]
      have := ih (by omega)
      have h0 : (if i.end_.isNone = true then 1 else 0) = 0 := by omega
      omega

theorem allButLastClosed_append_singleton {l : List Interval} (i : Interval)
    (h : openCount l = 0) : AllButLastClosed (l ++ [i]) := by
  unfold AllButLastClosed
  rw [List.dropLast_concat]
  exact h

theorem openCount_closeLastInterval (now : Int) {l : List Interval} (h : AllButLastClosed l) :
    openCount (closeLastInterval now l) = 0 := by
  unfold AllButLastClosed at h
  induction l with
  | nil => rfl
  | cons i rest ih =>
    cases rest with
    | nil =>
      unfold closeLastInterval
      rw [openCount_cons]
      have : openCount [] = 0 := rfl
      by_cases hi : i.end_.isNone = true
      · simp [hi, this]
      · simp [hi, this]
    | cons j rest' =>
      rw [List.dropLast_cons₂, openCount_cons] at h
      unfold closeLastInterval
      rw [openCount_cons]
      have := ih (by omega)
      omega

theorem openCount_closeFirstOpen (now : Int) {l : List Interval} (h : AllButLastClosed l) :
    openCount (closeFirstOpen now l) = 0 := by
  unfold AllButLastClosed at h
  induction l with
  | nil => rfl
  | cons i rest ih =>
    unfold closeFirstOpen
    cases rest with
    | nil =>
      have h0 : openCount [] = 0 := rfl
      by_cases hi : i.end_.isNone = true
      · rw [if_pos hi, openCount_cons]
        simp [h0]
      · rw [if_neg hi, openCount_cons]
        simp [hi, closeFirstOpen, h0]
    | cons j rest' =>
      rw [List.dropLast_cons₂, openCount_cons] at h
      have hi : ¬ i.end_.isNone = true := by
        intro hi
        rw [if_pos hi] at h
        omega
      rw [if_neg hi, openCount_cons, if_neg hi]
      have := ih (by omega)
      omega

theorem orderInv_action (order : WorkOrder) (newStatus : Status) (now : Int)
    (hinv : OrderInv order.status order.workIntervals)
    (hallowed : allowedTransition order.status newStatus) :
    OrderInv newStatus (actionIntervals order newStatus now) := by
  unfold actionIntervals
  cases newStatus with
  | Pendiente =>
    rcases hallowed with h | h | h | h <;> simp at h
  | EnProceso =>
    rw [if_pos rfl]
    refine ⟨allButLastClosed_append_singleton _ (hinv.2 ?_ ?_), fun h => absurd rfl h⟩
    · rcases hallowed with h | h | h | h <;> simp at h <;> simp [h]
    · rcases hallowed with h | h | h | h <;> simp at h <;> simp [h]
  | Pausado =>
    rw [if_neg (by decide), if_pos (Or.inl rfl)]
    have h0 := openCount_closeLastInterval now hinv.1
    exact ⟨allButLastClosed_of_openCount_zero h0, fun _ _ => h0⟩
  | Completado =>
    rw [if_neg (by decide), if_pos (Or.inr rfl)]
    have h0 := openCount_closeLastInterval now hinv.1
    exact ⟨allButLastClosed_of_openCount_zero h0, fun _ _ => h0⟩
  | Cancelado =>
    rw [if_neg (by decide), if_neg (by decide)]
    exact ⟨hinv.1, fun _ h => absurd rfl h⟩

theorem orderInv_singleton_closed (status : Status) (start end_ : Int) :
    OrderInv status [{ start := start, end_ := some end_ }] :=
  ⟨rfl, fun _ _ => rfl⟩

theorem orderInv_nil (status : Status) : OrderInv status [] :=
  ⟨rfl, fun _ _ => rfl⟩

theorem saveIntervals_of_not_both (workIntervals : List Interval) (oldStatus : Option Status)
    (newStatus : Status) (startTime endTime : Option Int) (now : Int)
    (h : ¬ (newStatus = Status.Completado ∧ startTime.isSome ∧ endTime.isSome)) :
    saveIntervals workIntervals oldStatus newStatus startTime endTime now =
      statusChangeIntervals workIntervals oldStatus newStatus startTime now := by
  unfold saveIntervals
  split
  · exact absurd ⟨rfl, rfl, rfl⟩ h
  · rfl

theorem saveIntervals_of_both (workIntervals : List Interval) (oldStatus : Option Status)
    (start end_ now : Int) :
    saveIntervals workIntervals oldStatus Status.Completado (some start) (some end_) now =
      if end_ > start then [{ start := start, end_ := some end_ }] else workIntervals := rfl

theorem orderInv_save (workIntervals : List Interval) (oldStatus : Option Status)
    (newStatus : Status) (startTime endTime : Option Int) (now : Int)
    (hvalid : ∀ st en, startTime = some st → endTime = some en → st < en)
    (hrel : (∃ o, oldStatus = some o ∧ OrderInv o workIntervals ∧
        (o = newStatus ∨ allowedTransition o newStatus)) ∨
      (oldStatus = none ∧ workIntervals = [] ∧ newStatus = Status.Pendiente)) :
    OrderInv newStatus (saveIntervals workIntervals oldStatus newStatus startTime endTime now) := by
  by_cases hboth : newStatus = Status.Completado ∧ startTime.isSome ∧ endTime.isSome
  · obtain ⟨rfl, hs, he⟩ := hboth
    obtain ⟨st, rfl⟩ := Option.isSome_iff_exists.mp hs
    obtain ⟨en, rfl⟩ := Option.isSome_iff_exists.mp he
    rw [saveIntervals_of_both, if_pos (hvalid st en rfl rfl)]
    exact orderInv_singleton_closed _ _ _
  · rw [saveIntervals_of_not_both _ _ _ _ _ _ hboth]
    unfold statusChangeIntervals
    rcases hrel with ⟨o, rfl, hinv, hedge⟩ | ⟨rfl, rfl, rfl⟩
    · rcases hedge with rfl | hallowed
      · rw [if_neg (by simp)]
        exact hinv
      · by_cases hne : some newStatus ≠ some o
        · rw [if_pos hne]
          by_cases h1 : newStatus = Status.EnProceso ∧ some o ≠ some Status.EnProceso
          · rw [if_pos h1]
            obtain ⟨rfl, ho⟩ := h1
            refine ⟨allButLastClosed_append_singleton _ (hinv.2 ?_ ?_), fun h => absurd rfl h⟩
            · intro h; exact ho (by rw [h])
            · intro h
              subst h
              rcases hallowed with h | h | h | h <;> simp at h
          · rw [if_neg h1]
            by_cases h2 : (newStatus = Status.Pausado ∨ newStatus = Status.Completado)
                ∧ some o = some Status.EnProceso
            · rw [if_pos h2]
              have h0 := openCount_closeFirstOpen now hinv.1
              exact ⟨allButLastClosed_of_openCount_zero h0, fun _ _ => h0⟩
            · rw [if_neg h2]
              refine ⟨hinv.1, fun hn1 hn2 => hinv.2 ?_ ?_⟩
              · intro ho
                subst ho
                rcases hallowed with h | h | h | h
                · simp at h
                · exact h2 ⟨h.2, rfl⟩
                · simp at h
                · exact hn2 h.2
              · intro ho
                subst ho
                rcases hallowed with h | h | h | h <;> simp at h
        · rw [if_neg hne]
          have : newStatus = o := by
            simpa using hne
          subst this
          exact hinv
    · rw [if_pos (by simp), if_neg (by simp), if_neg (by simp)]
      exact orderInv_nil _

theorem findOrder_mem {orders : List WorkOrder} {orderId : String} {order : WorkOrder}
    (h : findOrder orders orderId = some order) : order ∈ orders :=
  List.mem_of_find?_eq_some h

theorem handleWorkOrderAction_orders (s : AppState) (orderId : String) (newStatus : Status)
    (now : Int) :
    (handleWorkOrderAction s orderId newStatus now).state.workOrders = s.workOrders ∨
    ∃ order, findOrder s.workOrders orderId = some order ∧
      (handleWorkOrderAction s orderId newStatus now).state.workOrders
        = updateOrderDoc s.workOrders order.fb_id (applyActionUpdates order newStatus now) := by
  unfold handleWorkOrderAction
  split
  · exact Or.inl rfl
  · split
    · exact Or.inl rfl
    · rename_i order hfind
      split
      · exact Or.inl rfl
      · split
        · exact Or.inl rfl
        · split
          · exact Or.inl rfl
          · exact Or.inr ⟨order, hfind, rfl⟩

theorem saveWorkOrder_orders (s : AppState) (form : WorkOrderForm) (orderId : String)
    (updates : Option Status) (now : Int) :
    (saveWorkOrder s form orderId updates now).state.workOrders = s.workOrders ∨
    (saveValidation s form orderId = none ∧
      (saveWorkOrder s form orderId updates now).state.workOrders
        = setOrderDoc s.workOrders orderId
            (buildOrderData s.utcOffsetMs form orderId (existingOrderOf s form orderId)
              updates now)) := by
  unfold saveWorkOrder
  split
  · exact Or.inl rfl
  · rename_i hv
    dsimp only
    split
    · exact Or.inl rfl
    · exact Or.inr ⟨hv, rfl⟩

theorem saveValidation_none_times {s : AppState} {form : WorkOrderForm} {orderId : String}
    (h : saveValidation s form orderId = none) (st en : Int)
    (hst : formTimestamp s.utcOffsetMs form.startDate form.startTime = some st)
    (hen : formTimestamp s.utcOffsetMs form.endDate form.endTime = some en) : st < en := by
  unfold saveValidation at h
  split at h
  · cases h
  · split at h
    · cases h
    · dsimp only at h
      split at h
      · cases h
      · rename_i hcond
        rw [hst, hen] at hcond
        simpa using hcond

theorem mem_setOrderDoc {orders : List WorkOrder} {orderId : String} {orderData o : WorkOrder}
    (h : o ∈ setOrderDoc orders orderId orderData) :
    o ∈ orders ∨ (o.status = orderData.status ∧ o.workIntervals = orderData.workIntervals) := by
  unfold setOrderDoc at h
  split at h
  · simp only [List.mem_map] at h
    obtain ⟨wo, hwo, rfl⟩ := h
    by_cases hd : (wo.fb_id == orderId) = true
    · rw [if_pos hd]
      exact Or.inr ⟨rfl, rfl⟩
    · rw [if_neg hd]
      exact Or.inl hwo
  · rcases List.mem_append.mp h with h | h
    · exact Or.inl h
    · simp only [List.mem_singleton] at h
      subst h
      exact Or.inr ⟨rfl, rfl⟩

theorem stateInv_action (s : AppState) (orderId : String) (newStatus : Status) (now : Int)
    (order : WorkOrder) (hfind : findOrder s.workOrders orderId = some order)
    (hallowed : allowedTransition order.status newStatus) (hinv : StateInv s) :
    StateInv (handleWorkOrderAction s orderId newStatus now).state := by
  intro o ho
  rcases handleWorkOrderAction_orders s orderId newStatus now with h | ⟨order', hfind', h⟩
  · rw [h] at ho
    exact hinv o ho
  · rw [h] at ho
    rw [hfind] at hfind'
    injection hfind' with hfind'
    subst hfind'
    simp only [updateOrderDoc, List.mem_map] at ho
    obtain ⟨wo, hwo, rfl⟩ := ho
    by_cases hd : (wo.fb_id == order.fb_id) = true
    · rw [if_pos hd]
      exact orderInv_action order newStatus now (hinv order (findOrder_mem hfind)) hallowed
    · rw [if_neg hd]
      exact hinv wo hwo

theorem stateInv_save (s : AppState) (form : WorkOrderForm) (orderId : String)
    (updates : Option Status) (now : Int)
    (hrel : (∃ order, existingOrderOf s form orderId = some order ∧
        (order.status = updates.getD form.status ∨
          allowedTransition order.status (updates.getD form.status))) ∨
      (existingOrderOf s form orderId = none ∧ updates.getD form.status = Status.Pendiente))
    (hinv : StateInv s) :
    StateInv (saveWorkOrder s form orderId updates now).state := by
  intro o ho
  rcases saveWorkOrder_orders s form orderId updates now with h | ⟨hv, h⟩
  · rw [h] at ho
    exact hinv o ho
  · rw [h] at ho
    rcases mem_setOrderDoc ho with hmem | ⟨hst, hwi⟩
    · exact hinv o hmem
    · rw [hst, hwi]
      unfold buildOrderData
      dsimp only
      apply orderInv_save _ _ _ _ _ _ (saveValidation_none_times hv)
      rcases hrel with ⟨order, hex, hedge⟩ | ⟨hex, hnew⟩
      · left
        have hmem : order ∈ s.workOrders := by
          unfold existingOrderOf at hex
          split at hex
          · cases hex
          · exact findOrder_mem hex
        exact ⟨order.status, by rw [hex]; rfl, by rw [hex]; exact hinv order hmem, hedge⟩
      · right
        exact ⟨by rw [hex]; rfl, by rw [hex]; rfl, hnew⟩

theorem stateInv_transition {s s' : AppState} (ht : Transition s s') (hinv : StateInv s) :
    StateInv s' := by
  cases ht with
  | action orderId newStatus now order hfind hallowed =>
    exact stateInv_action s orderId newStatus now order hfind hallowed hinv
  | save form orderId updates now order hex hallowed =>
    exact stateInv_save s form orderId updates now (Or.inl ⟨order, hex, Or.inr hallowed⟩) hinv
  | edit form orderId updates now order hex hsame =>
    exact stateInv_save s form orderId updates now (Or.inl ⟨order, hex, Or.inl hsame⟩) hinv
  | create form orderId updates now hex hnew =>
    exact stateInv_save s form orderId updates now (Or.inr ⟨hex, hnew⟩) hinv

theorem stateInv_reachable {s0 s : AppState} (h0 : InitialOrders s0) (hr : Reachable s0 s) :
    StateInv s := by
  induction hr with
  | init =>
    intro o ho
    obtain ⟨_, hwi⟩ := h0 o ho
    rw [hwi]
    exact orderInv_nil _
  | step _ ht ih => exact stateInv_transition ht ih

/-- C2: starting from orders that are Pending with an empty interval list,
after every sequence of calls of `handleWorkOrderAction` and `saveWorkOrder`
that follows the state machine (start from Pending, pause or complete from In
Progress, resume or complete from Paused, cancel from a state that is not
terminal; also creating a Pending order and saving with the status unchanged),
every order has at most one interval with no end. -/
theorem at_most_one_open_interval (s0 s : AppState) (h0 : InitialOrders s0)
    (hr : Reachable s0 s) : ∀ o ∈ s.workOrders, openCount o.workIntervals ≤ 1 :=
  fun o ho => openCount_le_one_of_allButLastClosed (stateInv_reachable h0 hr o ho).1

theorem pendingState_initial : InitialOrders pendingState := by
  intro o ho
  simp only [pendingState, List.mem_singleton] at ho
  subst ho
  exact ⟨rfl, rfl⟩

/-- Witness of C2: the Pending scenario order is started with the quick
button and then paused from the modal. -/
theorem at_most_one_open_interval_witness :
    InitialOrders pendingState ∧
    ∀ o ∈ (saveWorkOrder
        (handleWorkOrderAction pendingState "MA-25-0001" Status.EnProceso 1735725600000).state
        scenarioForm "MA-25-0001" (some Status.Pausado) 1735732800000).state.workOrders,
      openCount o.workIntervals ≤ 1 :=
  ⟨pendingState_initial,
    at_most_one_open_interval pendingState _ pendingState_initial
      (Reachable.step
        (Reachable.step Reachable.init
          (Transition.action pendingState "MA-25-0001" Status.EnProceso 1735725600000
            pendingOrder rfl (Or.inl ⟨rfl, rfl⟩)))
        (Transition.save _ scenarioForm "MA-25-0001" (some Status.Pausado) 1735732800000
          { pendingOrder with
            status := Status.EnProceso, startTime := some 1735725600000,
            date := some 20089,
            workIntervals := [⟨1735725600000, none⟩] }
          (by decide) (Or.inr (Or.inl ⟨rfl, Or.inl rfl⟩))))⟩

/-! ## C6: total cost -/

theorem roundDouble_zero : roundDouble 0 = 0 := rfl

/-- The halvings of `bitLengthLoop` end before the fuel does: the result is the
number of binary digits. -/
theorem bitLengthLoop_spec (fuel : Nat) : ∀ n, n ≤ fuel → 0 < n →
    2 ^ (bitLengthLoop fuel n - 1) ≤ n ∧ n < 2 ^ bitLengthLoop fuel n := by
  induction fuel with
  | zero =>
    intro n h1 h2
    omega
  | succ fuel ih =>
    intro n h1 h2
    unfold bitLengthLoop
    rw [if_neg (by omega)]
    by_cases hn : n / 2 = 0
    · have h1' : n = 1 := by omega
      subst h1'
      cases fuel <;> simp [bitLengthLoop]
    · obtain ⟨ha, hb⟩ := ih (n / 2) (by omega) (by omega)
      have hpos : 0 < bitLengthLoop fuel (n / 2) := by
        rcases Nat.eq_zero_or_pos (bitLengthLoop fuel (n / 2)) with h0 | h0
        · rw [h0] at hb
          simp at hb
          omega
        · exact h0
      constructor
      · rw [Nat.add_sub_cancel]
        have : bitLengthLoop fuel (n / 2) = (bitLengthLoop fuel (n / 2) - 1) + 1 := by omega
        rw [this, pow_succ]
        omega
      · rw [pow_succ]
        omega

theorem bitLength_spec (n : Nat) (h : 0 < n) :
    2 ^ (bitLength n - 1) ≤ n ∧ n < 2 ^ bitLength n :=
  bitLengthLoop_spec n n (le_refl n) h

theorem jsAdd_of_isDouble {a b : ℚ} (h : IsDouble (a + b)) : jsAdd a b = a + b := h.1

theorem jsMul_of_isDouble {a b : ℚ} (h : IsDouble (a * b)) : jsMul a b = a * b := h.1

theorem jsDiv_of_isDouble {a b : ℚ} (h : IsDouble (a / b)) : jsDiv a b = a / b := h.1

theorem mem_inits_cons {α : Type} (a : α) {l p : List α} (h : p ∈ l.inits) :
    a :: p ∈ (a :: l).inits := by
  rw [List.inits_cons]
  exact List.mem_cons_of_mem _ (List.mem_map_of_mem _ h)

/-- The parts loop adds the exact terms when none of its operations rounds. -/
theorem partsFold_exact (s : AppState) (l : List PartUsage) (init : ℚ)
    (hterm : ∀ u ∈ l, IsDouble (unitCostOf s u.partId * (u.quantity : ℚ)))
    (hsum : ∀ p ∈ (l.map (fun u => unitCostOf s u.partId * (u.quantity : ℚ))).inits,
      IsDouble (init + p.sum)) :
    l.foldl (fun sum partUsage =>
        jsAdd sum (match findPartById s.parts partUsage.partId with
          | some part => jsMul part.cost (partUsage.quantity : ℚ)
          | none => 0)) init
      = init + (l.map (fun u => unitCostOf s u.partId * (u.quantity : ℚ))).sum := by
  induction l generalizing init with
  | nil => simp
  | cons a rest ih =>
    rw [List.foldl_cons, List.map_cons, List.sum_cons]
    have hterm_a := hterm a (List.mem_cons_self _ _)
    have hval : (match findPartById s.parts a.partId with
        | some part => jsMul part.cost (a.quantity : ℚ)
        | none => 0) = unitCostOf s a.partId * (a.quantity : ℚ) := by
      unfold unitCostOf at hterm_a ⊢
      cases hfind : findPartById s.parts a.partId with
      | none => simp
      | some part =>
        rw [hfind] at hterm_a
        exact jsMul_of_isDouble hterm_a
    have hstep : IsDouble (init + unitCostOf s a.partId * (a.quantity : ℚ)) := by
      have := hsum [unitCostOf s a.partId * (a.quantity : ℚ)]
        (by rw [List.map_cons]; exact mem_inits_cons _ ((List.mem_inits _ _).mpr List.nil_prefix))
      simpa using this
    rw [hval, jsAdd_of_isDouble hstep,
      ih _ (fun u hu => hterm u (List.mem_cons_of_mem _ hu)) ?_]
    · ring
    · intro p hp
      have := hsum (unitCostOf s a.partId * (a.quantity : ℚ) :: p)
        (by rw [List.map_cons]; exact mem_inits_cons _ hp)
      rw [List.sum_cons, ← add_assoc] at this
      exact this

/-- The labor loop adds the exact terms when none of its operations rounds. -/
theorem laborFold_exact (s : AppState) (hours : ℚ) (l : List String) (init : ℚ)
    (hrate : ∀ t ∈ l, IsDouble (hourlyRateOf s t))
    (hterm : ∀ t ∈ l, IsDouble (hours * hourlyRateOf s t))
    (hsum : ∀ p ∈ (l.map (fun t => hours * hourlyRateOf s t)).inits, IsDouble (init + p.sum)) :
    l.foldl (fun sum techUsername =>
        match s.technicians.find? (fun t => t.username == techUsername) with
        | some technician =>
          if technician.salario ≠ 0 then
            jsAdd sum (jsMul hours (jsDiv technician.salario 160))
          else sum
        | none => sum) init
      = init + (l.map (fun t => hours * hourlyRateOf s t)).sum := by
  induction l generalizing init with
  | nil => simp
  | cons a rest ih =>
    rw [List.foldl_cons, List.map_cons, List.sum_cons]
    have hrate_a := hrate a (List.mem_cons_self _ _)
    have hterm_a := hterm a (List.mem_cons_self _ _)
    have hstep : IsDouble (init + hours * hourlyRateOf s a) := by
      have := hsum [hours * hourlyRateOf s a]
        (by rw [List.map_cons]; exact mem_inits_cons _ ((List.mem_inits _ _).mpr List.nil_prefix))
      simpa using this
    have hval : (match s.technicians.find? (fun t => t.username == a) with
        | some technician =>
          if technician.salario ≠ 0 then
            jsAdd init (jsMul hours (jsDiv technician.salario 160))
          else init
        | none => init) = init + hours * hourlyRateOf s a := by
      unfold hourlyRateOf at hrate_a hterm_a hstep ⊢
      cases hfind : s.technicians.find? (fun t => t.username == a) with
      | none => simp
      | some technician =>
        rw [hfind] at hrate_a hterm_a hstep
        simp only [Option.map_some', Option.getD_some] at hrate_a hterm_a hstep ⊢
        by_cases h0 : technician.salario = 0
        · simp [h0]
        · rw [if_pos h0, jsDiv_of_isDouble hrate_a, jsMul_of_isDouble hterm_a,
            jsAdd_of_isDouble hstep]
    rw [hval, ih _ (fun t ht => hrate t (List.mem_cons_of_mem _ ht))
      (fun t ht => hterm t (List.mem_cons_of_mem _ ht)) ?_]
    · ring
    · intro p hp
      have := hsum (hours * hourlyRateOf s a :: p)
        (by rw [List.map_cons]; exact mem_inits_cons _ hp)
      rw [List.sum_cons, ← add_assoc] at this
      exact this

theorem totalIntervalsMs_nonneg {l : List Interval} (h : IntervalsOrdered l) :
    0 ≤ totalIntervalsMs l := by
  induction l with
  | nil => exact le_refl _
  | cons i rest ih =>
    have hrest : IntervalsOrdered rest := fun j hj => h j (List.mem_cons_of_mem _ hj)
    have := ih hrest
    unfold totalIntervalsMs
    cases he : i.end_ with
    | none => simpa using this
    | some e =>
      have := h i (List.mem_cons_self _ _) e he
      simp only
      omega

theorem workedHours_nonneg {order : WorkOrder} (h : IntervalsOrdered order.workIntervals) :
    0 ≤ workedHours order := by
  unfold workedHours getTotalWorkDurationMs
  have := totalIntervalsMs_nonneg h
  have h2 : (0 : ℚ) ≤ (totalIntervalsMs order.workIntervals : ℚ) := by exact_mod_cast this
  positivity

theorem hoursWorked_eq (order : WorkOrder) :
    jsDiv (getTotalWorkDurationMs order : ℚ) (1000 * 60 * 60) = roundDouble (workedHours order) :=
  rfl

theorem partsCost_exact (s : AppState) (order : WorkOrder) (h : CostIsExact s order) :
    (calculateTotalCostParts s order).partsCost = specPartsCost s order := by
  obtain ⟨-, -, -, -, hterm, hsum, -, -⟩ := h
  unfold calculateTotalCostParts specPartsCost
  dsimp only
  rw [partsFold_exact s order.partsUsed 0
    (fun u hu => hterm _ (List.mem_map_of_mem _ hu))
    (fun p hp => by rw [zero_add]; exact hsum p hp), zero_add]

theorem laborCost_zero_hours (s : AppState) (order : WorkOrder) (h : workedHours order = 0) :
    (calculateTotalCostParts s order).laborCost = 0 := by
  unfold calculateTotalCostParts
  dsimp only
  rw [hoursWorked_eq, h, roundDouble_zero, if_neg (fun hc => lt_irrefl _ hc.2)]

theorem laborCost_exact (s : AppState) (order : WorkOrder)
    (hord : IntervalsOrdered order.workIntervals) (h : CostIsExact s order) :
    (calculateTotalCostParts s order).laborCost = specLaborCost s order := by
  rcases (workedHours_nonneg hord).lt_or_eq with hpos | hzero
  · obtain ⟨hhours, hrate, hterm, hsum, -, -, -, -⟩ := h
    unfold calculateTotalCostParts specLaborCost
    dsimp only
    rw [hoursWorked_eq, hhours.1]
    by_cases hl : order.technicians.length > 0
    · rw [if_pos ⟨hl, hpos⟩, laborFold_exact s (workedHours order) order.technicians 0 hrate
        (fun t ht => hterm _ (List.mem_map_of_mem _ ht))
        (fun p hp => by rw [zero_add]; exact hsum p hp), zero_add, List.sum_map_mul_left]
    · have hnil : order.technicians = [] := by
        cases hte : order.technicians with
        | nil => rfl
        | cons a l => rw [hte] at hl; simp at hl
      rw [if_neg (fun hc => hl hc.1), hnil]
      simp
  · rw [laborCost_zero_hours s order hzero.symm]
    unfold specLaborCost
    rw [← hzero, zero_mul]

/-- Counterexample of C6: one minute of work by two technicians with salaries
15000 and 13000, who both exist.  The code adds `hours * (salario / 160)` per
technician in double precision and returns 2.916666666666667; the formula
`hours * (15000 / 160 + 13000 / 160)` is 35/12, and evaluated in double
precision in that order it is 2.9166666666666665.  Likewise the product of the
unit cost 0.1 by the quantity 3 is 0.30000000000000004 in the code. -/
theorem labor_cost_is_rounded_per_technician :
    OrderResolved minuteState minuteOrder ∧ IntervalsOrdered minuteOrder.workIntervals ∧
    (calculateTotalCostParts minuteState minuteOrder).laborCost
      = 3283874728290987 / 2 ^ 50 ∧
    specLaborCost minuteState minuteOrder = 35 / 12 ∧
    jsMul (jsDiv 60000 (1000 * 60 * 60)) (jsAdd (jsDiv 15000 160) (jsDiv 13000 160))
      = 6567749456581973 / 2 ^ 51 ∧
    calculateTotalCost minuteState minuteOrder
      ≠ specPartsCost minuteState minuteOrder + specLaborCost minuteState minuteOrder
        + minuteOrder.additionalCost.getD 0 ∧
    jsMul (roundDouble (1 / 10)) 3 = 1351079888211149 / 2 ^ 52 ∧
    jsMul (roundDouble (1 / 10)) 3 ≠ roundDouble (1 / 10) * 3 := by
  refine ⟨⟨?_, ?_⟩, ?_, by decide!, by decide!, by decide!, by decide!, by decide!,
    by decide!⟩
  · intro u hu
    simp [minuteOrder] at hu
  · intro t ht
    simp only [minuteOrder, costOrder, scenarioOrder, List.mem_cons, List.mem_singleton,
      List.not_mem_nil, or_false] at ht
    rcases ht with rfl | rfl <;> rfl
  · intro i hi e he
    simp only [minuteOrder, List.mem_singleton] at hi
    subst hi
    simp only [Option.some.injEq] at he
    subst he
    decide

/-- C6 (amended): for every order whose used parts and technicians all exist
(and whose intervals do not end before they start), when every quotient,
product and partial sum of the formula is a finite double, so that no operation
is rounded, `calculateTotalCost` is the sum over the parts-used list of unit
cost times quantity, plus the worked hours times the sum of `salario / 160`
over the order's technicians, plus the additional cost, and its three components
are those of section 4.3; and an order with zero worked hours has zero labor
cost in every case. -/
theorem total_cost_formula (s : AppState) (order : WorkOrder) (_hres : OrderResolved s order)
    (hord : IntervalsOrdered order.workIntervals) :
    (CostIsExact s order →
      calculateTotalCost s order
        = specPartsCost s order + specLaborCost s order + order.additionalCost.getD 0 ∧
      calculateTotalCostParts s order =
        { partsCost := specPartsCost s order
          laborCost := specLaborCost s order
          totalCost := specPartsCost s order + specLaborCost s order
            + order.additionalCost.getD 0 }) ∧
    (workedHours order = 0 → (calculateTotalCostParts s order).laborCost = 0) := by
  refine ⟨fun hexact => ?_, laborCost_zero_hours s order⟩
  have hp := partsCost_exact s order hexact
  have hl := laborCost_exact s order hord hexact
  have ht : (calculateTotalCostParts s order).totalCost
      = specPartsCost s order + specLaborCost s order + order.additionalCost.getD 0 := by
    have h0 : (calculateTotalCostParts s order).totalCost
        = jsAdd (jsAdd (calculateTotalCostParts s order).partsCost
            (calculateTotalCostParts s order).laborCost) (order.additionalCost.getD 0) := rfl
    rw [h0, hp, hl, jsAdd_of_isDouble hexact.2.2.2.2.2.2.1,
      jsAdd_of_isDouble hexact.2.2.2.2.2.2.2]
  refine ⟨ht, ?_⟩
  have : calculateTotalCostParts s order =
    { partsCost := (calculateTotalCostParts s order).partsCost
      laborCost := (calculateTotalCostParts s order).laborCost
      totalCost := (calculateTotalCostParts s order).totalCost } := rfl
  rw [this, ht, hp, hl]

theorem costOrder_resolved : OrderResolved scenarioState costOrder := by
  constructor
  · intro u hu
    simp only [costOrder, scenarioOrder, List.mem_singleton] at hu
    subst hu
    rfl
  · intro t ht
    simp only [costOrder, scenarioOrder, List.mem_cons, List.mem_singleton, List.not_mem_nil,
      or_false] at ht
    rcases ht with rfl | rfl <;> rfl

theorem costOrder_ordered : IntervalsOrdered costOrder.workIntervals := by
  intro i hi e he
  simp only [costOrder, List.mem_singleton] at hi
  subst hi
  simp only [Option.some.injEq] at he
  subst he
  decide

theorem costOrder_spec_values :
    specPartsCost scenarioState costOrder = 150 ∧ specLaborCost scenarioState costOrder = 500 := by
  constructor
  · simp [specPartsCost, unitCostOf, findPartById, costOrder, scenarioOrder, scenarioState,
      scenarioPart]
    norm_num
  · simp [specLaborCost, hourlyRateOf, workedHours, getTotalWorkDurationMs, totalIntervalsMs,
      costOrder, scenarioOrder, scenarioState]
    norm_num

theorem costOrder_exact : CostIsExact scenarioState costOrder := by decide!

/-- Witness of C6: the scenario order (salaries 16000 and 24000, one interval
of 2 hours, one part of cost 50 used 3 times, no additional cost) has parts
cost 150, labor cost 500 and total cost 650; none of its operations rounds. -/
theorem total_cost_formula_witness :
    OrderResolved scenarioState costOrder ∧ IntervalsOrdered costOrder.workIntervals ∧
    CostIsExact scenarioState costOrder ∧
    workedHours costOrder = 2 ∧
    calculateTotalCostParts scenarioState costOrder
      = { partsCost := 150, laborCost := 500, totalCost := 650 } ∧
    calculateTotalCost scenarioState costOrder = 650 := by
  have hexact : CostIsExact scenarioState costOrder := costOrder_exact
  have h := (total_cost_formula scenarioState costOrder costOrder_resolved
    costOrder_ordered).1 hexact
  obtain ⟨hp, hl⟩ := costOrder_spec_values
  rw [hp, hl] at h
  refine ⟨costOrder_resolved, costOrder_ordered, hexact, ?_, ?_, ?_⟩
  · simp [workedHours, getTotalWorkDurationMs, totalIntervalsMs, costOrder]
    norm_num
  · rw [h.2]
    norm_num [costOrder, scenarioOrder]
  · rw [h.1]
    norm_num [costOrder, scenarioOrder]

/-! ## C9: MTTR -/

theorem totalRepairTime_fold (l : List WorkOrder) (init : Int) :
    l.foldl (fun sum o => sum + getTotalWorkDurationMs o) init
      = init + (l.map getTotalWorkDurationMs).sum := by
  induction l generalizing init with
  | nil => simp
  | cons a rest ih =>
    rw [List.foldl_cons, ih, List.map_cons, List.sum_cons]
    ring

theorem totalRepairTime_eq_sum (l : List WorkOrder) :
    totalRepairTime l = (l.map getTotalWorkDurationMs).sum := by
  unfold totalRepairTime
  rw [totalRepairTime_fold, zero_add]

theorem sum_workedHours (l : List WorkOrder) :
    (l.map workedHours).sum = ((l.map getTotalWorkDurationMs).sum : ℚ) / (1000 * 60 * 60) := by
  induction l with
  | nil => simp
  | cons a rest ih =>
    rw [List.map_cons, List.sum_cons, ih, List.map_cons, List.sum_cons]
    unfold workedHours
    push_cast
    ring

theorem mttrKpi_spec (l : List WorkOrder) :
    (mttrKpi l = Kpi.na ↔ l = []) ∧ (l ≠ [] → mttrKpi l = Kpi.value (meanWorkedHours l)) := by
  unfold mttrKpi
  cases l with
  | nil => simp
  | cons a rest =>
    have hpos : (a :: rest).length > 0 := by simp
    rw [if_pos hpos]
    refine ⟨⟨fun h => (nomatch h), fun h => (nomatch h)⟩, fun _ => ?_⟩
    unfold meanWorkedHours
    rw [sum_workedHours, totalRepairTime_eq_sum, div_right_comm]

theorem repairOrders_sorted_perm (orders : List WorkOrder) :
    ((correctiveOrdersSorted orders).filter (fun o => o.status = Status.Completado)).Perm
      (repairOrders orders) := by
  unfold correctiveOrdersSorted repairOrders
  have h := (List.perm_insertionSort (fun a b => failureTimestamp a ≤ failureTimestamp b)
    (orders.filter (fun o => o.type = OrderType.Correctivo))).filter
      (fun o => decide (o.status = Status.Completado))
  refine h.trans ?_
  rw [List.filter_filter]
  apply List.Perm.of_eq
  congr 1
  funext o
  simp [Bool.and_comm]

theorem meanWorkedHours_perm {l l' : List WorkOrder} (h : l.Perm l') :
    meanWorkedHours l = meanWorkedHours l' := by
  unfold meanWorkedHours
  rw [(h.map workedHours).sum_eq, h.length_eq]

/-- C9: the MTTR computed by `updateKpis` is the sentinel 'N/A' iff no completed
corrective order is in scope, and otherwise it is the arithmetic mean, over the
completed corrective orders in scope, of `getTotalWorkDurationMs` expressed in
hours; `generateMachineReport` computes the same from the machine's orders. -/
theorem mttr_is_mean_repair_time (s : AppState) (machineId : String)
    (ordersInPeriod : List WorkOrder) (startDate endDate : Int) :
    ((updateKpis s machineId ordersInPeriod startDate endDate).mttr = Kpi.na
      ↔ repairOrders (periodOrders machineId ordersInPeriod) = []) ∧
    (repairOrders (periodOrders machineId ordersInPeriod) ≠ [] →
      (updateKpis s machineId ordersInPeriod startDate endDate).mttr
        = Kpi.value (meanWorkedHours (repairOrders (periodOrders machineId ordersInPeriod)))) ∧
    (∀ kpis, generateMachineReportKpis s machineId = some kpis →
      (kpis.2 = Kpi.na ↔
        repairOrders (s.workOrders.filter (fun o => o.machineId == machineId)) = []) ∧
      (repairOrders (s.workOrders.filter (fun o => o.machineId == machineId)) ≠ [] →
        kpis.2 = Kpi.value (meanWorkedHours
          (repairOrders (s.workOrders.filter (fun o => o.machineId == machineId)))))) := by
  refine ⟨(mttrKpi_spec _).1, (mttrKpi_spec _).2, ?_⟩
  intro kpis hk
  unfold generateMachineReportKpis at hk
  split at hk
  · cases hk
  · split at hk
    · cases hk
    · injection hk with hk
      subst hk
      dsimp only
      have hperm := repairOrders_sorted_perm (s.workOrders.filter (fun o => o.machineId == machineId))
      have hnil : (correctiveOrdersSorted (s.workOrders.filter
          (fun o => o.machineId == machineId))).filter (fun o => o.status = Status.Completado) = []
          ↔ repairOrders (s.workOrders.filter (fun o => o.machineId == machineId)) = [] :=
        ⟨fun h => List.Perm.eq_nil (h ▸ hperm.symm), fun h => List.Perm.eq_nil (h ▸ hperm)⟩
      refine ⟨(mttrKpi_spec _).1.trans hnil, fun hne => ?_⟩
      rw [(mttrKpi_spec _).2 (fun h => hne (hnil.mp h)), meanWorkedHours_perm hperm]

/-! ## C8: MTBF -/

theorem sorted_head_le {l : List WorkOrder} {a : WorkOrder} {rest : List WorkOrder}
    (hs : List.Sorted (fun a b => failureTimestamp a ≤ failureTimestamp b) l)
    (hl : l = a :: rest) : ∀ o ∈ l, failureTimestamp a ≤ failureTimestamp o := by
  subst hl
  intro o ho
  rcases List.mem_cons.mp ho with rfl | ho
  · exact le_refl _
  · exact List.rel_of_sorted_cons hs o ho

theorem sorted_le_last {l : List WorkOrder} {b : WorkOrder} {front : List WorkOrder}
    (hs : List.Sorted (fun a b => failureTimestamp a ≤ failureTimestamp b) l)
    (hl : l = front ++ [b]) : ∀ o ∈ l, failureTimestamp o ≤ failureTimestamp b := by
  subst hl
  intro o ho
  rcases List.mem_append.mp ho with ho | ho
  · exact (List.pairwise_append.mp hs).2.2 o ho b (List.mem_singleton_self b)
  · rw [List.mem_singleton.mp ho]

theorem correctiveOrdersSorted_sorted (orders : List WorkOrder) :
    List.Sorted (fun a b => failureTimestamp a ≤ failureTimestamp b)
      (correctiveOrdersSorted orders) := by
  haveI : IsTotal WorkOrder (fun a b => failureTimestamp a ≤ failureTimestamp b) :=
    ⟨fun a b => le_total _ _⟩
  haveI : IsTrans WorkOrder (fun a b => failureTimestamp a ≤ failureTimestamp b) :=
    ⟨fun _ _ _ h1 h2 => le_trans h1 h2⟩
  exact List.sorted_insertionSort _ _

theorem correctiveOrdersSorted_perm (orders : List WorkOrder) :
    (correctiveOrdersSorted orders).Perm (correctiveOrders orders) :=
  List.perm_insertionSort _ _

theorem mtbfKpi_sorted_spec (orders : List WorkOrder) :
    ((correctiveOrders orders).length < 2 → mtbfKpi (correctiveOrdersSorted orders) = Kpi.na) ∧
    (2 ≤ (correctiveOrders orders).length →
      ∃ first last, first ∈ failureTimestamps orders ∧ last ∈ failureTimestamps orders ∧
        (∀ t ∈ failureTimestamps orders, first ≤ t ∧ t ≤ last) ∧
        mtbfKpi (correctiveOrdersSorted orders) =
          if first < last then Kpi.value (mtbfDays first last (correctiveOrders orders).length)
          else Kpi.na) := by
  have hperm := correctiveOrdersSorted_perm orders
  have hsorted := correctiveOrdersSorted_sorted orders
  have hlen := hperm.length_eq
  constructor
  · intro h
    unfold mtbfKpi
    rw [if_neg (by omega)]
  · intro h
    cases hl : correctiveOrdersSorted orders with
    | nil => rw [hl] at hlen; simp at hlen; omega
    | cons a rest =>
      have hne : correctiveOrdersSorted orders ≠ [] := by rw [hl]; simp
      obtain ⟨front, hfront⟩ := List.getLast?_eq_some_iff.mp
        (List.getLast?_eq_getLast _ hne)
      have hmem : ∀ o, o ∈ correctiveOrdersSorted orders ↔ o ∈ correctiveOrders orders :=
        fun o => hperm.mem_iff
      have ha : a ∈ correctiveOrdersSorted orders := by rw [hl]; exact List.mem_cons_self _ _
      have hb : (correctiveOrdersSorted orders).getLast hne ∈ correctiveOrdersSorted orders :=
        List.getLast_mem hne
      refine ⟨failureTimestamp a, failureTimestamp ((correctiveOrdersSorted orders).getLast hne),
        List.mem_map_of_mem _ ((hmem a).mp ha), List.mem_map_of_mem _ ((hmem _).mp hb), ?_, ?_⟩
      · intro t ht
        obtain ⟨o, ho, rfl⟩ := List.mem_map.mp ht
        exact ⟨sorted_head_le hsorted hl o ((hmem o).mpr ho),
          sorted_le_last hsorted hfront o ((hmem o).mpr ho)⟩
      · have hlast : (a :: rest).getLast? = some ((correctiveOrdersSorted orders).getLast hne) := by
          rw [← hl]; exact List.getLast?_eq_getLast _ hne
        unfold mtbfKpi
        rw [if_pos (by rw [← hl]; omega), List.head?_cons, hlast]
        dsimp only
        rw [← hl, hlen]
        by_cases hlt : failureTimestamp a
            < failureTimestamp ((correctiveOrdersSorted orders).getLast hne)
        · rw [if_pos hlt, if_pos (by omega)]
          rfl
        · rw [if_neg hlt, if_neg (by omega)]

/-- C8, as the code has it: with fewer than 2 corrective orders in scope the
MTBF of `updateKpis` (and of `generateMachineReport`) is the sentinel 'N/A';
with `n >= 2` of them, `first` and `last` being the minimum and the maximum of
their timestamps (`createdAt`, falling back to `date`), it is
`(last - first) / (n - 1)` converted to days when `last` is later than `first`,
and 'N/A' when all the timestamps are equal. -/
theorem mtbf_between_first_and_last_failure (s : AppState) (machineId : String)
    (ordersInPeriod : List WorkOrder) (startDate endDate : Int)
    (_hdate : HasFailureDate ordersInPeriod) (_hdate' : HasFailureDate s.workOrders) :
    ((correctiveOrders (periodOrders machineId ordersInPeriod)).length < 2 →
      (updateKpis s machineId ordersInPeriod startDate endDate).mtbf = Kpi.na) ∧
    (2 ≤ (correctiveOrders (periodOrders machineId ordersInPeriod)).length →
      ∃ first last, first ∈ failureTimestamps (periodOrders machineId ordersInPeriod) ∧
        last ∈ failureTimestamps (periodOrders machineId ordersInPeriod) ∧
        (∀ t ∈ failureTimestamps (periodOrders machineId ordersInPeriod), first ≤ t ∧ t ≤ last) ∧
        (updateKpis s machineId ordersInPeriod startDate endDate).mtbf =
          if first < last then
            Kpi.value (mtbfDays first last
              (correctiveOrders (periodOrders machineId ordersInPeriod)).length)
          else Kpi.na) ∧
    (∀ kpis, generateMachineReportKpis s machineId = some kpis →
      ((correctiveOrders (s.workOrders.filter (fun o => o.machineId == machineId))).length < 2 →
        kpis.1 = Kpi.na) ∧
      (2 ≤ (correctiveOrders (s.workOrders.filter (fun o => o.machineId == machineId))).length →
        ∃ first last,
          first ∈ failureTimestamps (s.workOrders.filter (fun o => o.machineId == machineId)) ∧
          last ∈ failureTimestamps (s.workOrders.filter (fun o => o.machineId == machineId)) ∧
          (∀ t ∈ failureTimestamps (s.workOrders.filter (fun o => o.machineId == machineId)),
            first ≤ t ∧ t ≤ last) ∧
          kpis.1 =
            if first < last then
              Kpi.value (mtbfDays first last (correctiveOrders
                (s.workOrders.filter (fun o => o.machineId == machineId))).length)
            else Kpi.na)) := by
  refine ⟨(mtbfKpi_sorted_spec _).1, (mtbfKpi_sorted_spec _).2, ?_⟩
  intro kpis hk
  unfold generateMachineReportKpis at hk
  split at hk
  · cases hk
  · split at hk
    · cases hk
    · injection hk with hk
      subst hk
      exact ⟨(mtbfKpi_sorted_spec _).1, (mtbfKpi_sorted_spec _).2⟩

/-- Counterexample to C8 as stated: two corrective orders with the same
timestamp are in scope and the MTBF is 'N/A'. -/
theorem mtbf_na_with_two_failures :
    ¬ ((updateKpis scenarioState "all" sameDayOrders 0 0).mtbf = Kpi.na ↔
      (correctiveOrders (periodOrders "all" sameDayOrders)).length < 2) := by
  decide

theorem spacedOrders_hasFailureDate : HasFailureDate spacedOrders := by
  intro o ho
  simp only [spacedOrders, List.mem_cons, List.mem_singleton, List.not_mem_nil, or_false] at ho
  rcases ho with rfl | rfl | rfl <;> exact Or.inl rfl

theorem scenarioState_hasFailureDate : HasFailureDate scenarioState.workOrders := by
  intro o ho
  simp only [scenarioState, List.mem_singleton] at ho
  subst ho
  exact Or.inl rfl

theorem spacedOrders_sorted :
    correctiveOrdersSorted (periodOrders "all" spacedOrders) =
      [{ scenarioOrder with fb_id := "MA-25-0002", id := "MA-25-0002",
                            createdAt := some 1735725600000 },
       { scenarioOrder with createdAt := some 1735898400000 },
       { scenarioOrder with fb_id := "MA-25-0003", id := "MA-25-0003",
                            createdAt := some 1736244000000 }] := by
  decide

theorem spacedOrders_mtbf :
    (updateKpis scenarioState "all" spacedOrders 0 0).mtbf = Kpi.value 3 := by
  unfold updateKpis
  dsimp only
  rw [spacedOrders_sorted]
  simp [mtbfKpi, failureTimestamp]
  norm_num

/-- Witness of C8: three corrective orders created on days 0, 2 and 6 (given
out of order) have an MTBF of 3 days. -/
theorem mtbf_between_first_and_last_failure_witness :
    HasFailureDate spacedOrders ∧ HasFailureDate scenarioState.workOrders ∧
    (updateKpis scenarioState "all" spacedOrders 0 0).mtbf = Kpi.value 3 ∧
    mtbfDays 1735725600000 1736244000000 3 = 3 ∧
    ∃ first last, first ∈ failureTimestamps (periodOrders "all" spacedOrders) ∧
      last ∈ failureTimestamps (periodOrders "all" spacedOrders) ∧
      (∀ t ∈ failureTimestamps (periodOrders "all" spacedOrders), first ≤ t ∧ t ≤ last) ∧
      (updateKpis scenarioState "all" spacedOrders 0 0).mtbf =
        if first < last then
          Kpi.value (mtbfDays first last (correctiveOrders (periodOrders "all" spacedOrders)).length)
        else Kpi.na :=
  ⟨spacedOrders_hasFailureDate, scenarioState_hasFailureDate, spacedOrders_mtbf,
    by norm_num [mtbfDays],
    (mtbf_between_first_and_last_failure scenarioState "all" spacedOrders 0 0
      spacedOrders_hasFailureDate scenarioState_hasFailureDate).2.1 (by decide)⟩

/-! ## C10: the default day of a machine without schedule -/

theorem oneDayMs_eq : oneDayMs = 86400000 := by decide

theorem dayCount_full_days (startDate : Int) (n : Nat) :
    dayCount startDate (startDate + n * oneDayMs + 86399000) = n + 2 := by
  unfold dayCount jsRound
  rw [oneDayMs_eq]
  have h : (2 * (startDate + ↑n * 86400000 + 86399000 - startDate) + 86400000) / (2 * 86400000)
      = (n : Int) + 1 := by omega
  rw [h]
  dsimp only
  rw [if_neg (by omega)]
  ring

theorem loopDays_full_days (startDate : Int) (n : Nat) :
    loopDays startDate (startDate + n * oneDayMs + 86399000) = n + 1 := by
  unfold loopDays
  rw [oneDayMs_eq]
  rw [if_pos (by omega)]
  have h : (startDate + ↑n * 86400000 + 86399000 - startDate) / 86400000 + 1 = (n : Int) + 1 := by
    omega
  rw [h]
  omega

/-- C10 fails in the code: for a machine with no schedule that is not
schedule-disabled, over a window of `n + 1` calendar days (00:00:00 of the
first day to 23:59:59 of the last), `calculateScheduledUptimeMs` returns
`n + 2` default days of 10 hours, one more than the days of the window, while
the loop for a machine with a schedule runs `n + 1` times over the same window;
for the single Monday of the scenario it returns 20 hours. -/
theorem default_uptime_counts_an_extra_day :
    (∀ (utcOffsetMs : Int) (id : String) (startDate : Int) (n : Nat),
      calculateScheduledUptimeMs utcOffsetMs [⟨id, false, none⟩] startDate
        (startDate + n * oneDayMs + 86399000) = (n + 2) * (10 * 60 * 60 * 1000)) ∧
    (∀ (startDate : Int) (n : Nat),
      loopDays startDate (startDate + n * oneDayMs + 86399000) = n + 1) ∧
    calculateScheduledUptimeMs (-21600000) [unscheduledMachine] mondayStart mondayEnd
      = 2 * (10 * 60 * 60 * 1000) := by
  refine ⟨?_, loopDays_full_days, by decide⟩
  intro utcOffsetMs id startDate n
  unfold calculateScheduledUptimeMs machineUptimeMs
  simp only [List.foldl_cons, List.foldl_nil, Bool.false_eq_true, if_false, zero_add]
  rw [dayCount_full_days]
  ring

/-! ## C7: availability -/

theorem dailyUptimeMs_nonneg (schedule : Schedule) (dayOfWeek : Int) :
    0 ≤ dailyUptimeMs schedule dayOfWeek := by
  unfold dailyUptimeMs
  split
  · dsimp only
    split
    · omega
    · exact le_refl _
  · exact le_refl _

theorem uptimeLoop_nonneg (utcOffsetMs : Int) (schedule : Schedule) (endDate : Int)
    (fuel : Nat) (currentDate : Int) :
    0 ≤ uptimeLoop utcOffsetMs schedule endDate fuel currentDate := by
  induction fuel generalizing currentDate with
  | zero => exact le_refl _
  | succ fuel ih =>
    unfold uptimeLoop
    split
    · have h1 := dailyUptimeMs_nonneg schedule (getDay utcOffsetMs currentDate)
      have h2 := ih (currentDate + oneDayMs)
      omega
    · exact le_refl _

theorem loopDays_of_gt {currentDate endDate : Int} (h : endDate < currentDate) :
    loopDays currentDate endDate = 0 := by
  unfold loopDays
  rw [if_neg (by omega)]

theorem loopDays_step {currentDate endDate : Int} (h : currentDate ≤ endDate) :
    loopDays currentDate endDate = loopDays (currentDate + oneDayMs) endDate + 1 := by
  unfold loopDays
  rw [oneDayMs_eq, if_pos h]
  by_cases h2 : currentDate + 86400000 ≤ endDate
  · rw [if_pos h2]
    omega
  · rw [if_neg h2]
    omega

/-- The fuel `loopDays` is enough: more fuel does not change the result of the
`while` loop. -/
theorem uptimeLoop_fuel (utcOffsetMs : Int) (schedule : Schedule) (endDate : Int)
    (fuel : Nat) (currentDate : Int) (h : loopDays currentDate endDate ≤ fuel) :
    uptimeLoop utcOffsetMs schedule endDate fuel currentDate
      = uptimeLoop utcOffsetMs schedule endDate (loopDays currentDate endDate) currentDate := by
  induction fuel generalizing currentDate with
  | zero =>
    have : loopDays currentDate endDate = 0 := by omega
    rw [this]
  | succ fuel ih =>
    by_cases hc : currentDate ≤ endDate
    · have hstep := loopDays_step hc
      rw [hstep]
      unfold uptimeLoop
      rw [if_pos hc, if_pos hc, ih (currentDate + oneDayMs) (by omega)]
    · rw [loopDays_of_gt (by omega)]
      unfold uptimeLoop
      rw [if_neg hc]

theorem dayCount_pos {startDate endDate : Int} (h : startDate ≤ endDate) :
    1 ≤ dayCount startDate endDate := by
  unfold dayCount jsRound
  rw [oneDayMs_eq]
  dsimp only
  split
  · exact le_refl _
  · omega

theorem machineUptimeMs_nonneg (utcOffsetMs : Int) (machine : Machine) {startDate endDate : Int}
    (h : startDate ≤ endDate) : 0 ≤ machineUptimeMs utcOffsetMs machine startDate endDate := by
  unfold machineUptimeMs
  split
  · exact le_refl _
  · split
    · have := dayCount_pos h
      omega
    · exact uptimeLoop_nonneg _ _ _ _ _

theorem uptime_fold_nonneg (utcOffsetMs : Int) (machines : List Machine) {startDate endDate : Int}
    (h : startDate ≤ endDate) (init : Int) (hinit : 0 ≤ init) :
    0 ≤ machines.foldl (fun totalScheduledMs machine =>
      totalScheduledMs + machineUptimeMs utcOffsetMs machine startDate endDate) init := by
  induction machines generalizing init with
  | nil => exact hinit
  | cons m rest ih =>
    rw [List.foldl_cons]
    apply ih
    have := machineUptimeMs_nonneg utcOffsetMs m h
    omega

theorem calculateScheduledUptimeMs_nonneg (utcOffsetMs : Int) (machines : List Machine)
    {startDate endDate : Int} (h : startDate ≤ endDate) :
    0 ≤ calculateScheduledUptimeMs utcOffsetMs machines startDate endDate :=
  uptime_fold_nonneg utcOffsetMs machines h 0 (le_refl _)

theorem availability_value_eq (uptime downtime : Int) (h : 0 < uptime) :
    ((max 0 (uptime - downtime) : Int) : ℚ) / (uptime : ℚ) * 100
      = specAvailability uptime downtime := by
  unfold specAvailability
  have hu : (0 : ℚ) < (uptime : ℚ) := by exact_mod_cast h
  congr 1
  by_cases hd : 0 ≤ uptime - downtime
  · rw [max_eq_right hd]
    have : (0 : ℚ) ≤ ((uptime : ℚ) - (downtime : ℚ)) / (uptime : ℚ) := by
      apply div_nonneg _ hu.le
      have : (0 : ℚ) ≤ ((uptime - downtime : Int) : ℚ) := by exact_mod_cast hd
      simpa using this
    rw [max_eq_right this]
    push_cast
    ring
  · have hd' : uptime - downtime ≤ 0 := by omega
    rw [max_eq_left hd']
    have : ((uptime : ℚ) - (downtime : ℚ)) / (uptime : ℚ) ≤ 0 := by
      apply div_nonpos_of_nonpos_of_nonneg _ hu.le
      have : ((uptime - downtime : Int) : ℚ) ≤ 0 := by exact_mod_cast hd'
      simpa using this
    rw [max_eq_left this]
    simp

/-- C7: in `updateKpis`, over a window whose end is not before its start, the
availability is the sentinel 'N/A' when the scheduled uptime of the machines in
scope is 0, and otherwise it is
`max(0, (scheduledUptimeMs - downtimeMs) / scheduledUptimeMs) * 100`, where
`downtimeMs` is the sum of `getTotalWorkDurationMs` over the completed
corrective orders in scope. -/
theorem availability_formula (s : AppState) (machineId : String)
    (ordersInPeriod : List WorkOrder) (startDate endDate : Int) (h : startDate ≤ endDate) :
    (calculateScheduledUptimeMs s.utcOffsetMs (machinesForKpi s machineId) startDate endDate = 0 →
      (updateKpis s machineId ordersInPeriod startDate endDate).availability = Kpi.na) ∧
    (calculateScheduledUptimeMs s.utcOffsetMs (machinesForKpi s machineId) startDate endDate ≠ 0 →
      (updateKpis s machineId ordersInPeriod startDate endDate).availability =
        Kpi.value (specAvailability
          (calculateScheduledUptimeMs s.utcOffsetMs (machinesForKpi s machineId) startDate endDate)
          (downtimeMs (periodOrders machineId ordersInPeriod)))) := by
  have hnn := calculateScheduledUptimeMs_nonneg s.utcOffsetMs (machinesForKpi s machineId) h
  unfold updateKpis availabilityKpi
  dsimp only
  constructor
  · intro h0
    split
    · rw [if_neg (by omega)]
    · rfl
  · intro hne
    have hpos : 0 < calculateScheduledUptimeMs s.utcOffsetMs (machinesForKpi s machineId)
        startDate endDate := by omega
    have hlen : (machinesForKpi s machineId).length > 0 := by
      cases hm : machinesForKpi s machineId with
      | nil =>
        rw [hm] at hne
        exact absurd rfl hne
      | cons m rest => simp
    rw [if_pos hlen, if_pos hpos, totalRepairTime_eq_sum, availability_value_eq _ _ hpos]
    rfl

theorem scenario_uptime :
    calculateScheduledUptimeMs kpiState.utcOffsetMs (machinesForKpi kpiState "M1")
      mondayStart mondayEnd = 32400000 := by
  decide

theorem scenario_downtime : downtimeMs (periodOrders "M1" [costOrder]) = 7200000 := by
  decide

/-- Witness of C7: machine M1 is scheduled 08:00-17:00 on the Monday of a
1-day window and one completed corrective order has 2 worked hours: the
scheduled uptime is 9 hours and the availability is 700/9 (77.78 %). -/
theorem availability_formula_witness :
    mondayStart ≤ mondayEnd ∧
    calculateScheduledUptimeMs kpiState.utcOffsetMs (machinesForKpi kpiState "M1")
      mondayStart mondayEnd = 9 * (60 * 60 * 1000) ∧
    downtimeMs (periodOrders "M1" [costOrder]) = 2 * (60 * 60 * 1000) ∧
    (updateKpis kpiState "M1" [costOrder] mondayStart mondayEnd).availability
      = Kpi.value (700 / 9) := by
  have h := (availability_formula kpiState "M1" [costOrder] mondayStart mondayEnd
    (by decide)).2 (by rw [scenario_uptime]; decide)
  rw [scenario_uptime, scenario_downtime] at h
  refine ⟨by decide, by rw [scenario_uptime]; decide, by rw [scenario_downtime]; decide, ?_⟩
  rw [h]
  norm_num [specAvailability]

/-! ## C11: the scheduled uptime of a machine with a schedule -/

theorem dailySchedule_eq_matchingGroup (schedule : Schedule) (dayOfWeek : Int) :
    dailySchedule schedule dayOfWeek = matchingGroup schedule dayOfWeek := by
  unfold dailySchedule matchingGroup
  by_cases hany : schedule.weekday.isSome ∨ schedule.saturday.isSome ∨ schedule.sunday.isSome
  · rw [if_pos hany]
    by_cases h1 : dayOfWeek ≥ 1 ∧ dayOfWeek ≤ 5
    · rw [if_pos h1, if_pos h1]
      cases schedule.weekday with
      | none => rfl
      | some g => by_cases hg : g.activeDays.contains dayOfWeek = true <;> simp [Option.filter, hg]
    · rw [if_neg h1, if_neg h1]
      by_cases h6 : dayOfWeek = 6
      · rw [if_pos h6, if_pos h6]
        cases schedule.saturday with
        | none => rfl
        | some g => by_cases hg : g.active = true <;> simp [Option.filter, hg]
      · rw [if_neg h6, if_neg h6]
        by_cases h0 : dayOfWeek = 0
        · rw [if_pos h0, if_pos h0]
          cases schedule.sunday with
          | none => rfl
          | some g => by_cases hg : g.active = true <;> simp [Option.filter, hg]
        · rw [if_neg h0, if_neg h0]
  · rw [if_neg hany]
    simp only [not_or, Bool.not_eq_true, Option.not_isSome, Option.isNone_iff_eq_none] at hany
    obtain ⟨hw, hs, hd⟩ := hany
    rw [hw, hs, hd]
    simp [Option.filter]

theorem dailyUptimeMs_eq_spec (schedule : Schedule) (dayOfWeek : Int) :
    dailyUptimeMs schedule dayOfWeek = specDayMinutes schedule dayOfWeek * (60 * 1000) := by
  unfold dailyUptimeMs specDayMinutes
  rw [dailySchedule_eq_matchingGroup]
  cases hm : matchingGroup schedule dayOfWeek with
  | none => simp
  | some g =>
    obtain ⟨st, en⟩ := g
    cases st with
    | none => simp
    | some st =>
      cases en with
      | none => simp
      | some en =>
        simp only [minutesOf]
        by_cases hpos : ((en.hour * 60 + en.minute) - (st.hour * 60 + st.minute)) * 60 * 1000 > 0
        · rw [if_pos hpos, max_eq_right (by omega)]
          ring
        · rw [if_neg hpos, max_eq_left (by omega)]
          ring

theorem visitedDays_of_gt {startDate endDate : Int} (h : endDate < startDate) :
    visitedDays startDate endDate = [] := by
  unfold visitedDays
  rw [loopDays_of_gt h]
  rfl

theorem visitedDays_step {startDate endDate : Int} (h : startDate ≤ endDate) :
    visitedDays startDate endDate = startDate :: visitedDays (startDate + oneDayMs) endDate := by
  unfold visitedDays
  rw [loopDays_step h, List.range_succ_eq_map, List.map_cons, List.map_map]
  congr 1
  · simp
  · apply List.map_congr_left
    intro k _
    simp only [Function.comp_apply, Nat.succ_eq_add_one]
    push_cast
    ring

theorem uptimeLoop_eq_spec (utcOffsetMs : Int) (schedule : Schedule) (endDate : Int)
    (fuel : Nat) (currentDate : Int) (h : loopDays currentDate endDate = fuel) :
    uptimeLoop utcOffsetMs schedule endDate fuel currentDate
      = specScheduleUptimeMs utcOffsetMs schedule currentDate endDate := by
  induction fuel generalizing currentDate with
  | zero =>
    have hgt : endDate < currentDate := by
      by_contra hle
      have := loopDays_step (not_lt.mp hle)
      omega
    unfold specScheduleUptimeMs
    rw [visitedDays_of_gt hgt]
    rfl
  | succ fuel ih =>
    have hle : currentDate ≤ endDate := by
      by_contra hgt
      have := loopDays_of_gt (not_le.mp hgt)
      omega
    have hstep := loopDays_step hle
    unfold uptimeLoop specScheduleUptimeMs
    rw [if_pos hle, visitedDays_step hle, List.map_cons, List.sum_cons, dailyUptimeMs_eq_spec,
      ih (currentDate + oneDayMs) (by omega)]
    rfl

theorem mem_visitedDays (startDate endDate day : Int) :
    day ∈ visitedDays startDate endDate ↔
      ∃ k : Nat, day = startDate + (k : Int) * oneDayMs ∧ day ≤ endDate := by
  unfold visitedDays loopDays
  rw [oneDayMs_eq]
  simp only [List.mem_map, List.mem_range]
  constructor
  · rintro ⟨k, hk, rfl⟩
    refine ⟨k, rfl, ?_⟩
    split at hk
    · omega
    · omega
  · rintro ⟨k, rfl, hle⟩
    refine ⟨k, ?_, rfl⟩
    have hk : (0 : Int) ≤ (k : Int) := Int.ofNat_nonneg k
    rw [if_pos (by omega)]
    omega

theorem uptime_fold_eq_sum (utcOffsetMs : Int) (machines : List Machine)
    (startDate endDate : Int) (init : Int) :
    machines.foldl (fun totalScheduledMs machine =>
      totalScheduledMs + machineUptimeMs utcOffsetMs machine startDate endDate) init
      = init + (machines.map
          (fun machine => machineUptimeMs utcOffsetMs machine startDate endDate)).sum := by
  induction machines generalizing init with
  | nil => simp
  | cons m rest ih =>
    rw [List.foldl_cons, ih, List.map_cons, List.sum_cons]
    ring

/-- C11: `calculateScheduledUptimeMs` is the sum of what each machine
contributes; a machine with `scheduleDisabled` contributes 0; a machine with a
defined schedule contributes, for each day of the window (the start date and
every 24 hours after it up to the end date, which are the calendar days of a
window from 00:00:00 to 23:59:59), the span `endMinutes - startMinutes` of the
day-group matching that day, in milliseconds, when the span is positive and 0
otherwise, a day with no matching group contributing 0. -/
theorem scheduled_uptime_sums_matching_groups (utcOffsetMs : Int) (startDate endDate : Int) :
    (∀ machines, calculateScheduledUptimeMs utcOffsetMs machines startDate endDate
      = (machines.map
          (fun machine => machineUptimeMs utcOffsetMs machine startDate endDate)).sum) ∧
    (∀ id schedule, machineUptimeMs utcOffsetMs ⟨id, true, schedule⟩ startDate endDate = 0) ∧
    (∀ id schedule, machineUptimeMs utcOffsetMs ⟨id, false, some schedule⟩ startDate endDate
      = specScheduleUptimeMs utcOffsetMs schedule startDate endDate) ∧
    (∀ day, day ∈ visitedDays startDate endDate ↔
      ∃ k : Nat, day = startDate + (k : Int) * oneDayMs ∧ day ≤ endDate) ∧
    (∀ n : Nat, visitedDays startDate (startDate + n * oneDayMs + 86399000)
      = (List.range (n + 1)).map (fun (k : Nat) => startDate + (k : Int) * oneDayMs)) := by
  refine ⟨?_, ?_, ?_, mem_visitedDays startDate endDate, ?_⟩
  · intro machines
    unfold calculateScheduledUptimeMs
    rw [uptime_fold_eq_sum, zero_add]
  · intro id schedule
    unfold machineUptimeMs
    rw [if_pos rfl]
  · intro id schedule
    unfold machineUptimeMs
    rw [if_neg (by simp)]
    exact uptimeLoop_eq_spec _ _ _ _ _ rfl
  · intro n
    unfold visitedDays
    rw [loopDays_full_days]

/-! ## C12: the next work-order id -/

theorem isDigit_iff (c : Char) : c.isDigit = true ↔ 48 ≤ c.toNat ∧ c.toNat ≤ 57 := by
  unfold Char.isDigit Char.toNat
  simp only [ge_iff_le, Bool.and_eq_true, decide_eq_true_eq, UInt32.le_def, BitVec.le_def]
  rfl

theorem digit_not_sep {c : Char} (h : c.isDigit = true) :
    c ≠ '-' ∧ c ≠ '+' ∧ c ≠ 'x' ∧ c ≠ 'X' := by
  rw [isDigit_iff] at h
  refine ⟨?_, ?_, ?_, ?_⟩ <;> rintro rfl <;> simp at h

theorem digit_not_whiteSpace {c : Char} (h : c.isDigit = true) : isJsWhiteSpace c = false := by
  rw [isDigit_iff] at h
  unfold isJsWhiteSpace
  generalize c.toNat = n at h
  obtain ⟨h1, h2⟩ := h
  interval_cases n <;> decide

theorem digitValue_digit {c : Char} (h : c.isDigit = true) :
    digitValue 10 c = some (c.toNat - 48) := by
  rw [isDigit_iff] at h
  unfold digitValue
  dsimp only
  rw [if_pos h]
  have : c.toNat - 48 < 10 := by omega
  simp [Option.filter, this]

theorem idRegexTest_chars {orderId : String} (h : idRegexTest orderId = true) :
    ∃ y1 y2 n1 n2 n3 n4, orderId.toList = ['M', 'A', '-', y1, y2, '-', n1, n2, n3, n4] ∧
      y1.isDigit = true ∧ y2.isDigit = true ∧ n1.isDigit = true ∧ n2.isDigit = true ∧
      n3.isDigit = true ∧ n4.isDigit = true := by
  unfold idRegexTest at h
  split at h
  · rename_i y1 y2 n1 n2 n3 n4 heq
    simp only [Bool.and_eq_true] at h
    exact ⟨y1, y2, n1, n2, n3, n4, heq, h.1.1.1.1.1, h.1.1.1.1.2, h.1.1.1.2, h.1.1.2, h.1.2, h.2⟩
  · cases h

theorem jsSplit_cons_sep (sep : Char) (cs : List Char) :
    jsSplit sep (sep :: cs) = [] :: jsSplit sep cs := by
  rw [jsSplit, if_pos rfl]

theorem jsSplit_cons_ne {sep c : Char} (h : c ≠ sep) (cs : List Char) (seg : List Char)
    (rest : List (List Char)) (hs : jsSplit sep cs = seg :: rest) :
    jsSplit sep (c :: cs) = (c :: seg) :: rest := by
  rw [jsSplit, if_neg h, hs]

theorem jsSplit_id {y1 y2 n1 n2 n3 n4 : Char} (hy1 : y1 ≠ '-') (hy2 : y2 ≠ '-')
    (hn1 : n1 ≠ '-') (hn2 : n2 ≠ '-') (hn3 : n3 ≠ '-') (hn4 : n4 ≠ '-') :
    jsSplit '-' ['M', 'A', '-', y1, y2, '-', n1, n2, n3, n4]
      = [['M', 'A'], [y1, y2], [n1, n2, n3, n4]] := by
  have h0 : jsSplit '-' [] = [[]] := rfl
  have h4 := jsSplit_cons_ne hn4 [] [] [] h0
  have h3 := jsSplit_cons_ne hn3 _ _ _ h4
  have h2 := jsSplit_cons_ne hn2 _ _ _ h3
  have h1 := jsSplit_cons_ne hn1 _ _ _ h2
  have hs := jsSplit_cons_sep '-' [n1, n2, n3, n4]
  rw [h1] at hs
  have hy := jsSplit_cons_ne hy2 _ _ _ hs
  have hy' := jsSplit_cons_ne hy1 _ _ _ hy
  have hs' := jsSplit_cons_sep '-' [y1, y2, '-', n1, n2, n3, n4]
  rw [hy'] at hs'
  have hA := jsSplit_cons_ne (show 'A' ≠ '-' by decide) _ _ _ hs'
  exact jsSplit_cons_ne (show 'M' ≠ '-' by decide) _ _ _ hA

theorem parseInt_four_digits {n1 n2 n3 n4 : Char} (h1 : n1.isDigit = true)
    (h2 : n2.isDigit = true) (h3 : n3.isDigit = true) (h4 : n4.isDigit = true) :
    parseInt [n1, n2, n3, n4] =
      some (((((n1.toNat - 48) * 10 + (n2.toNat - 48)) * 10 + (n3.toNat - 48)) * 10
        + (n4.toNat - 48) : Nat) : Int) := by
  have hw : [n1, n2, n3, n4].dropWhile isJsWhiteSpace = [n1, n2, n3, n4] := by
    rw [List.dropWhile_cons_of_neg (by rw [digit_not_whiteSpace h1]; simp)]
  have hsign : parseSign [n1, n2, n3, n4] = (1, [n1, n2, n3, n4]) := by
    simp only [parseSign, (digit_not_sep h1).1, (digit_not_sep h1).2.1, if_false]
  have hradix : parseRadix [n1, n2, n3, n4] = (10, [n1, n2, n3, n4]) := by
    simp only [parseRadix, (digit_not_sep h2).2.2.1, (digit_not_sep h2).2.2.2, or_self,
      and_false, if_false]
  have hdigits : takeDigits 10 [n1, n2, n3, n4]
      = [n1.toNat - 48, n2.toNat - 48, n3.toNat - 48, n4.toNat - 48] := by
    simp only [takeDigits, digitValue_digit h1, digitValue_digit h2, digitValue_digit h3,
      digitValue_digit h4]
  unfold parseInt
  rw [hw, hsign]
  dsimp only
  rw [hradix]
  dsimp only
  rw [hdigits]
  simp

theorem parse_wellFormed_id {orderId : String} (h : idRegexTest orderId = true) :
    (match (jsSplit '-' orderId.toList)[2]? with
      | some segment => parseInt segment
      | none => none) = some (specSequence orderId : Int) := by
  obtain ⟨y1, y2, n1, n2, n3, n4, hlist, hy1, hy2, hn1, hn2, hn3, hn4⟩ := idRegexTest_chars h
  unfold specSequence
  rw [hlist, jsSplit_id (digit_not_sep hy1).1 (digit_not_sep hy2).1 (digit_not_sep hn1).1
    (digit_not_sep hn2).1 (digit_not_sep hn3).1 (digit_not_sep hn4).1]
  exact parseInt_four_digits hn1 hn2 hn3 hn4

theorem relevantOrders_wellFormed (mark : List Char) (orders : List WorkOrder)
    (h : IdsWellFormed orders) :
    relevantOrders mark orders =
      ((orders.filter (fun wo => startsWith wo.id.toList mark)).map
        (fun wo => (specSequence wo.id : Int))) := by
  unfold relevantOrders
  induction orders with
  | nil => rfl
  | cons wo rest ih =>
    have hrest : IdsWellFormed rest := fun o ho => h o (List.mem_cons_of_mem _ ho)
    have hwo := parse_wellFormed_id (h wo (List.mem_cons_self _ _))
    rw [List.filter_cons]
    by_cases hs : startsWith wo.id.toList mark = true
    · rw [if_pos hs, List.filterMap_cons, hwo, List.map_cons, ih hrest]
    · rw [if_neg hs, ih hrest]

theorem foldl_max_cast (l : List Nat) (a : Nat) :
    (l.map (fun (n : Nat) => (n : Int))).foldl max (a : Int) = ((l.foldl max a : Nat) : Int) := by
  induction l generalizing a with
  | nil => rfl
  | cons b rest ih =>
    rw [List.map_cons, List.foldl_cons, List.foldl_cons, ← ih]
    congr 1
    omega

theorem foldl_max_zero (l : List Nat) (a : Nat) :
    l.foldl max (max 0 a) = l.foldl max a := by
  rw [Nat.zero_max]

theorem maxNumber_cast (l : List Nat) :
    (if (l.map (fun (n : Nat) => (n : Int))).length > 0 then mathMax (l.map (fun (n : Nat) => (n : Int))) else 0)
      = ((l.foldl max 0 : Nat) : Int) := by
  cases l with
  | nil => rfl
  | cons a rest =>
    rw [if_pos (by simp), List.map_cons]
    show List.foldl max (a : Int) (List.map (fun (n : Nat) => (n : Int)) rest) = _
    rw [foldl_max_cast, List.foldl_cons, foldl_max_zero]

/-- C12: for every list of existing orders (whose ids have the form
`MA-YY-NNNN`) and every current year, `generateNextWorkOrderId` returns
`MA-YY-` followed by 1 + the maximum sequence number among the existing ids
that start with `MA-YY-` (0 if there is none), padded with zeros to 4 digits. -/
theorem next_id_is_max_plus_one (fullYear : Nat) (orders : List WorkOrder)
    (h : IdsWellFormed orders) :
    generateNextWorkOrderId fullYear orders = specNextId fullYear orders := by
  unfold generateNextWorkOrderId specNextId specMaxSequence
  dsimp only
  rw [relevantOrders_wellFormed _ _ h]
  have hmap : (orders.filter (fun wo => startsWith wo.id.toList (yearMark fullYear))).map
      (fun wo => (specSequence wo.id : Int))
      = ((orders.filter (fun wo => startsWith wo.id.toList (yearMark fullYear))).map
          (fun wo => specSequence wo.id)).map (fun (n : Nat) => (n : Int)) := by
    rw [List.map_map]
    rfl
  rw [hmap, maxNumber_cast]
  congr 3
  generalize List.foldl max 0 (List.map (fun wo => specSequence wo.id)
    (List.filter (fun wo => startsWith wo.id.toList (yearMark fullYear)) orders)) = m
  have : ((m : Int) + 1) = ((1 + m : Nat) : Int) := by push_cast; ring
  rw [this]
  rfl

theorem idScenarioOrders_wellFormed : IdsWellFormed idScenarioOrders := by
  intro wo hwo
  simp only [idScenarioOrders, List.mem_cons, List.mem_singleton, List.not_mem_nil,
    or_false] at hwo
  rcases hwo with rfl | rfl | rfl <;> decide

/-- Witness of C12: with the ids MA-25-0001, MA-25-0007 and MA-24-0042 in the
year 2025 the next id is MA-25-0008. -/
theorem next_id_is_max_plus_one_witness :
    IdsWellFormed idScenarioOrders ∧
    specNextId 2025 idScenarioOrders = "MA-25-0008" ∧
    generateNextWorkOrderId 2025 idScenarioOrders = "MA-25-0008" := by
  have h := next_id_is_max_plus_one 2025 idScenarioOrders idScenarioOrders_wellFormed
  have hs : specNextId 2025 idScenarioOrders = "MA-25-0008" := by decide
  exact ⟨idScenarioOrders_wellFormed, hs, h.trans hs⟩

/-! ## Lemmas on the persisted orders -/

theorem findOrder_cons (wo : WorkOrder) (rest : List WorkOrder) (orderId : String) :
    findOrder (wo :: rest) orderId = if wo.id = orderId then some wo else findOrder rest orderId := by
  unfold findOrder
  rw [List.find?_cons]
  by_cases h : wo.id = orderId
  · have hb : (wo.id == orderId) = true := by simpa using h
    simp [hb, h]
  · have hb : (wo.id == orderId) = false := by simpa using h
    simp [hb, h]

theorem findOrder_id {orders : List WorkOrder} {orderId : String} {order : WorkOrder}
    (h : findOrder orders orderId = some order) : order.id = orderId := by
  have := List.find?_some h
  simpa using this

theorem findOrder_updateOrderDoc {orders : List WorkOrder} (docId : String)
    (f : WorkOrder → WorkOrder) {orderId : String} {order : WorkOrder}
    (hf : ∀ wo, (f wo).id = wo.id) (h : findOrder orders orderId = some order) :
    findOrder (updateOrderDoc orders docId f) orderId
      = some (if order.fb_id = docId then f order else order) := by
  induction orders with
  | nil => simp [findOrder] at h
  | cons wo rest ih =>
    rw [findOrder_cons] at h
    have hmap : updateOrderDoc (wo :: rest) docId f
        = (if wo.fb_id = docId then f wo else wo) :: updateOrderDoc rest docId f := by
      simp [updateOrderDoc]
    rw [hmap, findOrder_cons]
    have hid : (if wo.fb_id = docId then f wo else wo).id = wo.id := by
      split
      · exact hf wo
      · rfl
    rw [hid]
    by_cases hw : wo.id = orderId
    · rw [if_pos hw] at h
      injection h with h
      subst h
      rw [if_pos hw]
    · rw [if_neg hw] at h
      rw [if_neg hw]
      exact ih h

theorem findOrder_none_of_keyed {orders : List WorkOrder} {orderId : String}
    (hk : OrdersKeyed orders) (hany : orders.any (fun wo => wo.fb_id == orderId) = false) :
    findOrder orders orderId = none := by
  unfold findOrder
  rw [List.find?_eq_none]
  intro wo hwo
  rw [List.any_eq_false] at hany
  have := hany wo hwo
  rw [hk wo hwo] at this
  exact this

theorem findOrder_append_singleton {orders : List WorkOrder} {orderId : String}
    (h : findOrder orders orderId = none) (wo : WorkOrder) (hid : wo.id = orderId) :
    findOrder (orders ++ [wo]) orderId = some wo := by
  unfold findOrder at h ⊢
  rw [List.find?_append, h]
  simp [hid]

theorem findOrder_map_keyed {orders : List WorkOrder} {orderId : String}
    (g : WorkOrder → WorkOrder) (hk : OrdersKeyed orders) (hg : ∀ wo, (g wo).id = orderId) :
    findOrder (orders.map (fun wo => if wo.fb_id == orderId then g wo else wo)) orderId
      = (findOrder orders orderId).map g := by
  induction orders with
  | nil => rfl
  | cons wo rest ih =>
    have hrest : OrdersKeyed rest := fun o ho => hk o (List.mem_cons_of_mem _ ho)
    have hwo : wo.fb_id = wo.id := hk wo (List.mem_cons_self _ _)
    rw [List.map_cons, findOrder_cons, findOrder_cons, ih hrest]
    by_cases hw : wo.id = orderId
    · have hb : (wo.fb_id == orderId) = true := by rw [hwo]; simpa using hw
      rw [if_pos hb, if_pos (hg wo), if_pos hw]
      rfl
    · have hb : (wo.fb_id == orderId) = false := by rw [hwo]; simpa using hw
      simp only [hb, Bool.false_eq_true, if_false]
      rw [if_neg hw, if_neg hw]

theorem findOrder_setOrderDoc {orders : List WorkOrder} {orderId : String}
    (orderData : WorkOrder) (hk : OrdersKeyed orders) (hid : orderData.id = orderId) :
    ∃ stored, findOrder (setOrderDoc orders orderId orderData) orderId = some stored ∧
      OrderWritten stored orderData := by
  by_cases hany : orders.any (fun wo => wo.fb_id == orderId) = true
  · have hset : setOrderDoc orders orderId orderData
        = orders.map (fun wo => if wo.fb_id == orderId then
            (fun (wo : WorkOrder) => ({ orderData with
              fb_id := orderId
              createdAt := orderData.createdAt.orElse (fun _ => wo.createdAt)
              additionalCost := orderData.additionalCost.orElse (fun _ => wo.additionalCost) }
                : WorkOrder)) wo
          else wo) := by
      unfold setOrderDoc
      rw [if_pos hany]
    rw [hset, findOrder_map_keyed
      (fun (wo : WorkOrder) => ({ orderData with
        fb_id := orderId
        createdAt := orderData.createdAt.orElse (fun _ => wo.createdAt)
        additionalCost := orderData.additionalCost.orElse (fun _ => wo.additionalCost) }
          : WorkOrder)) hk (fun _ => hid)]
    obtain ⟨wo, hwo, hfb⟩ := List.any_eq_true.mp hany
    have hsome : (findOrder orders orderId).isSome = true := by
      unfold findOrder
      rw [List.find?_isSome]
      exact ⟨wo, hwo, by rw [← hk wo hwo]; exact hfb⟩
    obtain ⟨found, hfound⟩ := Option.isSome_iff_exists.mp hsome
    rw [hfound]
    exact ⟨_, rfl, rfl⟩
  · have hany' : orders.any (fun wo => wo.fb_id == orderId) = false := by simpa using hany
    have hset : setOrderDoc orders orderId orderData
        = orders ++ [({ orderData with fb_id := orderId } : WorkOrder)] := by
      unfold setOrderDoc
      rw [if_neg hany]
    rw [hset, findOrder_append_singleton (findOrder_none_of_keyed hk hany')
      ({ orderData with fb_id := orderId } : WorkOrder) hid]
    exact ⟨_, rfl, rfl⟩

theorem buildOrderData_id (utcOffsetMs : Int) (form : WorkOrderForm) (orderId : String)
    (existingOrder : Option WorkOrder) (updates : Option Status) (now : Int) :
    (buildOrderData utcOffsetMs form orderId existingOrder updates now).id = orderId := rfl

/-- The outcome of `handleWorkOrderAction` for an order that is found, a user
who may change its status, a lead technician when starting, and a stock loop
that does not throw. -/
theorem handleWorkOrderAction_success {s : AppState} {orderId : String} {newStatus : Status}
    (now : Int) {order : WorkOrder} (hid : orderId ≠ "")
    (hfind : findOrder s.workOrders orderId = some order) (hmay : MayChangeStatus s order)
    (hlead : newStatus = Status.EnProceso → order.leadTechnician ≠ "")
    (hloop : (actionPartsLoop s.parts order newStatus).2 = none) :
    handleWorkOrderAction s orderId newStatus now =
      ⟨{ s with parts := (actionPartsLoop s.parts order newStatus).1,
                workOrders := updateOrderDoc s.workOrders order.fb_id
                  (applyActionUpdates order newStatus now) },
        some ("Orden de trabajo actualizada a: " ++ newStatus.text, "success"), none⟩ := by
  unfold handleWorkOrderAction
  rw [if_neg hid, hfind]
  dsimp only
  rw [if_neg hmay, if_neg (fun h => hlead h.1 h.2)]
  split
  · rename_i heq
    rw [heq] at hloop
    cases hloop
  · rename_i heq
    rw [heq]

/-- The outcome of `saveWorkOrder` when the checks pass and the stock loop does
not throw. -/
theorem saveWorkOrder_success {s : AppState} {form : WorkOrderForm} {orderId : String}
    {updates : Option Status} (now : Int) (hv : saveValidation s form orderId = none)
    (hloop : (savePartsLoop s.parts
      (buildOrderData s.utcOffsetMs form orderId (existingOrderOf s form orderId) updates now)
      ((existingOrderOf s form orderId).map (fun o => o.status))).2 = none) :
    saveWorkOrder s form orderId updates now =
      ⟨{ s with
          parts := (savePartsLoop s.parts
            (buildOrderData s.utcOffsetMs form orderId (existingOrderOf s form orderId) updates now)
            ((existingOrderOf s form orderId).map (fun o => o.status))).1,
          workOrders := setOrderDoc s.workOrders orderId
            (buildOrderData s.utcOffsetMs form orderId (existingOrderOf s form orderId) updates now),
          solicitudes := approveSolicitud s.solicitudes form.sourceSolicitudId orderId },
        some ("Orden de trabajo guardada.", "success"), none⟩ := by
  unfold saveWorkOrder
  rw [hv]
  dsimp only
  split
  · rename_i heq
    rw [heq] at hloop
    cases hloop
  · rename_i heq
    rw [heq]

/-! ## The start action (C16, C18, C14) -/

theorem actionPartsLoop_of_ne_completado (parts : List Part) (order : WorkOrder)
    {newStatus : Status} (h : newStatus ≠ Status.Completado) :
    actionPartsLoop parts order newStatus = (parts, none) := by
  unfold actionPartsLoop
  rw [if_neg (fun hc => h hc.1)]

/-- The stored order after a call of `handleWorkOrderAction` that is not
rejected and whose stock loop does not throw. -/
theorem handleWorkOrderAction_stored {s : AppState} {orderId : String} {newStatus : Status}
    (now : Int) {order : WorkOrder} (hid : orderId ≠ "")
    (hfind : findOrder s.workOrders orderId = some order) (hmay : MayChangeStatus s order)
    (hlead : newStatus = Status.EnProceso → order.leadTechnician ≠ "")
    (hloop : (actionPartsLoop s.parts order newStatus).2 = none) :
    findOrder (handleWorkOrderAction s orderId newStatus now).state.workOrders orderId
      = some (applyActionUpdates order newStatus now order) := by
  rw [handleWorkOrderAction_success now hid hfind hmay hlead hloop]
  show findOrder (updateOrderDoc s.workOrders order.fb_id
    (applyActionUpdates order newStatus now)) orderId = _
  rw [findOrder_updateOrderDoc order.fb_id (applyActionUpdates order newStatus now)
    (fun _ => rfl) hfind, if_pos rfl]

/-- C16: for an order found in the store that has no lead technician,
`handleWorkOrderAction(orderId, 'En Proceso')` leaves the whole store as it was
(orders and parts alike) and shows no success toast; for an order that has a
lead technician the toast is never the lead-technician warning, and the start
succeeds and persists status 'En Proceso' when the signed-in user may change
the order's status. -/
theorem start_requires_lead_technician (s : AppState) (orderId : String) (now : Int)
    (order : WorkOrder) (hfind : findOrder s.workOrders orderId = some order) :
    (order.leadTechnician = "" →
      (handleWorkOrderAction s orderId Status.EnProceso now).state = s ∧
      ¬ (handleWorkOrderAction s orderId Status.EnProceso now).succeeded) ∧
    (order.leadTechnician ≠ "" →
      (handleWorkOrderAction s orderId Status.EnProceso now).toast
        ≠ some ("Debe asignar un técnico responsable antes de iniciar.", "warning") ∧
      (orderId ≠ "" → MayChangeStatus s order →
        (handleWorkOrderAction s orderId Status.EnProceso now).succeeded ∧
        (findOrder (handleWorkOrderAction s orderId Status.EnProceso now).state.workOrders
          orderId).map (fun o => o.status) = some Status.EnProceso)) := by
  constructor
  · intro hlead
    unfold handleWorkOrderAction
    by_cases hid : orderId = ""
    · rw [if_pos hid]
      exact ⟨rfl, by simp [Outcome.succeeded]⟩
    · rw [if_neg hid, hfind]
      dsimp only
      by_cases hrole : s.currentUser.role = "Técnico" ∧ order.leadTechnician ≠ s.currentUser.username
      · rw [if_pos hrole]
        exact ⟨rfl, by simp [Outcome.succeeded]⟩
      · rw [if_neg hrole, if_pos ⟨rfl, hlead⟩]
        exact ⟨rfl, by simp [Outcome.succeeded]⟩
  · intro hlead
    constructor
    · unfold handleWorkOrderAction
      by_cases hid : orderId = ""
      · rw [if_pos hid]
        simp
      · rw [if_neg hid, hfind]
        dsimp only
        by_cases hrole : s.currentUser.role = "Técnico" ∧ order.leadTechnician ≠ s.currentUser.username
        · rw [if_pos hrole]
          simp
        · rw [if_neg hrole, if_neg (fun h => hlead h.2),
            actionPartsLoop_of_ne_completado _ _ (by decide)]
          simp
    · intro hid hmay
      have hloop : (actionPartsLoop s.parts order Status.EnProceso).2 = none := by
        rw [actionPartsLoop_of_ne_completado _ _ (by decide)]
      constructor
      · rw [handleWorkOrderAction_success now hid hfind hmay (fun _ => hlead) hloop]
        rfl
      · rw [handleWorkOrderAction_stored now hid hfind hmay (fun _ => hlead) hloop]
        rfl

/-- Witness of C16: the unassigned Pending order cannot be started, the
assigned one is started. -/
theorem start_requires_lead_technician_witness :
    findOrder unassignedState.workOrders "MA-25-0001" = some unassignedOrder ∧
    (handleWorkOrderAction unassignedState "MA-25-0001" Status.EnProceso 1735725600000).state
      = unassignedState ∧
    findOrder pendingState.workOrders "MA-25-0001" = some pendingOrder ∧
    (findOrder (handleWorkOrderAction pendingState "MA-25-0001" Status.EnProceso
      1735725600000).state.workOrders "MA-25-0001").map (fun o => o.status)
        = some Status.EnProceso :=
  ⟨rfl,
    ((start_requires_lead_technician unassignedState "MA-25-0001" 1735725600000
      unassignedOrder rfl).1 rfl).1,
    rfl,
    (((start_requires_lead_technician pendingState "MA-25-0001" 1735725600000
      pendingOrder rfl).2 (by decide)).2 (by decide) (by decide)).2⟩

/-- C18: when `handleWorkOrderAction(orderId, 'En Proceso')` is not rejected
(the order exists, has a lead technician, and the user may change its status),
the stored order has status 'En Proceso' and the interval list of the order
followed by one interval `{start: now}` with no end; when the order was Pending
its date is the calendar day of `now` (the day of `now.toISOString()`) and its
`startTime` is `now`, and otherwise (a resume from Paused in particular) date
and `startTime` are the order's. -/
theorem start_appends_open_interval (s : AppState) (orderId : String) (now : Int)
    (order : WorkOrder) (hid : orderId ≠ "")
    (hfind : findOrder s.workOrders orderId = some order) (hmay : MayChangeStatus s order)
    (hlead : order.leadTechnician ≠ "") :
    ∃ stored,
      findOrder (handleWorkOrderAction s orderId Status.EnProceso now).state.workOrders orderId
        = some stored ∧
      stored.status = Status.EnProceso ∧
      stored.workIntervals = order.workIntervals ++ [{ start := now, end_ := none }] ∧
      (order.status = Status.Pendiente →
        stored.date = some (now / oneDayMs) ∧ stored.startTime = some now) ∧
      (order.status ≠ Status.Pendiente →
        stored.date = order.date ∧ stored.startTime = order.startTime) := by
  have hloop : (actionPartsLoop s.parts order Status.EnProceso).2 = none := by
    rw [actionPartsLoop_of_ne_completado _ _ (by decide)]
  refine ⟨_, handleWorkOrderAction_stored now hid hfind hmay (fun _ => hlead) hloop, rfl, ?_, ?_, ?_⟩
  · show actionIntervals order Status.EnProceso now = _
    unfold actionIntervals
    rw [if_pos rfl]
  · intro hp
    constructor
    · show (if Status.EnProceso = Status.EnProceso ∧ order.status = Status.Pendiente
        then some (now / oneDayMs) else order.date) = _
      rw [if_pos ⟨rfl, hp⟩]
    · show (if Status.EnProceso = Status.EnProceso ∧ order.status = Status.Pendiente
        then some now else order.startTime) = _
      rw [if_pos ⟨rfl, hp⟩]
  · intro hp
    constructor
    · show (if Status.EnProceso = Status.EnProceso ∧ order.status = Status.Pendiente
        then some (now / oneDayMs) else order.date) = _
      rw [if_neg (fun h => hp h.2)]
    · show (if Status.EnProceso = Status.EnProceso ∧ order.status = Status.Pendiente
        then some now else order.startTime) = _
      rw [if_neg (fun h => hp h.2)]

/-- Witness of C18: the Paused scenario order is resumed at 2025-01-02T09:00Z;
its date and start time stay those of 2025-01-01. -/
theorem start_appends_open_interval_witness :
    "MA-25-0001" ≠ "" ∧
    findOrder pausedState.workOrders "MA-25-0001" = some pausedOrder ∧
    MayChangeStatus pausedState pausedOrder ∧ pausedOrder.leadTechnician ≠ "" ∧
    ∃ stored,
      findOrder (handleWorkOrderAction pausedState "MA-25-0001" Status.EnProceso
        1735808400000).state.workOrders "MA-25-0001" = some stored ∧
      stored.status = Status.EnProceso ∧
      stored.workIntervals
        = pausedOrder.workIntervals ++ [{ start := 1735808400000, end_ := none }] ∧
      (pausedOrder.status = Status.Pendiente →
        stored.date = some (1735808400000 / oneDayMs) ∧ stored.startTime = some 1735808400000) ∧
      (pausedOrder.status ≠ Status.Pendiente →
        stored.date = pausedOrder.date ∧ stored.startTime = pausedOrder.startTime) :=
  ⟨by decide, rfl, by decide, by decide,
    start_appends_open_interval pausedState "MA-25-0001" 1735808400000 pausedOrder
      (by decide) rfl (by decide) (by decide)⟩

/-- C14: the In Progress scenario order has one open interval; a second
`handleWorkOrderAction(id, 'En Proceso')` succeeds and stores two open
intervals, whereas `saveWorkOrder` with new status 'En Proceso' on an In
Progress order always keeps the interval list. -/
theorem second_start_opens_second_interval :
    (findOrder scenarioState.workOrders "MA-25-0001").map
      (fun o => (o.status, openCount o.workIntervals)) = some (Status.EnProceso, 1) ∧
    (handleWorkOrderAction scenarioState "MA-25-0001" Status.EnProceso 1735729200000).toast
      = some ("Orden de trabajo actualizada a: En Proceso", "success") ∧
    (findOrder (handleWorkOrderAction scenarioState "MA-25-0001" Status.EnProceso
      1735729200000).state.workOrders "MA-25-0001").map (fun o => o.workIntervals)
      = some [⟨1735725600000, none⟩, ⟨1735729200000, none⟩] ∧
    (findOrder (handleWorkOrderAction scenarioState "MA-25-0001" Status.EnProceso
      1735729200000).state.workOrders "MA-25-0001").map (fun o => openCount o.workIntervals)
      = some 2 ∧
    (∀ workIntervals startTime endTime now,
      saveIntervals workIntervals (some Status.EnProceso) Status.EnProceso startTime endTime now
        = workIntervals) := by
  refine ⟨by decide, by decide, by decide, by decide, ?_⟩
  intro workIntervals startTime endTime now
  have hne : ¬ (Status.EnProceso = Status.Completado ∧ startTime.isSome ∧ endTime.isSome) :=
    fun h => nomatch h.1
  rw [saveIntervals_of_not_both _ _ _ _ _ _ hne]
  unfold statusChangeIntervals
  rw [if_neg (fun h => h rfl)]

/-! ## Saves through the modal (C19, C20) and the in-memory orders (C17) -/

theorem OrderWritten.status {stored orderData : WorkOrder} (h : OrderWritten stored orderData) :
    stored.status = orderData.status := by
  unfold OrderWritten at h
  rw [h]

theorem OrderWritten.workIntervals {stored orderData : WorkOrder}
    (h : OrderWritten stored orderData) : stored.workIntervals = orderData.workIntervals := by
  unfold OrderWritten at h
  rw [h]

theorem existingOrderOf_some {s : AppState} {form : WorkOrderForm} {orderId : String}
    {order : WorkOrder} (hhidden : form.hiddenId ≠ "")
    (hfind : findOrder s.workOrders orderId = some order) :
    existingOrderOf s form orderId = some order := by
  unfold existingOrderOf
  rw [if_neg hhidden, hfind]

theorem saveWorkOrder_of_succeeded {s : AppState} {form : WorkOrderForm} {orderId : String}
    {updates : Option Status} {now : Int}
    (h : (saveWorkOrder s form orderId updates now).succeeded) :
    saveValidation s form orderId = none ∧
    (savePartsLoop s.parts
      (buildOrderData s.utcOffsetMs form orderId (existingOrderOf s form orderId) updates now)
      ((existingOrderOf s form orderId).map (fun o => o.status))).2 = none := by
  unfold saveWorkOrder Outcome.succeeded at h
  split at h
  · simp at h
  · rename_i hv
    refine ⟨hv, ?_⟩
    dsimp only at h
    split at h
    · simp at h
    · rename_i heq
      rw [heq]

theorem handleWorkOrderAction_of_succeeded {s : AppState} {orderId : String}
    {newStatus : Status} {now : Int} {order : WorkOrder}
    (hfind : findOrder s.workOrders orderId = some order)
    (h : (handleWorkOrderAction s orderId newStatus now).succeeded) :
    orderId ≠ "" ∧ MayChangeStatus s order ∧
    (newStatus = Status.EnProceso → order.leadTechnician ≠ "") ∧
    (actionPartsLoop s.parts order newStatus).2 = none := by
  unfold handleWorkOrderAction Outcome.succeeded at h
  split at h
  · simp at h
  · rename_i hid
    rw [hfind] at h
    dsimp only at h
    split at h
    · simp at h
    · rename_i hmay
      split at h
      · simp at h
      · rename_i hlead
        refine ⟨hid, hmay, fun hn hl => hlead ⟨hn, hl⟩, ?_⟩
        split at h
        · simp at h
        · rename_i heq
          rw [heq]

/-- The stored order after a save that passes the checks and whose stock loop
does not throw. -/
theorem saveWorkOrder_stored {s : AppState} {form : WorkOrderForm} {orderId : String}
    {updates : Option Status} (now : Int) (hk : OrdersKeyed s.workOrders)
    (hv : saveValidation s form orderId = none)
    (hloop : (savePartsLoop s.parts
      (buildOrderData s.utcOffsetMs form orderId (existingOrderOf s form orderId) updates now)
      ((existingOrderOf s form orderId).map (fun o => o.status))).2 = none) :
    ∃ stored,
      findOrder (saveWorkOrder s form orderId updates now).state.workOrders orderId = some stored ∧
      OrderWritten stored
        (buildOrderData s.utcOffsetMs form orderId (existingOrderOf s form orderId) updates now) := by
  rw [saveWorkOrder_success now hv hloop]
  exact findOrder_setOrderDoc _ hk (buildOrderData_id _ _ _ _ _ _)

theorem buildOrderData_workIntervals (utcOffsetMs : Int) (form : WorkOrderForm)
    (orderId : String) (existingOrder : Option WorkOrder) (updates : Option Status) (now : Int) :
    (buildOrderData utcOffsetMs form orderId existingOrder updates now).workIntervals
      = saveIntervals ((existingOrder.map (fun o => o.workIntervals)).getD [])
          (existingOrder.map (fun o => o.status)) (updates.getD form.status)
          (formTimestamp utcOffsetMs form.startDate form.startTime)
          (formTimestamp utcOffsetMs form.endDate form.endTime) now := rfl

theorem buildOrderData_status (utcOffsetMs : Int) (form : WorkOrderForm)
    (orderId : String) (existingOrder : Option WorkOrder) (updates : Option Status) (now : Int) :
    (buildOrderData utcOffsetMs form orderId existingOrder updates now).status
      = updates.getD form.status := rfl

/-- The checks of `saveWorkOrder` pass when each of them does; the lead
technician is only asked for when the form's status is not Cancelled. -/
theorem saveValidation_of_checks {s : AppState} {form : WorkOrderForm} {orderId : String}
    (hreg : idRegexTest orderId = true)
    (hdup : form.hiddenId = "" → s.workOrders.any (fun wo => wo.id == orderId) = false)
    (htimes : ∀ st en, formTimestamp s.utcOffsetMs form.startDate form.startTime = some st →
      formTimestamp s.utcOffsetMs form.endDate form.endTime = some en → st < en)
    (hfail : form.type = OrderType.Correctivo → form.failureType ≠ "")
    (hmaint : form.type = OrderType.Preventivo → form.maintenanceType ≠ "")
    (hlead : form.leadTechnician = "" → form.status = Status.Cancelado) :
    saveValidation s form orderId = none := by
  unfold saveValidation
  rw [if_neg (by simp [hreg]), if_neg (fun h => by simpa [hdup h.1] using h.2)]
  dsimp only
  split
  · rename_i hcond
    split at hcond
    · rename_i st en hst hen
      have := htimes st en hst hen
      simp at hcond
      omega
    · cases hcond
  · rw [if_neg (fun h => hfail h.1 h.2), if_neg (fun h => hmaint h.1 h.2),
      if_neg (fun h => h.2 (hlead h.1))]

theorem savePartsLoop_of_ne_completado (parts : List Part) (orderData : WorkOrder)
    (oldStatus : Option Status) (h : orderData.status ≠ Status.Completado) :
    savePartsLoop parts orderData oldStatus = (parts, none) := by
  unfold savePartsLoop
  rw [if_neg (fun hc => h hc.1)]

theorem saveIntervals_cancelado (workIntervals : List Interval) (oldStatus : Option Status)
    (startTime endTime : Option Int) (now : Int) :
    saveIntervals workIntervals oldStatus Status.Cancelado startTime endTime now
      = workIntervals := by
  have hne : ¬ (Status.Cancelado = Status.Completado ∧ startTime.isSome ∧ endTime.isSome) :=
    fun h => nomatch h.1
  rw [saveIntervals_of_not_both _ _ _ _ _ _ hne]
  unfold statusChangeIntervals
  split
  · rw [if_neg (fun h => nomatch h.1), if_neg (fun h => by rcases h.1 with h | h <;> cases h)]
  · rfl

theorem scenarioState_ordersKeyed : OrdersKeyed scenarioState.workOrders := by
  intro wo hwo
  simp only [scenarioState, List.mem_singleton] at hwo
  subst hwo
  rfl

theorem closeLastInterval_append_open (now : Int) (front : List Interval) (st : Int) :
    closeLastInterval now (front ++ [{ start := st, end_ := none }])
      = front ++ [{ start := st, end_ := some now }] := by
  induction front with
  | nil => rfl
  | cons a rest ih =>
    cases rest with
    | nil => rfl
    | cons b rest' =>
      show a :: closeLastInterval now (b :: rest' ++ [{ start := st, end_ := none }]) = _
      rw [ih]
      rfl

/-- C19: saving an existing order through `saveWorkOrder` (Save button) with
status 'Cancelado' in the form passes the checks whatever the lead-technician
field holds, empty included, as long as the other checks pass (id format, end
after start, failure or maintenance type); the save then succeeds, leaves every
part's stock as it was, and the stored order is Cancelled with the interval
list the order had before. -/
theorem cancel_keeps_stock_and_intervals (s : AppState) (form : WorkOrderForm)
    (orderId : String) (now : Int) (order : WorkOrder)
    (hk : OrdersKeyed s.workOrders) (hhidden : form.hiddenId ≠ "")
    (hfind : findOrder s.workOrders orderId = some order)
    (hstatus : form.status = Status.Cancelado)
    (hreg : idRegexTest orderId = true)
    (htimes : ∀ st en, formTimestamp s.utcOffsetMs form.startDate form.startTime = some st →
      formTimestamp s.utcOffsetMs form.endDate form.endTime = some en → st < en)
    (hfail : form.type = OrderType.Correctivo → form.failureType ≠ "")
    (hmaint : form.type = OrderType.Preventivo → form.maintenanceType ≠ "") :
    (saveWorkOrder s form orderId none now).succeeded ∧
    (saveWorkOrder s form orderId none now).state.parts = s.parts ∧
    ∃ stored,
      findOrder (saveWorkOrder s form orderId none now).state.workOrders orderId = some stored ∧
      stored.status = Status.Cancelado ∧
      stored.workIntervals = order.workIntervals := by
  have hv : saveValidation s form orderId = none :=
    saveValidation_of_checks hreg (fun h => absurd h hhidden) htimes hfail hmaint
      (fun _ => hstatus)
  have hdata : (buildOrderData s.utcOffsetMs form orderId (existingOrderOf s form orderId)
      none now).status = Status.Cancelado := by
    rw [buildOrderData_status]
    exact hstatus
  have hpair : savePartsLoop s.parts
      (buildOrderData s.utcOffsetMs form orderId (existingOrderOf s form orderId) none now)
      ((existingOrderOf s form orderId).map (fun o => o.status)) = (s.parts, none) :=
    savePartsLoop_of_ne_completado _ _ _ (by rw [hdata]; decide)
  have hloop : (savePartsLoop s.parts
      (buildOrderData s.utcOffsetMs form orderId (existingOrderOf s form orderId) none now)
      ((existingOrderOf s form orderId).map (fun o => o.status))).2 = none := by
    rw [hpair]
  obtain ⟨stored, hstored, hw⟩ := @saveWorkOrder_stored s form orderId none now hk hv hloop
  refine ⟨?_, ?_, stored, hstored, ?_, ?_⟩
  · rw [saveWorkOrder_success now hv hloop]
    rfl
  · rw [saveWorkOrder_success now hv hloop]
    show (savePartsLoop s.parts _ _).1 = s.parts
    rw [hpair]
  · rw [hw.status, hdata]
  · rw [hw.workIntervals, buildOrderData_workIntervals, existingOrderOf_some hhidden hfind]
    show saveIntervals order.workIntervals (some order.status) form.status _ _ now = _
    rw [hstatus, saveIntervals_cancelado]

/-- Witness of C19: the In Progress scenario order is cancelled with the lead
technician field empty; stock stays 3 and the open interval stays. -/
theorem cancel_keeps_stock_and_intervals_witness :
    cancelForm.leadTechnician = "" ∧
    (saveWorkOrder scenarioState cancelForm "MA-25-0001" none 1735729200000).succeeded ∧
    (saveWorkOrder scenarioState cancelForm "MA-25-0001" none 1735729200000).state.parts
      = scenarioState.parts ∧
    ∃ stored,
      findOrder (saveWorkOrder scenarioState cancelForm "MA-25-0001" none
        1735729200000).state.workOrders "MA-25-0001" = some stored ∧
      stored.status = Status.Cancelado ∧
      stored.workIntervals = scenarioOrder.workIntervals :=
  ⟨rfl,
    cancel_keeps_stock_and_intervals scenarioState cancelForm "MA-25-0001" 1735729200000
      scenarioOrder scenarioState_ordersKeyed (by decide) rfl rfl (by decide)
      (fun _ _ _ h => by cases h) (fun _ => by decide) (fun h => by cases h)⟩

/-- C20: when a save through `saveWorkOrder` succeeds, its resulting status is
'Completado' and the form gives both a start and an end timestamp, the end is
after the start and the stored order has exactly the one interval from that
start to that end, whatever intervals and status the order had before. -/
theorem completed_save_replaces_intervals (s : AppState) (form : WorkOrderForm)
    (orderId : String) (updates : Option Status) (now st en : Int)
    (hk : OrdersKeyed s.workOrders)
    (hstatus : updates.getD form.status = Status.Completado)
    (hst : formTimestamp s.utcOffsetMs form.startDate form.startTime = some st)
    (hen : formTimestamp s.utcOffsetMs form.endDate form.endTime = some en)
    (hsucc : (saveWorkOrder s form orderId updates now).succeeded) :
    st < en ∧
    ∃ stored,
      findOrder (saveWorkOrder s form orderId updates now).state.workOrders orderId
        = some stored ∧
      stored.status = Status.Completado ∧
      stored.workIntervals = [{ start := st, end_ := some en }] := by
  obtain ⟨hv, hloop⟩ := saveWorkOrder_of_succeeded hsucc
  have hlt : st < en := saveValidation_none_times hv st en hst hen
  obtain ⟨stored, hstored, hw⟩ := saveWorkOrder_stored now hk hv hloop
  refine ⟨hlt, stored, hstored, ?_, ?_⟩
  · rw [hw.status, buildOrderData_status, hstatus]
  · rw [hw.workIntervals, buildOrderData_workIntervals, hstatus, hst, hen, saveIntervals_of_both,
      if_pos hlt]

/-- Witness of C20: the In Progress scenario order, with one open interval, is
completed from the modal with start 10:00Z and end 12:00Z in the form. -/
theorem completed_save_replaces_intervals_witness :
    (saveWorkOrder scenarioState completeForm "MA-25-0001" (some Status.Completado)
      1735740000000).succeeded ∧
    (1735725600000 : Int) < 1735732800000 ∧
    ∃ stored,
      findOrder (saveWorkOrder scenarioState completeForm "MA-25-0001" (some Status.Completado)
        1735740000000).state.workOrders "MA-25-0001" = some stored ∧
      stored.status = Status.Completado ∧
      stored.workIntervals = [{ start := 1735725600000, end_ := some 1735732800000 }] :=
  ⟨by decide,
    completed_save_replaces_intervals scenarioState completeForm "MA-25-0001"
      (some Status.Completado) 1735740000000 1735725600000 1735732800000
      scenarioState_ordersKeyed rfl (by decide) (by decide) (by decide)⟩

/-- In a session whose memory is the stored collection, the call does to the
store what `handleWorkOrderAction` does, and shows the same message. -/
theorem handleWorkOrderActionInMemory_in_sync (c : Session) (orderId : String)
    (newStatus : Status) (now : Int) (hsync : c.workOrders = c.store.workOrders) :
    (handleWorkOrderActionInMemory c orderId newStatus now).session.store
      = (handleWorkOrderAction c.store orderId newStatus now).state ∧
    (handleWorkOrderActionInMemory c orderId newStatus now).toast
      = (handleWorkOrderAction c.store orderId newStatus now).toast ∧
    (handleWorkOrderActionInMemory c orderId newStatus now).error
      = (handleWorkOrderAction c.store orderId newStatus now).error := by
  unfold handleWorkOrderActionInMemory handleWorkOrderAction
  rw [hsync]
  by_cases hid : orderId = ""
  · rw [if_pos hid, if_pos hid]
    exact ⟨rfl, rfl, rfl⟩
  · rw [if_neg hid, if_neg hid]
    cases hfind : findOrder c.store.workOrders orderId with
    | none => exact ⟨rfl, rfl, rfl⟩
    | some order =>
      dsimp only
      by_cases hrole : c.store.currentUser.role = "Técnico"
          ∧ order.leadTechnician ≠ c.store.currentUser.username
      · rw [if_pos hrole, if_pos hrole]
        exact ⟨rfl, rfl, rfl⟩
      · rw [if_neg hrole, if_neg hrole]
        by_cases hlead : newStatus = Status.EnProceso ∧ order.leadTechnician = ""
        · rw [if_pos hlead, if_pos hlead]
          exact ⟨rfl, rfl, rfl⟩
        · rw [if_neg hlead, if_neg hlead]
          rcases hloop : actionPartsLoop c.store.parts order newStatus with ⟨parts', _ | msg⟩
          · exact ⟨rfl, rfl, rfl⟩
          · exact ⟨rfl, rfl, rfl⟩

/-- When the order as it is in memory has its last interval open, a pause or a
completion that succeeds stores the order's intervals with that interval ended
at `now`. -/
theorem handleWorkOrderActionInMemory_closes_open (c : Session) (orderId : String)
    (newStatus : Status) (now : Int) (order stored : WorkOrder) (front : List Interval)
    (st : Int) (hnew : newStatus = Status.Pausado ∨ newStatus = Status.Completado)
    (hfind : findOrder c.workOrders orderId = some order)
    (hstore : findOrder c.store.workOrders orderId = some stored)
    (hdoc : stored.fb_id = order.fb_id)
    (hlast : order.workIntervals = front ++ [{ start := st, end_ := none }])
    (hsucc : ((handleWorkOrderActionInMemory c orderId newStatus now).toast.map
      (fun t => t.2)) = some "success") :
    (findOrder (handleWorkOrderActionInMemory c orderId newStatus now).session.store.workOrders
      orderId).map (fun o => o.workIntervals)
      = some (front ++ [{ start := st, end_ := some now }]) := by
  have hne : newStatus ≠ Status.EnProceso := by
    rcases hnew with h | h <;> rw [h] <;> decide
  unfold handleWorkOrderActionInMemory at hsucc ⊢
  by_cases hid : orderId = ""
  · rw [if_pos hid] at hsucc
    simp at hsucc
  · rw [if_neg hid, hfind] at hsucc ⊢
    dsimp only at hsucc ⊢
    by_cases hrole : c.store.currentUser.role = "Técnico"
        ∧ order.leadTechnician ≠ c.store.currentUser.username
    · rw [if_pos hrole] at hsucc
      simp at hsucc
    · rw [if_neg hrole, if_neg (fun h => hne h.1)] at hsucc ⊢
      rcases hloop : actionPartsLoop c.store.parts order newStatus with ⟨parts', _ | msg⟩
      · show (findOrder (updateOrderDoc c.store.workOrders order.fb_id
          (applyActionUpdates order newStatus now)) orderId).map (fun o => o.workIntervals) = _
        rw [findOrder_updateOrderDoc order.fb_id (applyActionUpdates order newStatus now)
          (fun _ => rfl) hstore, if_pos hdoc]
        show some (actionIntervals order newStatus now) = _
        unfold actionIntervals
        rw [if_neg hne, if_pos hnew, hlast, closeLastInterval_append_open]
      · rw [hloop] at hsucc
        simp at hsucc

/-- C17: the scenario order is In Progress with one interval open since 10:00Z
and uses 5 units of P1, whose stock is 3.  A completion at 12:00Z fails and
stores nothing, but leaves `end` 12:00Z on the interval in memory; a pause at
13:00Z then stores the order Paused with the interval ended at 12:00Z, not at
the time of the pause, and with P1 restocked a completion at 13:00Z stores that
interval beside `endTime` 13:00Z.  In a session in sync the pause stores
13:00Z. -/
theorem pause_after_failed_completion_stores_earlier_end :
    (findOrder scenarioSession.store.workOrders "MA-25-0001").map
      (fun o => (o.status, o.workIntervals))
      = some (Status.EnProceso, [⟨1735725600000, none⟩]) ∧
    scenarioSession.workOrders = scenarioSession.store.workOrders ∧
    (handleWorkOrderActionInMemory scenarioSession "MA-25-0001" Status.Completado
      1735732800000).toast = some ("Error al actualizar la orden de trabajo.", "error") ∧
    (findOrder failedSession.store.workOrders "MA-25-0001").map
      (fun o => (o.status, o.workIntervals))
      = some (Status.EnProceso, [⟨1735725600000, none⟩]) ∧
    stockOf failedSession.store.parts "P1" = some 3 ∧
    (findOrder failedSession.workOrders "MA-25-0001").map (fun o => o.workIntervals)
      = some [⟨1735725600000, some 1735732800000⟩] ∧
    (handleWorkOrderActionInMemory failedSession "MA-25-0001" Status.Pausado
      1735736400000).toast = some ("Orden de trabajo actualizada a: Pausado", "success") ∧
    (findOrder (handleWorkOrderActionInMemory failedSession "MA-25-0001" Status.Pausado
      1735736400000).session.store.workOrders "MA-25-0001").map
      (fun o => (o.status, o.workIntervals))
      = some (Status.Pausado, [⟨1735725600000, some 1735732800000⟩]) ∧
    (1735732800000 : Int) ≠ 1735736400000 ∧
    (handleWorkOrderActionInMemory restockedSession "MA-25-0001" Status.Completado
      1735736400000).toast = some ("Orden de trabajo actualizada a: Completado", "success") ∧
    (findOrder (handleWorkOrderActionInMemory restockedSession "MA-25-0001" Status.Completado
      1735736400000).session.store.workOrders "MA-25-0001").map
      (fun o => (o.status, o.endTime, o.workIntervals))
      = some (Status.Completado, some 1735736400000,
          [⟨1735725600000, some 1735732800000⟩]) ∧
    (findOrder (handleWorkOrderActionInMemory scenarioSession "MA-25-0001" Status.Pausado
      1735736400000).session.store.workOrders "MA-25-0001").map
      (fun o => (o.status, o.workIntervals))
      = some (Status.Pausado, [⟨1735725600000, some 1735736400000⟩]) := by
  decide

/-! ## Open intervals and status (C15) -/

/-- Counterexample of C15: the In Progress scenario order is cancelled from the
modal; the save succeeds and the stored order is Cancelled with its interval
still open. -/
theorem cancel_leaves_interval_open :
    (findOrder scenarioState.workOrders "MA-25-0001").map
      (fun o => (o.status, o.workIntervals))
      = some (Status.EnProceso, [⟨1735725600000, none⟩]) ∧
    (saveWorkOrder scenarioState cancelForm "MA-25-0001" none 1735729200000).succeeded ∧
    (findOrder (saveWorkOrder scenarioState cancelForm "MA-25-0001" none
      1735729200000).state.workOrders "MA-25-0001").map
      (fun o => (o.status, o.workIntervals, openCount o.workIntervals))
      = some (Status.Cancelado, [⟨1735725600000, none⟩], 1) := by
  decide

/-- C15 (amended): starting from orders that are Pending with an empty
interval list, after every sequence of calls of `handleWorkOrderAction` and
`saveWorkOrder` that follows the state machine, an order has an interval with
no end only if its status is 'En Proceso' or 'Cancelado'. -/
theorem open_interval_only_in_progress_or_cancelled (s0 s : AppState)
    (h0 : InitialOrders s0) (hr : Reachable s0 s) :
    ∀ o ∈ s.workOrders, openCount o.workIntervals ≠ 0 →
      o.status = Status.EnProceso ∨ o.status = Status.Cancelado := by
  intro o ho hopen
  by_contra hcon
  push_neg at hcon
  exact hopen ((stateInv_reachable h0 hr o ho).2 hcon.1 hcon.2)

/-- Witness of C15: the Pending scenario order is started with the quick
button and then cancelled from the modal. -/
theorem open_interval_only_in_progress_or_cancelled_witness :
    InitialOrders pendingState ∧
    ∀ o ∈ (saveWorkOrder
        (handleWorkOrderAction pendingState "MA-25-0001" Status.EnProceso 1735725600000).state
        cancelForm "MA-25-0001" none 1735732800000).state.workOrders,
      openCount o.workIntervals ≠ 0 →
        o.status = Status.EnProceso ∨ o.status = Status.Cancelado :=
  ⟨pendingState_initial,
    open_interval_only_in_progress_or_cancelled pendingState _ pendingState_initial
      (Reachable.step
        (Reachable.step Reachable.init
          (Transition.action pendingState "MA-25-0001" Status.EnProceso 1735725600000
            pendingOrder rfl (Or.inl ⟨rfl, rfl⟩)))
        (Transition.save _ cancelForm "MA-25-0001" none 1735732800000
          { pendingOrder with
            status := Status.EnProceso, startTime := some 1735725600000,
            date := some 20089,
            workIntervals := [⟨1735725600000, none⟩] }
          (by decide) (Or.inr (Or.inr (Or.inr ⟨Or.inr (Or.inl rfl), rfl⟩)))))⟩

/-! ## The state machine and the buttons (C13) -/

theorem modalButtons_edge {s : AppState} {order : WorkOrder} {shown : List ActionButton}
    {b : ActionButton} (hfind : findOrder s.workOrders order.id = some order)
    (h : b ∈ updateWorkOrderModalButtons s order.id order.status shown) :
    allowedTransition order.status b.requested := by
  unfold updateWorkOrderModalButtons at h
  split at h
  · simp at h
  · rw [hfind] at h
    dsimp only at h
    split at h
    · simp at h
    · cases hs : order.status <;> rw [hs] at h <;> simp at h <;>
        (try rcases h with rfl | rfl) <;>
        simp [allowedTransition, ActionButton.requested]

theorem workOrderCardButtons_edge {s : AppState} {order : WorkOrder} {b : ActionButton}
    (h : b ∈ workOrderCardButtons s order) : allowedTransition order.status b.requested := by
  unfold workOrderCardButtons at h
  split at h
  · simp at h
  · cases hs : order.status <;> rw [hs] at h <;> simp at h <;>
      (try rcases h with rfl | rfl) <;>
      simp [allowedTransition, ActionButton.requested]

theorem assignedOrderCardButtons_edge {s : AppState} {order : WorkOrder} {b : ActionButton}
    (h : b ∈ assignedOrderCardButtons s order) : allowedTransition order.status b.requested := by
  unfold assignedOrderCardButtons at h
  split at h
  · cases hs : order.status <;> rw [hs] at h <;> simp at h <;>
      (try rcases h with rfl | rfl) <;>
      simp [allowedTransition, ActionButton.requested]
  · simp at h

theorem allowedTransition_source {old new : Status} (h : allowedTransition old new) :
    old ≠ Status.Completado ∧ old ≠ Status.Cancelado ∧
    (new = Status.Completado → old = Status.EnProceso ∨ old = Status.Pausado) := by
  unfold allowedTransition at h
  rcases h with ⟨h1, h2⟩ | ⟨h1, h2⟩ | ⟨h1, h2⟩ | ⟨h1, h2⟩
  · subst h1 h2
    simp
  · subst h1
    simp
  · subst h1
    simp
  · subst h2
    rcases h1 with h1 | h1 | h1 <;> subst h1 <;> simp

/-- The status stored by `handleWorkOrderAction` is the one the order had or the
one asked for. -/
theorem handleWorkOrderAction_status {s : AppState} {order : WorkOrder} (newStatus : Status)
    (now : Int) {stored : WorkOrder} (hfind : findOrder s.workOrders order.id = some order)
    (hstored : findOrder (handleWorkOrderAction s order.id newStatus now).state.workOrders
      order.id = some stored) :
    stored.status = order.status ∨ stored.status = newStatus := by
  rcases handleWorkOrderAction_orders s order.id newStatus now with h | ⟨o, ho, h⟩
  · rw [h, hfind] at hstored
    injection hstored with hstored
    subst hstored
    exact Or.inl rfl
  · rw [hfind] at ho
    injection ho with ho
    subst ho
    rw [h, findOrder_updateOrderDoc order.fb_id (applyActionUpdates order newStatus now)
      (fun _ => rfl) hfind, if_pos rfl] at hstored
    injection hstored with hstored
    subst hstored
    exact Or.inr rfl

/-- The status stored by `saveWorkOrder` is the one the order had or the one
asked for. -/
theorem saveWorkOrder_status {s : AppState} {order : WorkOrder} (form : WorkOrderForm)
    (updates : Option Status) (now : Int) {stored : WorkOrder} (hk : OrdersKeyed s.workOrders)
    (hfind : findOrder s.workOrders order.id = some order)
    (hstored : findOrder (saveWorkOrder s form order.id updates now).state.workOrders
      order.id = some stored) :
    stored.status = order.status ∨ stored.status = updates.getD form.status := by
  rcases saveWorkOrder_orders s form order.id updates now with h | ⟨_, h⟩
  · rw [h, hfind] at hstored
    injection hstored with hstored
    subst hstored
    exact Or.inl rfl
  · obtain ⟨stored', hstored', hw⟩ := findOrder_setOrderDoc
      (buildOrderData s.utcOffsetMs form order.id (existingOrderOf s form order.id) updates now)
      hk (buildOrderData_id _ _ _ _ _ _)
    rw [h, hstored'] at hstored
    injection hstored with hstored
    subst hstored
    exact Or.inr hw.status

theorem saveButtonShown_nonterminal {s : AppState} {order : WorkOrder}
    (hfind : findOrder s.workOrders order.id = some order) (hid : order.id ≠ "")
    (h : saveButtonShown s order.id = true) :
    order.status ≠ Status.Completado ∧ order.status ≠ Status.Cancelado := by
  unfold saveButtonShown at h
  rw [if_neg hid, hfind] at h
  simp at h
  exact ⟨h.1.2, h.2⟩

/-- Counterexample of C13: the Pending scenario order is saved from the modal
with 'Completado' chosen in the status select, and is stored Completed, which is
not an edge of the graph; and `handleWorkOrderAction(id, 'En Proceso')` on the
Completed scenario order stores it In Progress. -/
theorem status_change_outside_graph :
    (findOrder pendingState.workOrders "MA-25-0001").map (fun o => o.status)
      = some Status.Pendiente ∧
    saveButtonShown pendingState "MA-25-0001" = true ∧
    (saveWorkOrder pendingState directCompleteForm "MA-25-0001" none 1735732800000).succeeded ∧
    (findOrder (saveWorkOrder pendingState directCompleteForm "MA-25-0001" none
      1735732800000).state.workOrders "MA-25-0001").map (fun o => o.status)
      = some Status.Completado ∧
    ¬ allowedTransition Status.Pendiente Status.Completado ∧
    (findOrder completedState.workOrders "MA-25-0001").map (fun o => o.status)
      = some Status.Completado ∧
    (handleWorkOrderAction completedState "MA-25-0001" Status.EnProceso
      1735740000000).succeeded ∧
    (findOrder (handleWorkOrderAction completedState "MA-25-0001" Status.EnProceso
      1735740000000).state.workOrders "MA-25-0001").map (fun o => o.status)
      = some Status.EnProceso ∧
    ¬ allowedTransition Status.Completado Status.EnProceso := by
  refine ⟨by decide, by decide, by decide, by decide, ?_, by decide, by decide, by decide, ?_⟩
  · simp [allowedTransition]
  · simp [allowedTransition]

/-- C13 (amended): for an order of the store, every status change made with a
Start, Pause, Resume or Complete button that the interface shows for it (the
cards call `handleWorkOrderAction`, the modal calls `saveWorkOrder` with the
button's status) is an edge of the graph; such a button is never shown for a
Completed or Cancelled order, the Complete button only for an order In Progress
or Paused, and the modal's Save button is hidden for a Completed or Cancelled
order.  The two operations themselves store the status they are given, or leave
the order's status as it was. -/
theorem status_buttons_follow_state_machine (s : AppState) (order : WorkOrder)
    (hfind : findOrder s.workOrders order.id = some order) :
    (∀ (b : ActionButton) (now : Int) (stored : WorkOrder),
      b ∈ workOrderCardButtons s order ∨ b ∈ assignedOrderCardButtons s order →
      findOrder (handleWorkOrderAction s order.id b.requested now).state.workOrders order.id
        = some stored →
      stored.status ≠ order.status → allowedTransition order.status stored.status) ∧
    (∀ (b : ActionButton) (shown : List ActionButton) (form : WorkOrderForm) (now : Int)
      (stored : WorkOrder),
      OrdersKeyed s.workOrders →
      b ∈ updateWorkOrderModalButtons s order.id order.status shown →
      findOrder (saveWorkOrder s form order.id (some b.requested) now).state.workOrders order.id
        = some stored →
      stored.status ≠ order.status → allowedTransition order.status stored.status) ∧
    (∀ (b : ActionButton) (shown : List ActionButton),
      b ∈ updateWorkOrderModalButtons s order.id order.status shown ∨
        b ∈ workOrderCardButtons s order ∨ b ∈ assignedOrderCardButtons s order →
      order.status ≠ Status.Completado ∧ order.status ≠ Status.Cancelado ∧
      (b.requested = Status.Completado →
        order.status = Status.EnProceso ∨ order.status = Status.Pausado)) ∧
    (order.id ≠ "" → saveButtonShown s order.id = true →
      order.status ≠ Status.Completado ∧ order.status ≠ Status.Cancelado) ∧
    (∀ (newStatus : Status) (now : Int) (stored : WorkOrder),
      findOrder (handleWorkOrderAction s order.id newStatus now).state.workOrders order.id
        = some stored →
      stored.status = order.status ∨ stored.status = newStatus) ∧
    (∀ (form : WorkOrderForm) (updates : Option Status) (now : Int) (stored : WorkOrder),
      OrdersKeyed s.workOrders →
      findOrder (saveWorkOrder s form order.id updates now).state.workOrders order.id
        = some stored →
      stored.status = order.status ∨ stored.status = updates.getD form.status) := by
  refine ⟨?_, ?_, ?_, ?_, ?_, ?_⟩
  · intro b now stored hb hstored hne
    have hedge : allowedTransition order.status b.requested := by
      rcases hb with hb | hb
      · exact workOrderCardButtons_edge hb
      · exact assignedOrderCardButtons_edge hb
    rcases handleWorkOrderAction_status b.requested now hfind hstored with h | h
    · exact absurd h hne
    · rw [h]
      exact hedge
  · intro b shown form now stored hk hb hstored hne
    rcases saveWorkOrder_status form (some b.requested) now hk hfind hstored with h | h
    · exact absurd h hne
    · rw [h]
      exact modalButtons_edge hfind hb
  · intro b shown hb
    have hedge : allowedTransition order.status b.requested := by
      rcases hb with hb | hb | hb
      · exact modalButtons_edge hfind hb
      · exact workOrderCardButtons_edge hb
      · exact assignedOrderCardButtons_edge hb
    exact allowedTransition_source hedge
  · exact fun hid h => saveButtonShown_nonterminal hfind hid h
  · exact fun newStatus now stored h => handleWorkOrderAction_status newStatus now hfind h
  · exact fun form updates now stored hk h => saveWorkOrder_status form updates now hk hfind h

/-- Witness of C13: the card of the Pending scenario order shows the Start
button, and the status change it makes is an edge of the graph. -/
theorem status_buttons_follow_state_machine_witness :
    findOrder pendingState.workOrders pendingOrder.id = some pendingOrder ∧
    ActionButton.start ∈ workOrderCardButtons pendingState pendingOrder ∧
    (findOrder (handleWorkOrderAction pendingState pendingOrder.id
      ActionButton.start.requested 1735725600000).state.workOrders pendingOrder.id).map
        (fun o => o.status) = some Status.EnProceso ∧
    ∀ (now : Int) (stored : WorkOrder),
      findOrder (handleWorkOrderAction pendingState pendingOrder.id
        ActionButton.start.requested now).state.workOrders pendingOrder.id = some stored →
      stored.status ≠ pendingOrder.status →
      allowedTransition pendingOrder.status stored.status :=
  ⟨rfl, by decide, by decide,
    fun now stored =>
      (status_buttons_follow_state_machine pendingState pendingOrder rfl).1
        ActionButton.start now stored (Or.inl (by decide))⟩

/-! ## Validation before persistence (C21) -/

theorem saveValidation_none_checks {s : AppState} {form : WorkOrderForm} {orderId : String}
    (h : saveValidation s form orderId = none) :
    idRegexTest orderId = true ∧
    ¬ (form.hiddenId = "" ∧ s.workOrders.any (fun wo => wo.id == orderId) = true) ∧
    ¬ (form.type = OrderType.Correctivo ∧ form.failureType = "") ∧
    ¬ (form.type = OrderType.Preventivo ∧ form.maintenanceType = "") ∧
    ¬ (form.leadTechnician = "" ∧ form.status ≠ Status.Cancelado) := by
  unfold saveValidation at h
  split at h
  · cases h
  · rename_i hreg
    split at h
    · cases h
    · rename_i hdup
      dsimp only at h
      split at h
      · cases h
      · split at h
        · cases h
        · rename_i hfail
          split at h
          · cases h
          · rename_i hmaint
            split at h
            · cases h
            · rename_i hlead
              exact ⟨by simpa using hreg, hdup, hfail, hmaint, hlead⟩

theorem saveValidation_some_of_violation {s : AppState} {form : WorkOrderForm}
    {orderId : String} (h : ViolatesValidation s form orderId) :
    ∃ msg, saveValidation s form orderId = some msg := by
  cases hv : saveValidation s form orderId with
  | some msg => exact ⟨msg, rfl⟩
  | none =>
    exfalso
    obtain ⟨hreg, hdup, hfail, hmaint, hlead⟩ := saveValidation_none_checks hv
    rcases h with h | h | h | h | h | h
    · rw [hreg] at h
      cases h
    · obtain ⟨hnew, wo, hwo, hid⟩ := h
      exact hdup ⟨hnew, List.any_eq_true.mpr ⟨wo, hwo, by simpa using hid⟩⟩
    · exact hfail h
    · exact hmaint h
    · obtain ⟨st, en, hst, hen, hle⟩ := h
      have := saveValidation_none_times hv st en hst hen
      omega
    · exact hlead h

/-- C21: when the form and the id of a `saveWorkOrder` call violate a
validation rule (id not of the form MA-NN-NNNN; id already used when creating;
Corrective with empty failure type; Preventive with empty maintenance type;
both timestamps present and end not after start; empty lead technician with a
form status other than 'Cancelado'), the call shows an error toast and the
whole state is as before: orders, parts and requests. -/
theorem validation_failure_writes_nothing (s : AppState) (form : WorkOrderForm)
    (orderId : String) (updates : Option Status) (now : Int)
    (h : ViolatesValidation s form orderId) :
    (saveWorkOrder s form orderId updates now).failed ∧
    (saveWorkOrder s form orderId updates now).state = s ∧
    (saveWorkOrder s form orderId updates now).state.workOrders = s.workOrders ∧
    (∀ docId, stockOf (saveWorkOrder s form orderId updates now).state.parts docId
      = stockOf s.parts docId) ∧
    (saveWorkOrder s form orderId updates now).state.solicitudes = s.solicitudes := by
  obtain ⟨msg, hmsg⟩ := saveValidation_some_of_violation h
  have hout : saveWorkOrder s form orderId updates now = ⟨s, some (msg, "error"), none⟩ := by
    unfold saveWorkOrder
    rw [hmsg]
  rw [hout]
  exact ⟨rfl, rfl, rfl, fun _ => rfl, rfl⟩

/-- Witness of C21: the scenario order saved with the lead technician cleared,
and a new order saved under the id of the scenario order. -/
theorem validation_failure_writes_nothing_witness :
    ViolatesValidation scenarioState noLeadForm "MA-25-0001" ∧
    (saveWorkOrder scenarioState noLeadForm "MA-25-0001" none 1735729200000).failed ∧
    (saveWorkOrder scenarioState noLeadForm "MA-25-0001" none 1735729200000).state
      = scenarioState ∧
    ViolatesValidation requestState requestForm "MA-25-0001" ∧
    (saveWorkOrder requestState requestForm "MA-25-0001" none 1735729200000).state
      = requestState :=
  ⟨Or.inr (Or.inr (Or.inr (Or.inr (Or.inr ⟨rfl, by decide⟩)))),
    (validation_failure_writes_nothing scenarioState noLeadForm "MA-25-0001" none 1735729200000
      (Or.inr (Or.inr (Or.inr (Or.inr (Or.inr ⟨rfl, by decide⟩)))))).1,
    (validation_failure_writes_nothing scenarioState noLeadForm "MA-25-0001" none 1735729200000
      (Or.inr (Or.inr (Or.inr (Or.inr (Or.inr ⟨rfl, by decide⟩)))))).2.1,
    Or.inr (Or.inl ⟨rfl, scenarioOrder, by simp [requestState, scenarioState], rfl⟩),
    (validation_failure_writes_nothing requestState requestForm "MA-25-0001" none 1735729200000
      (Or.inr (Or.inl ⟨rfl, scenarioOrder, by simp [requestState, scenarioState], rfl⟩))).2.1⟩

/-! ## The source request of a save (C25) -/

theorem map_eq_self_of {α : Type} {l : List α} {f : α → α} (h : ∀ a ∈ l, f a = a) :
    l.map f = l := by
  induction l with
  | nil => rfl
  | cons a rest ih =>
    rw [List.map_cons, h a (List.mem_cons_self _ _),
      ih (fun b hb => h b (List.mem_cons_of_mem _ hb))]

theorem approveSolicitud_eq_spec (solicitudes : List Solicitud)
    (sourceSolicitudId orderId : String)
    (hnodup : (solicitudes.map (fun q => q.fb_id)).Nodup) :
    approveSolicitud solicitudes sourceSolicitudId orderId
      = solicitudes.map (specRequestAfterSave sourceSolicitudId orderId) := by
  unfold approveSolicitud
  by_cases hsrc : sourceSolicitudId = ""
  · rw [if_pos hsrc]
    symm
    apply map_eq_self_of
    intro q _
    unfold specRequestAfterSave
    rw [if_neg (fun h => h.1 hsrc)]
  · rw [if_neg hsrc]
    cases hfind : solicitudes.find? (fun q => q.fb_id == sourceSolicitudId) with
    | none =>
      dsimp only
      symm
      apply map_eq_self_of
      intro q hq
      unfold specRequestAfterSave
      have := List.find?_eq_none.mp hfind q hq
      rw [if_neg (fun h => this (by simpa using h.2.1))]
    | some solicitud =>
      dsimp only
      have hmem := List.mem_of_find?_eq_some hfind
      have hfb : solicitud.fb_id = sourceSolicitudId := by
        simpa using List.find?_some hfind
      have huniq : ∀ q ∈ solicitudes, q.fb_id = sourceSolicitudId → q = solicitud := by
        intro q hq hqfb
        exact List.inj_on_of_nodup_map hnodup hq hmem (hqfb.trans hfb.symm)
      by_cases hst : solicitud.status = SolicitudStatus.Pendiente
      · rw [if_pos hst]
        apply List.map_congr_left
        intro q hq
        unfold specRequestAfterSave
        by_cases hq2 : q.fb_id = sourceSolicitudId
        · have hb : (q.fb_id == sourceSolicitudId) = true := by simpa using hq2
          have hqs : q.status = SolicitudStatus.Pendiente := by
            rw [huniq q hq hq2]; exact hst
          rw [if_pos hb, if_pos ⟨hsrc, hq2, hqs⟩]
        · have hb : ¬ (q.fb_id == sourceSolicitudId) = true := by simpa using hq2
          rw [if_neg hb, if_neg (fun h => hq2 h.2.1)]
      · rw [if_neg hst]
        symm
        apply map_eq_self_of
        intro q hq
        unfold specRequestAfterSave
        by_cases hq2 : q.fb_id = sourceSolicitudId
        · have hqs : q.status ≠ SolicitudStatus.Pendiente := by
            rw [huniq q hq hq2]; exact hst
          rw [if_neg (fun h => hqs h.2.2)]
        · rw [if_neg (fun h => hq2 h.2.1)]

/-- C25: after a successful `saveWorkOrder` of the order `orderId` (request
documents having distinct ids), the requests are the previous ones where the
source request of the form, if there is one and its status is 'Pendiente', has
status 'Aprobado' and `workOrderId` equal to `orderId`; a source request with
another status, every other request, and every request when the form has no
source request, are unchanged. -/
theorem source_request_approved_on_save (s : AppState) (form : WorkOrderForm)
    (orderId : String) (updates : Option Status) (now : Int)
    (hnodup : (s.solicitudes.map (fun q => q.fb_id)).Nodup)
    (hsucc : (saveWorkOrder s form orderId updates now).succeeded) :
    (saveWorkOrder s form orderId updates now).state.solicitudes
      = s.solicitudes.map (specRequestAfterSave form.sourceSolicitudId orderId) ∧
    (form.sourceSolicitudId = "" →
      (saveWorkOrder s form orderId updates now).state.solicitudes = s.solicitudes) ∧
    (∀ q ∈ s.solicitudes, q.fb_id = form.sourceSolicitudId →
      q.status ≠ SolicitudStatus.Pendiente →
      (saveWorkOrder s form orderId updates now).state.solicitudes = s.solicitudes) := by
  obtain ⟨hv, hloop⟩ := saveWorkOrder_of_succeeded hsucc
  have hsol : (saveWorkOrder s form orderId updates now).state.solicitudes
      = approveSolicitud s.solicitudes form.sourceSolicitudId orderId := by
    rw [saveWorkOrder_success now hv hloop]
  have hspec := approveSolicitud_eq_spec s.solicitudes form.sourceSolicitudId orderId hnodup
  refine ⟨hsol.trans hspec, ?_, ?_⟩
  · intro hsrc
    rw [hsol, hspec]
    apply map_eq_self_of
    intro q _
    unfold specRequestAfterSave
    rw [if_neg (fun h => h.1 hsrc)]
  · intro q hq hfb hst
    rw [hsol, hspec]
    apply map_eq_self_of
    intro r hr
    unfold specRequestAfterSave
    by_cases hr2 : r.fb_id = form.sourceSolicitudId
    · have : r = q := List.inj_on_of_nodup_map hnodup hr hq (hr2.trans hfb.symm)
      rw [if_neg (fun h => hst (this ▸ h.2.2))]
    · rw [if_neg (fun h => hr2 h.2.1)]

/-- Witness of C25: a new order MA-25-0002 is created from the Pending request
S1; S1 becomes Approved and linked, the rejected request S2 stays. -/
theorem source_request_approved_on_save_witness :
    (requestState.solicitudes.map (fun q => q.fb_id)).Nodup ∧
    (saveWorkOrder requestState requestForm "MA-25-0002" none 1735729200000).succeeded ∧
    (saveWorkOrder requestState requestForm "MA-25-0002" none 1735729200000).state.solicitudes
      = [⟨"S1", SolicitudStatus.Aprobado, some "MA-25-0002"⟩,
         ⟨"S2", SolicitudStatus.Rechazado, none⟩] :=
  ⟨by decide, by decide,
    (source_request_approved_on_save requestState requestForm "MA-25-0002" none 1735729200000
      (by decide) (by decide)).1.trans (by decide)⟩

/-! ## Lead technician of a persisted order (C22) -/

/-- C22: the Pending scenario order is opened in the modal, 'Cancelado' is
chosen in the status select and the lead technician is cleared; the Start
button (`updates = { status: 'En Proceso' }`) then passes the checks, and the
order is stored In Progress with an empty lead technician.  The same start
through `handleWorkOrderAction` on an order without lead technician is
rejected. -/
theorem modal_start_stores_no_lead_technician :
    cancelForm.status = Status.Cancelado ∧ cancelForm.leadTechnician = "" ∧
    saveValidation pendingState cancelForm "MA-25-0001" = none ∧
    (saveWorkOrder pendingState cancelForm "MA-25-0001" (some Status.EnProceso)
      1735729200000).succeeded ∧
    (findOrder (saveWorkOrder pendingState cancelForm "MA-25-0001" (some Status.EnProceso)
      1735729200000).state.workOrders "MA-25-0001").map
        (fun o => (o.status, o.leadTechnician)) = some (Status.EnProceso, "") ∧
    (handleWorkOrderAction unassignedState "MA-25-0001" Status.EnProceso 1735729200000).toast
      = some ("Debe asignar un técnico responsable antes de iniciar.", "warning") := by
  decide

/-! ## Resuming from the modal (C27) -/

/-- C27: the Paused scenario order worked from 10:00Z to 12:00Z.  Resumed from
the modal at 13:00Z, it gets a new interval that starts at 10:00Z, before the
end of the closed one; paused again at 14:00Z, its worked time is 6 hours
although 4 hours have passed since the first start.  Resumed with
`handleWorkOrderAction` instead, the new interval starts at 13:00Z. -/
theorem modal_resume_reopens_at_first_start :
    (findOrder pausedState.workOrders "MA-25-0001").map
      (fun o => (o.status, o.startTime, o.workIntervals))
      = some (Status.Pausado, some 1735725600000,
          [⟨1735725600000, some 1735732800000⟩]) ∧
    (saveWorkOrder pausedState pausedForm "MA-25-0001" (some Status.EnProceso)
      1735736400000).succeeded ∧
    (findOrder (saveWorkOrder pausedState pausedForm "MA-25-0001" (some Status.EnProceso)
      1735736400000).state.workOrders "MA-25-0001").map (fun o => o.workIntervals)
      = some [⟨1735725600000, some 1735732800000⟩, ⟨1735725600000, none⟩] ∧
    (1735725600000 : Int) < 1735732800000 ∧
    (findOrder (handleWorkOrderAction
        (saveWorkOrder pausedState pausedForm "MA-25-0001" (some Status.EnProceso)
          1735736400000).state
        "MA-25-0001" Status.Pausado 1735740000000).state.workOrders "MA-25-0001").map
      (fun o => (o.workIntervals, getTotalWorkDurationMs o))
      = some ([⟨1735725600000, some 1735732800000⟩, ⟨1735725600000, some 1735740000000⟩],
          6 * 3600000) ∧
    (1735740000000 : Int) - 1735725600000 = 4 * 3600000 ∧
    (findOrder (handleWorkOrderAction pausedState "MA-25-0001" Status.EnProceso
      1735736400000).state.workOrders "MA-25-0001").map (fun o => o.workIntervals)
      = some [⟨1735725600000, some 1735732800000⟩, ⟨1735736400000, none⟩] := by
  decide

/-! ## Worked time (C26) -/

theorem workedFold_eq (intervals : List StoredInterval) (acc : Int) :
    intervals.foldl
      (fun totalMs interval =>
        match interval.start, interval.end_ with
        | DateText.valid start, DateText.valid end_ => totalMs + (end_ - start)
        | _, _ => totalMs)
      acc = acc + specWorkedMs intervals := by
  induction intervals generalizing acc with
  | nil => simp [specWorkedMs]
  | cons i rest ih =>
    rw [List.foldl_cons, ih]
    unfold specWorkedMs
    rw [List.filterMap_cons]
    cases hs : i.start <;> cases he : i.end_ <;> simp [closedDuration, hs, he]
    ring

theorem totalIntervalsMs_eq_spec (l : List Interval) :
    totalIntervalsMs l = specWorkedMs (l.map Interval.stored) := by
  induction l with
  | nil => rfl
  | cons i rest ih =>
    unfold totalIntervalsMs specWorkedMs
    rw [List.map_cons, List.filterMap_cons]
    cases he : i.end_ with
    | none =>
      simp only [closedDuration, Interval.stored, he]
      rw [ih]
      rfl
    | some e =>
      simp only [closedDuration, Interval.stored, he, List.sum_cons]
      rw [ih]
      rfl

/-- C26: `getTotalWorkDurationMs` is the sum of `end - start` over the
intervals that have both a valid start and a valid end; an interval whose start
or end is absent or not a valid date adds nothing, wherever it stands in the
list, and a missing interval list gives 0.  The function on the orders of the
model is the same sum. -/
theorem worked_time_sums_closed_intervals :
    (∀ intervals, getTotalWorkDurationMsOf (some intervals) = specWorkedMs intervals) ∧
    getTotalWorkDurationMsOf none = 0 ∧
    (∀ front back i,
      getTotalWorkDurationMsOf (some (front ++ i :: back))
        = getTotalWorkDurationMsOf (some (front ++ back)) + (closedDuration i).getD 0) ∧
    (∀ front back start end_,
      getTotalWorkDurationMsOf (some (front ++ ⟨DateText.valid start, DateText.valid end_⟩ :: back))
        = getTotalWorkDurationMsOf (some (front ++ back)) + (end_ - start)) ∧
    (∀ front back start,
      getTotalWorkDurationMsOf (some (front ++ ⟨DateText.valid start, DateText.absent⟩ :: back))
        = getTotalWorkDurationMsOf (some (front ++ back))) ∧
    (∀ i, closedDuration i = none ↔
      ¬ ∃ start end_, i.start = DateText.valid start ∧ i.end_ = DateText.valid end_) ∧
    (∀ order : WorkOrder, getTotalWorkDurationMs order
      = getTotalWorkDurationMsOf (some (order.workIntervals.map Interval.stored))) := by
  have hof : ∀ intervals, getTotalWorkDurationMsOf (some intervals) = specWorkedMs intervals := by
    intro intervals
    unfold getTotalWorkDurationMsOf
    dsimp only
    rw [workedFold_eq, zero_add]
  have hsplit : ∀ front back i,
      getTotalWorkDurationMsOf (some (front ++ i :: back))
        = getTotalWorkDurationMsOf (some (front ++ back)) + (closedDuration i).getD 0 := by
    intro front back i
    rw [hof, hof]
    unfold specWorkedMs
    rw [List.filterMap_append, List.filterMap_cons, List.filterMap_append]
    cases hi : closedDuration i with
    | none => simp
    | some d =>
      simp only [List.sum_append, List.sum_cons, Option.getD_some]
      ring
  refine ⟨hof, rfl, hsplit, ?_, ?_, ?_, ?_⟩
  · intro front back start end_
    rw [hsplit]
    rfl
  · intro front back start
    rw [hsplit]
    exact add_zero _
  · intro i
    cases hs : i.start <;> cases he : i.end_ <;> simp [closedDuration, hs, he]
  · intro order
    rw [hof]
    exact totalIntervalsMs_eq_spec order.workIntervals

/-! ## The error of an insufficient stock (C24) -/

theorem consumePartAction_error {parts : List Part} {u : PartUsage} {msg : String}
    (h : consumePartAction parts u = .error msg) :
    ∃ p partDoc, findPartById parts u.partId = some p ∧
      getPartDoc parts p.fb_id = some partDoc ∧ partDoc.stock < u.quantity ∧
      msg = s!"Stock insuficiente para {u.partId}. No se puede completar la orden." := by
  unfold consumePartAction at h
  cases hf : findPartById parts u.partId with
  | none => rw [hf] at h; cases h
  | some p =>
    rw [hf] at h
    dsimp only at h
    cases hg : getPartDoc parts p.fb_id with
    | none => rw [hg] at h; cases h
    | some partDoc =>
      rw [hg] at h
      dsimp only at h
      by_cases hlt : partDoc.stock - u.quantity < 0
      · rw [if_pos hlt] at h
        injection h with h
        exact ⟨p, partDoc, rfl, hg, by omega, h.symm⟩
      · rw [if_neg hlt] at h
        cases h

theorem consumePartSave_error {parts : List Part} {u : PartUsage} {msg : String}
    (h : consumePartSave parts u = .error msg) :
    ∃ p partDoc, findPartById parts u.partId = some p ∧
      getPartDoc parts p.fb_id = some partDoc ∧ partDoc.stock < u.quantity ∧
      msg = s!"Stock insuficiente para {u.partId}. Stock: {partDoc.stock}, Necesita: {u.quantity}." := by
  by_cases hq : 0 < u.quantity
  · rw [consumePartSave_eq_of_pos hq] at h
    cases hf : findPartById parts u.partId with
    | none => rw [hf] at h; cases h
    | some p =>
      rw [hf] at h
      dsimp only at h
      cases hg : getPartDoc parts p.fb_id with
      | none => rw [hg] at h; cases h
      | some partDoc =>
        rw [hg] at h
        dsimp only at h
        by_cases hlt : partDoc.stock - u.quantity < 0
        · rw [if_pos hlt] at h
          injection h with h
          exact ⟨p, partDoc, rfl, hg, by omega, h.symm⟩
        · rw [if_neg hlt] at h
          cases h
  · rw [consumePartSave_eq_of_not_pos hq] at h
    cases h

theorem applyStockDelta_error {parts : List Part} {partId : String} {delta : Int}
    {msg : String} (h : applyStockDelta parts partId delta = .error msg) :
    ∃ partDoc, getPartDoc parts partId = some partDoc ∧ partDoc.stock + delta < 0 ∧
      msg = s!"Stock insuficiente para {partId}. Stock: {partDoc.stock}, Necesita: {-delta}." := by
  unfold applyStockDelta at h
  cases hg : getPartDoc parts partId with
  | none => rw [hg] at h; cases h
  | some partDoc =>
    rw [hg] at h
    dsimp only at h
    by_cases hlt : partDoc.stock + delta < 0
    · rw [if_pos hlt] at h
      injection h with h
      exact ⟨partDoc, rfl, hlt, h.symm⟩
    · rw [if_neg hlt] at h
      cases h

theorem consumeLoop_error (step : List Part → PartUsage → Except String (List Part))
    (l : List PartUsage) (parts : List Part) {msg : String}
    (h : (consumeLoop step parts l).2 = some msg) :
    ∃ u ∈ l, step (consumeLoop step parts l).1 u = .error msg := by
  induction l generalizing parts with
  | nil => cases h
  | cons a rest ih =>
    unfold consumeLoop at h ⊢
    cases hstep : step parts a with
    | error m =>
      rw [hstep] at h
      injection h with h
      subst h
      exact ⟨a, List.mem_cons_self _ _, hstep⟩
    | ok parts' =>
      rw [hstep] at h
      obtain ⟨u, hu, hres⟩ := ih parts' h
      exact ⟨u, List.mem_cons_of_mem _ hu, hres⟩

theorem applyStockDeltas_error (deltas : JsMap) (parts : List Part) {msg : String}
    (h : (applyStockDeltas parts deltas).2 = some msg) :
    ∃ e ∈ deltas, applyStockDelta (applyStockDeltas parts deltas).1 e.1 e.2 = .error msg := by
  induction deltas generalizing parts with
  | nil => cases h
  | cons a rest ih =>
    obtain ⟨partId, delta⟩ := a
    unfold applyStockDeltas at h ⊢
    cases hstep : applyStockDelta parts partId delta with
    | error m =>
      rw [hstep] at h
      injection h with h
      subst h
      exact ⟨(partId, delta), List.mem_cons_self _ _, hstep⟩
    | ok parts' =>
      rw [hstep] at h
      obtain ⟨e, he, hres⟩ := ih parts' h
      exact ⟨e, List.mem_cons_of_mem _ he, hres⟩

theorem handleWorkOrderAction_error {s : AppState} {orderId : String} {newStatus : Status}
    {now : Int} {msg : String}
    (h : (handleWorkOrderAction s orderId newStatus now).error = some msg) :
    ∃ order, findOrder s.workOrders orderId = some order ∧
      actionPartsLoop s.parts order newStatus
        = ((handleWorkOrderAction s orderId newStatus now).state.parts, some msg) := by
  unfold handleWorkOrderAction at h ⊢
  split at h
  · cases h
  · rename_i hid
    rw [if_neg hid]
    cases hfind : findOrder s.workOrders orderId with
    | none => rw [hfind] at h; cases h
    | some order =>
      rw [hfind] at h
      dsimp only at h ⊢
      refine ⟨order, rfl, ?_⟩
      split at h
      · cases h
      · rename_i hmay
        rw [if_neg hmay]
        split at h
        · cases h
        · rename_i hlead
          rw [if_neg hlead]
          split at h
          · rename_i parts' m heq
            injection h with h
            subst h
            rw [heq]
          · cases h

theorem saveWorkOrder_error {s : AppState} {form : WorkOrderForm} {orderId : String}
    {updates : Option Status} {now : Int} {msg : String}
    (h : (saveWorkOrder s form orderId updates now).error = some msg) :
    savePartsLoop s.parts
      (buildOrderData s.utcOffsetMs form orderId (existingOrderOf s form orderId) updates now)
      ((existingOrderOf s form orderId).map (fun o => o.status))
      = ((saveWorkOrder s form orderId updates now).state.parts, some msg) := by
  unfold saveWorkOrder at h ⊢
  cases hv : saveValidation s form orderId with
  | some m => rw [hv] at h; cases h
  | none =>
    rw [hv] at h
    dsimp only at h ⊢
    split at h
    · rename_i parts' m heq
      injection h with h
      subst h
      rw [heq]
    · cases h

theorem handleSaveManagedParts_error {s : AppState} {orderId : String}
    {newPartsList : List PartUsage} {msg : String}
    (h : (handleSaveManagedParts s orderId newPartsList).error = some msg) :
    ∃ order, findOrder s.workOrders orderId = some order ∧
      applyStockDeltas s.parts (stockDeltas order.partsUsed newPartsList)
        = ((handleSaveManagedParts s orderId newPartsList).state.parts, some msg) := by
  unfold handleSaveManagedParts at h ⊢
  split at h
  · cases h
  · rename_i hid
    rw [if_neg hid]
    cases hfind : findOrder s.workOrders orderId with
    | none => rw [hfind] at h; cases h
    | some order =>
      rw [hfind] at h
      dsimp only at h ⊢
      refine ⟨order, rfl, ?_⟩
      split at h
      · rename_i parts' m heq
        injection h with h
        subst h
        rw [heq]
      · cases h

/-- Counterexample of C24: for quantity 5 of P1 against stock 3 the errors of
the two completions and of the reconciliation name P1; two of them give the
stock 3 and the quantity 5, none of them the shortfall 2. -/
theorem stock_error_does_not_state_shortfall :
    (handleWorkOrderAction scenarioState "MA-25-0001" Status.Completado 1735732800000).error
      = some "Stock insuficiente para P1. No se puede completar la orden." ∧
    (saveWorkOrder scenarioState scenarioForm "MA-25-0001" (some Status.Completado)
      1735732800000).error = some "Stock insuficiente para P1. Stock: 3, Necesita: 5." ∧
    (handleSaveManagedParts scenarioState "MA-25-0001" [⟨"P1", 10⟩]).error
      = some "Stock insuficiente para P1. Stock: 3, Necesita: 5." ∧
    containsText "Stock insuficiente para P1. No se puede completar la orden." "2" = false ∧
    containsText "Stock insuficiente para P1. Stock: 3, Necesita: 5." "2" = false := by
  decide

theorem startsWith_append (part rest : List Char) : startsWith (part ++ rest) part = true := by
  induction part with
  | nil => cases rest <;> rfl
  | cons c cs ih =>
    show (c == c && startsWith (cs ++ rest) cs) = true
    rw [ih]
    simp

theorem tails_any_startsWith (front part rest : List Char) :
    (front ++ (part ++ rest)).tails.any (fun t => startsWith t part) = true := by
  induction front with
  | nil =>
    cases h : part ++ rest with
    | nil =>
      have hp : part = [] := (List.append_eq_nil.mp h).1
      subst hp
      rfl
    | cons a l =>
      rw [List.nil_append, List.tails, List.any_cons, ← h, startsWith_append]
      rfl
  | cons a l ih =>
    rw [List.cons_append, List.tails, List.any_cons, ih, Bool.or_true]

theorem containsText_append (front part rest : String) :
    containsText (front ++ (part ++ rest)) part = true := by
  unfold containsText
  have h : (front ++ (part ++ rest)).toList = front.toList ++ (part.toList ++ rest.toList) := by
    simp only [String.toList, String.data_append]
  rw [h]
  exact tails_any_startsWith _ _ _

/-- C24 (amended): when a completion or a reconciliation aborts for
insufficient stock, the error it raises names the offending part id, a part of
the order's list whose current stock is below the quantity asked for; the
errors of `saveWorkOrder` and of `handleSaveManagedParts` also give that current
stock and the quantity needed, the error of `handleWorkOrderAction` gives the
part id only.  None states the shortfall. -/
theorem stock_error_names_part (s : AppState) :
    (∀ orderId newStatus now msg,
      (handleWorkOrderAction s orderId newStatus now).error = some msg →
      ∃ order u p partDoc, findOrder s.workOrders orderId = some order ∧
        u ∈ order.partsUsed ∧
        findPartById (handleWorkOrderAction s orderId newStatus now).state.parts u.partId
          = some p ∧
        getPartDoc (handleWorkOrderAction s orderId newStatus now).state.parts p.fb_id
          = some partDoc ∧
        partDoc.stock < u.quantity ∧
        msg = s!"Stock insuficiente para {u.partId}. No se puede completar la orden." ∧
        containsText msg u.partId = true) ∧
    (∀ form orderId updates now msg,
      (saveWorkOrder s form orderId updates now).error = some msg →
      ∃ u p partDoc, u ∈ form.partsRows ∧
        findPartById (saveWorkOrder s form orderId updates now).state.parts u.partId = some p ∧
        getPartDoc (saveWorkOrder s form orderId updates now).state.parts p.fb_id
          = some partDoc ∧
        partDoc.stock < u.quantity ∧
        msg = s!"Stock insuficiente para {u.partId}. Stock: {partDoc.stock}, Necesita: {u.quantity}." ∧
        containsText msg u.partId = true) ∧
    (∀ orderId newPartsList msg,
      (handleSaveManagedParts s orderId newPartsList).error = some msg →
      ∃ order partId delta partDoc, findOrder s.workOrders orderId = some order ∧
        (partId, delta) ∈ stockDeltas order.partsUsed newPartsList ∧
        getPartDoc (handleSaveManagedParts s orderId newPartsList).state.parts partId
          = some partDoc ∧
        partDoc.stock + delta < 0 ∧
        msg = s!"Stock insuficiente para {partId}. Stock: {partDoc.stock}, Necesita: {-delta}." ∧
        containsText msg partId = true) := by
  refine ⟨?_, ?_, ?_⟩
  · intro orderId newStatus now msg h
    obtain ⟨order, hfind, hloop⟩ := handleWorkOrderAction_error h
    unfold actionPartsLoop at hloop
    split at hloop
    · have h2 : (consumeLoop consumePartAction s.parts order.partsUsed).2 = some msg := by
        rw [hloop]
      obtain ⟨u, hu, hstep⟩ := consumeLoop_error _ _ _ h2
      rw [hloop] at hstep
      obtain ⟨p, partDoc, hp, hdoc, hlt, hmsg⟩ := consumePartAction_error hstep
      refine ⟨order, u, p, partDoc, hfind, hu, hp, hdoc, hlt, hmsg, ?_⟩
      rw [hmsg]
      simp only [String.append_assoc]
      exact containsText_append _ _ _
    · exact absurd (congrArg Prod.snd hloop) (by simp)
  · intro form orderId updates now msg h
    have hloop := saveWorkOrder_error h
    unfold savePartsLoop at hloop
    split at hloop
    · have h2 : (consumeLoop consumePartSave s.parts form.partsRows).2 = some msg := by
        have := congrArg Prod.snd hloop
        exact this
      obtain ⟨u, hu, hstep⟩ := consumeLoop_error _ _ _ h2
      have h1 : (consumeLoop consumePartSave s.parts form.partsRows).1
          = (saveWorkOrder s form orderId updates now).state.parts := congrArg Prod.fst hloop
      rw [h1] at hstep
      obtain ⟨p, partDoc, hp, hdoc, hlt, hmsg⟩ := consumePartSave_error hstep
      refine ⟨u, p, partDoc, hu, hp, hdoc, hlt, hmsg, ?_⟩
      rw [hmsg]
      simp only [String.append_assoc]
      exact containsText_append _ _ _
    · exact absurd (congrArg Prod.snd hloop) (by simp)
  · intro orderId newPartsList msg h
    obtain ⟨order, hfind, hloop⟩ := handleSaveManagedParts_error h
    have h2 : (applyStockDeltas s.parts (stockDeltas order.partsUsed newPartsList)).2
        = some msg := by rw [hloop]
    obtain ⟨e, he, hstep⟩ := applyStockDeltas_error _ _ h2
    rw [hloop] at hstep
    obtain ⟨partDoc, hdoc, hlt, hmsg⟩ := applyStockDelta_error hstep
    refine ⟨order, e.1, e.2, partDoc, hfind, he, hdoc, hlt, hmsg, ?_⟩
    rw [hmsg]
    simp only [String.append_assoc]
    exact containsText_append _ _ _

/-- Witness of C24: completing the scenario order (5 units of P1, stock 3) with
the quick button. -/
theorem stock_error_names_part_witness :
    (handleWorkOrderAction scenarioState "MA-25-0001" Status.Completado 1735732800000).error
      = some "Stock insuficiente para P1. No se puede completar la orden." ∧
    ∃ order u p partDoc, findOrder scenarioState.workOrders "MA-25-0001" = some order ∧
      u ∈ order.partsUsed ∧
      findPartById (handleWorkOrderAction scenarioState "MA-25-0001" Status.Completado
        1735732800000).state.parts u.partId = some p ∧
      getPartDoc (handleWorkOrderAction scenarioState "MA-25-0001" Status.Completado
        1735732800000).state.parts p.fb_id = some partDoc ∧
      partDoc.stock < u.quantity ∧
      "Stock insuficiente para P1. No se puede completar la orden."
        = s!"Stock insuficiente para {u.partId}. No se puede completar la orden." ∧
      containsText "Stock insuficiente para P1. No se puede completar la orden." u.partId
        = true :=
  ⟨by decide,
    (stock_error_names_part scenarioState).1 "MA-25-0001" Status.Completado 1735732800000
      "Stock insuficiente para P1. No se puede completar la orden." (by decide)⟩

/-! ## Deductions made before a failure (C23) -/

theorem consumeLoop_frame (step : List Part → PartUsage → Except String (List Part))
    (hframe : StepFrame step) (l : List PartUsage) (parts : List Part) (hk : PartsKeyed parts)
    (other : String) (hother : other ∉ l.map (fun x => x.partId)) :
    stockOf (consumeLoop step parts l).1 other = stockOf parts other := by
  induction l generalizing parts with
  | nil => rfl
  | cons a rest ih =>
    simp only [List.map_cons, List.mem_cons, not_or] at hother
    unfold consumeLoop
    cases hstep : step parts a with
    | error msg => rfl
    | ok parts' =>
      obtain ⟨hk', hfr⟩ := hframe parts parts' a hk hstep
      show stockOf (consumeLoop step parts' rest).1 other = _
      rw [ih parts' hk' hother.2, hfr other hother.1]

theorem consumeLoop_partial (step : List Part → PartUsage → Except String (List Part))
    (hframe : StepFrame step) (good : PartUsage → Prop)
    (hok : ∀ parts v sv, PartsKeyed parts → stockOf parts v.partId = some sv →
      v.quantity ≤ sv → good v →
      ∃ parts', step parts v = .ok parts' ∧ stockOf parts' v.partId = some (sv - v.quantity))
    (u : PartUsage) (st : Int)
    (hfail : ∀ parts, PartsKeyed parts → stockOf parts u.partId = some st →
      ∃ msg, step parts u = .error msg)
    (front back : List PartUsage) (parts : List Part) (hk : PartsKeyed parts)
    (hnodup : ((front ++ u :: back).map (fun x => x.partId)).Nodup)
    (hfront : ∀ v ∈ front, good v ∧ ∃ sv, stockOf parts v.partId = some sv ∧ v.quantity ≤ sv)
    (hu : stockOf parts u.partId = some st) :
    (consumeLoop step parts (front ++ u :: back)).2.isSome = true ∧
    (∀ v ∈ front, ∀ sv, stockOf parts v.partId = some sv →
      stockOf (consumeLoop step parts (front ++ u :: back)).1 v.partId
        = some (sv - v.quantity)) ∧
    (∀ v ∈ u :: back,
      stockOf (consumeLoop step parts (front ++ u :: back)).1 v.partId
        = stockOf parts v.partId) := by
  induction front generalizing parts with
  | nil =>
    obtain ⟨msg, hmsg⟩ := hfail parts hk hu
    have hres : consumeLoop step parts ([] ++ u :: back) = (parts, some msg) := by
      rw [List.nil_append]
      unfold consumeLoop
      rw [hmsg]
    rw [hres]
    exact ⟨rfl, fun v hv => absurd hv (List.not_mem_nil v), fun _ _ => rfl⟩
  | cons a rest ih =>
    rw [List.cons_append, List.map_cons, List.nodup_cons] at hnodup
    obtain ⟨hgood, sa, hsa, hle⟩ := hfront a (List.mem_cons_self _ _)
    obtain ⟨parts1, hstep, hs1⟩ := hok parts a sa hk hsa hle hgood
    obtain ⟨hk1, hfr⟩ := hframe parts parts1 a hk hstep
    have hne : ∀ v ∈ rest ++ u :: back, v.partId ≠ a.partId := fun v hv e =>
      hnodup.1 (e ▸ List.mem_map_of_mem (fun x => x.partId) hv)
    have hres : consumeLoop step parts (a :: rest ++ u :: back)
        = consumeLoop step parts1 (rest ++ u :: back) := by
      rw [List.cons_append]
      conv => lhs; unfold consumeLoop
      rw [hstep]
    rw [hres]
    have hfront1 : ∀ v ∈ rest,
        good v ∧ ∃ sv, stockOf parts1 v.partId = some sv ∧ v.quantity ≤ sv := by
      intro v hv
      obtain ⟨hg, sv, hsv, hq⟩ := hfront v (List.mem_cons_of_mem _ hv)
      refine ⟨hg, sv, ?_, hq⟩
      rw [hfr _ (hne v (List.mem_append_left _ hv))]
      exact hsv
    have hu1 : stockOf parts1 u.partId = some st := by
      rw [hfr _ (hne u (List.mem_append_right _ (List.mem_cons_self _ _)))]
      exact hu
    obtain ⟨h1, h2, h3⟩ := ih parts1 hk1 hnodup.2 hfront1 hu1
    refine ⟨h1, ?_, ?_⟩
    · intro v hv sv hsv
      rcases List.mem_cons.mp hv with rfl | hv
      · rw [consumeLoop_frame step hframe _ parts1 hk1 _ hnodup.1, hs1]
        rw [hsa] at hsv
        injection hsv with hsv
        rw [hsv]
      · refine h2 v hv sv ?_
        rw [hfr _ (hne v (List.mem_append_left _ hv))]
        exact hsv
    · intro v hv
      rw [h3 v hv]
      exact hfr _ (hne v (List.mem_append_right _ hv))

theorem consumePartAction_sufficient (parts : List Part) (v : PartUsage) (sv : Int)
    (hk : PartsKeyed parts) (hs : stockOf parts v.partId = some sv) (hle : v.quantity ≤ sv) :
    ∃ parts', consumePartAction parts v = .ok parts' ∧
      stockOf parts' v.partId = some (sv - v.quantity) := by
  obtain ⟨p, hp, rfl⟩ := stockOf_eq_some hs
  rw [consumePartAction_keyed hk, hp]
  dsimp only
  rw [if_neg (by omega)]
  exact ⟨_, rfl, stockOf_updatePartStock_self _ hs⟩

theorem consumePartSave_sufficient (parts : List Part) (v : PartUsage) (sv : Int)
    (hk : PartsKeyed parts) (hs : stockOf parts v.partId = some sv) (hle : v.quantity ≤ sv)
    (hq : 0 < v.quantity) :
    ∃ parts', consumePartSave parts v = .ok parts' ∧
      stockOf parts' v.partId = some (sv - v.quantity) := by
  obtain ⟨p, hp, rfl⟩ := stockOf_eq_some hs
  rw [consumePartSave_keyed hk v hq, hp]
  dsimp only
  rw [if_neg (by omega)]
  exact ⟨_, rfl, stockOf_updatePartStock_self _ hs⟩

/-- What a failed completion leaves in the parts collection: the parts before
the short one are reduced by their quantity, the short one and the parts after
it are as before. -/
theorem partialDeduction_of_loop {front back : List PartUsage} {u : PartUsage}
    {parts result : List Part} {err : Option String}
    {loop : List Part × Option String} (hloop : loop = (result, err))
    (h : loop.2.isSome = true ∧
      (∀ v ∈ front, ∀ sv, stockOf parts v.partId = some sv →
        stockOf loop.1 v.partId = some (sv - v.quantity)) ∧
      (∀ v ∈ u :: back, stockOf loop.1 v.partId = stockOf parts v.partId)) :
    (∃ msg, err = some msg) ∧
    (∀ v ∈ front, ∀ sv, stockOf parts v.partId = some sv →
      stockOf result v.partId = some (sv - v.quantity)) ∧
    (∀ v ∈ u :: back, stockOf result v.partId = stockOf parts v.partId) := by
  subst hloop
  exact ⟨Option.isSome_iff_exists.mp h.1, h.2.1, h.2.2⟩

/-- C23: a completion whose parts-used list is `front ++ u :: back` (part ids
distinct, part documents keyed by their id), where every part of `front` has a
stock of at least its quantity and the stock `st` of `u` is below its quantity,
fails; afterwards the stock of every part of `front` is reduced by its quantity
and the stocks of `u` and of the parts of `back` are as before.  This holds for
`handleWorkOrderAction` when the call is not rejected, and for `saveWorkOrder`
with that list in a form that passes the checks, quantities being positive. -/
theorem failed_completion_keeps_earlier_deductions (s : AppState)
    (front back : List PartUsage) (u : PartUsage) (st now : Int)
    (hk : PartsKeyed s.parts)
    (hnodup : ((front ++ u :: back).map (fun x => x.partId)).Nodup)
    (hfront : ∀ v ∈ front, ∃ sv, stockOf s.parts v.partId = some sv ∧ v.quantity ≤ sv)
    (hu : stockOf s.parts u.partId = some st) (hlt : st < u.quantity) :
    (∀ order, order.id ≠ "" → findOrder s.workOrders order.id = some order →
      MayChangeStatus s order → order.status ≠ Status.Completado →
      order.partsUsed = front ++ u :: back →
      (handleWorkOrderAction s order.id Status.Completado now).failed ∧
      (∀ v ∈ front, ∀ sv, stockOf s.parts v.partId = some sv →
        stockOf (handleWorkOrderAction s order.id Status.Completado now).state.parts v.partId
          = some (sv - v.quantity)) ∧
      (∀ v ∈ u :: back,
        stockOf (handleWorkOrderAction s order.id Status.Completado now).state.parts v.partId
          = stockOf s.parts v.partId)) ∧
    (∀ form orderId updates, saveValidation s form orderId = none →
      updates.getD form.status = Status.Completado →
      (existingOrderOf s form orderId).map (fun o => o.status) ≠ some Status.Completado →
      form.partsRows = front ++ u :: back → (∀ v ∈ front, 0 < v.quantity) → 0 ≤ st →
      (saveWorkOrder s form orderId updates now).failed ∧
      (∀ v ∈ front, ∀ sv, stockOf s.parts v.partId = some sv →
        stockOf (saveWorkOrder s form orderId updates now).state.parts v.partId
          = some (sv - v.quantity)) ∧
      (∀ v ∈ u :: back,
        stockOf (saveWorkOrder s form orderId updates now).state.parts v.partId
          = stockOf s.parts v.partId)) := by
  constructor
  · intro order hid hfind hmay hstatus hparts
    have hloop := consumeLoop_partial consumePartAction consumePartAction_frame (fun _ => True)
      (fun parts v sv hk' hs hle _ => consumePartAction_sufficient parts v sv hk' hs hle)
      u st (consumePartAction_insufficient u st hlt) front back s.parts hk hnodup
      (fun v hv => ⟨trivial, hfront v hv⟩) hu
    have hl : actionPartsLoop s.parts order Status.Completado
        = consumeLoop consumePartAction s.parts (front ++ u :: back) := by
      unfold actionPartsLoop
      rw [if_pos ⟨rfl, hstatus⟩, hparts]
    unfold handleWorkOrderAction
    rw [if_neg hid, hfind]
    dsimp only
    rw [if_neg hmay, if_neg (fun h => nomatch h.1), hl]
    split
    · rename_i parts' msg heq
      obtain ⟨_, h2, h3⟩ := partialDeduction_of_loop heq hloop
      exact ⟨rfl, h2, h3⟩
    · rename_i parts' heq
      obtain ⟨⟨msg, hmsg⟩, _⟩ := partialDeduction_of_loop heq hloop
      cases hmsg
  · intro form orderId updates hv hnew hold hparts hpos hst
    have hloop := consumeLoop_partial consumePartSave consumePartSave_frame
      (fun v => 0 < v.quantity)
      (fun parts v sv hk' hs hle hq => consumePartSave_sufficient parts v sv hk' hs hle hq)
      u st (consumePartSave_insufficient u st hlt hst) front back s.parts hk hnodup
      (fun v hv => ⟨hpos v hv, hfront v hv⟩) hu
    have hl : savePartsLoop s.parts
        (buildOrderData s.utcOffsetMs form orderId (existingOrderOf s form orderId) updates now)
        ((existingOrderOf s form orderId).map (fun o => o.status))
        = consumeLoop consumePartSave s.parts (front ++ u :: back) := by
      unfold savePartsLoop
      rw [if_pos ⟨hnew, hold⟩, ← hparts]
      rfl
    unfold saveWorkOrder
    rw [hv]
    dsimp only
    rw [hl]
    split
    · rename_i parts' msg heq
      obtain ⟨_, h2, h3⟩ := partialDeduction_of_loop heq hloop
      exact ⟨rfl, h2, h3⟩
    · rename_i parts' heq
      obtain ⟨⟨msg, hmsg⟩, _⟩ := partialDeduction_of_loop heq hloop
      cases hmsg

theorem twoPartState_partsKeyed : PartsKeyed twoPartState.parts := by
  intro p hp
  simp only [twoPartState, List.mem_cons, List.mem_singleton, List.not_mem_nil, or_false] at hp
  rcases hp with rfl | rfl <;> rfl

/-- Witness of C23: the order uses 2 of P1 (stock 3) and 5 of P2 (stock 1); the
completion fails at P2, P1 is left with 1 and P2 with 1. -/
theorem failed_completion_keeps_earlier_deductions_witness :
    (handleWorkOrderAction twoPartState "MA-25-0001" Status.Completado 1735732800000).failed ∧
    stockOf (handleWorkOrderAction twoPartState "MA-25-0001" Status.Completado
      1735732800000).state.parts "P1" = some (3 - 2) ∧
    stockOf (handleWorkOrderAction twoPartState "MA-25-0001" Status.Completado
      1735732800000).state.parts "P2" = some 1 ∧
    (saveWorkOrder twoPartState twoPartForm "MA-25-0001" (some Status.Completado)
      1735732800000).failed ∧
    stockOf (saveWorkOrder twoPartState twoPartForm "MA-25-0001" (some Status.Completado)
      1735732800000).state.parts "P1" = some (3 - 2) ∧
    stockOf (saveWorkOrder twoPartState twoPartForm "MA-25-0001" (some Status.Completado)
      1735732800000).state.parts "P2" = some 1 :=
  have h := failed_completion_keeps_earlier_deductions twoPartState [⟨"P1", 2⟩] [] ⟨"P2", 5⟩ 1
    1735732800000 twoPartState_partsKeyed (by decide)
    (fun v hv => ⟨3, by
      simp only [List.mem_singleton] at hv
      subst hv
      decide⟩)
    (by decide) (by decide)
  have ha := h.1 twoPartOrder (by decide) (by decide) (by decide) (by decide) rfl
  have hs := h.2 twoPartForm "MA-25-0001" (some Status.Completado) (by decide) rfl (by decide)
    rfl (fun v hv => by
      simp only [List.mem_singleton] at hv
      subst hv
      decide) (by decide)
  ⟨ha.1, ha.2.1 ⟨"P1", 2⟩ (List.mem_singleton.mpr rfl) 3 (by decide),
    ha.2.2 ⟨"P2", 5⟩ (List.mem_cons_self _ _),
    hs.1, hs.2.1 ⟨"P1", 2⟩ (List.mem_singleton.mpr rfl) 3 (by decide),
    hs.2.2 ⟨"P2", 5⟩ (List.mem_cons_self _ _)⟩

/-! ## Conservation under reconciliation (C28) -/

theorem applyStockDelta_stock {parts parts' : List Part} {partId : String} {delta : Int}
    (h : applyStockDelta parts partId delta = .ok parts') (docId : String) :
    stockOf parts' docId
      = if docId = partId then (stockOf parts partId).map (fun st => st + delta)
        else stockOf parts docId := by
  unfold applyStockDelta at h
  cases hg : getPartDoc parts partId with
  | none =>
    rw [hg] at h
    injection h with h
    subst h
    by_cases hd : docId = partId
    · rw [if_pos hd, hd]
      simp [stockOf, hg]
    · rw [if_neg hd]
  | some partDoc =>
    rw [hg] at h
    dsimp only at h
    by_cases hlt : partDoc.stock + delta < 0
    · rw [if_pos hlt] at h
      cases h
    · rw [if_neg hlt] at h
      injection h with h
      subst h
      have hs : stockOf parts partId = some partDoc.stock := stockOf_of_getPartDoc hg
      by_cases hd : docId = partId
      · rw [if_pos hd, hd, stockOf_updatePartStock_self _ hs, hs]
        rfl
      · rw [if_neg hd, stockOf_updatePartStock_other _ hd]

theorem deltaFor_cons (e : String × Int) (m : JsMap) (key : String) :
    deltaFor (e :: m) key = if e.1 = key then e.2 else deltaFor m key := by
  unfold deltaFor
  rw [JsMap.get?_cons]
  by_cases h : e.1 = key
  · simp [h]
  · simp [h]

theorem deltaFor_of_not_mem (m : JsMap) (key : String) (h : key ∉ JsMap.keys m) :
    deltaFor m key = 0 := by
  unfold deltaFor
  rw [JsMap.get?_eq_none_of_not_mem m key h]
  rfl

theorem applyStockDeltas_stock (deltas : JsMap) (parts : List Part)
    (hnodup : (JsMap.keys deltas).Nodup)
    (h : (applyStockDeltas parts deltas).2 = none) (docId : String) :
    stockOf (applyStockDeltas parts deltas).1 docId
      = (stockOf parts docId).map (fun st => st + deltaFor deltas docId) := by
  induction deltas generalizing parts with
  | nil =>
    show stockOf parts docId = _
    cases stockOf parts docId with
    | none => rfl
    | some st => simp [deltaFor, JsMap.get?]
  | cons e rest ih =>
    obtain ⟨partId, delta⟩ := e
    have hkeys : JsMap.keys ((partId, delta) :: rest) = partId :: JsMap.keys rest := rfl
    rw [hkeys, List.nodup_cons] at hnodup
    unfold applyStockDeltas at h ⊢
    cases hstep : applyStockDelta parts partId delta with
    | error msg =>
      rw [hstep] at h
      cases h
    | ok parts' =>
      rw [hstep] at h
      show stockOf (applyStockDeltas parts' rest).1 docId = _
      rw [ih parts' hnodup.2 h, applyStockDelta_stock hstep, deltaFor_cons]
      by_cases hd : docId = partId
      · subst hd
        rw [if_pos rfl, if_pos rfl, deltaFor_of_not_mem _ _ hnodup.1]
        cases stockOf parts docId with
        | none => rfl
        | some st => simp
      · rw [if_neg hd, if_neg (fun e => hd e.symm)]

theorem stockDeltas_keys_nodup (oldParts newParts : List PartUsage) :
    (JsMap.keys (stockDeltas oldParts newParts)).Nodup :=
  deltasFromOld_keys_nodup _ _ _ (deltasFromNew_keys_nodup _ _ _ List.nodup_nil)

theorem deltaFor_stockDeltas (oldParts newParts : List PartUsage)
    (hold : (oldParts.map (fun u => u.partId)).Nodup)
    (hnew : (newParts.map (fun u => u.partId)).Nodup) (partId : String) :
    deltaFor (stockDeltas oldParts newParts) partId
      = quantityIn oldParts partId - quantityIn newParts partId := by
  unfold stockDeltas
  simp only []
  rw [deltaFor_deltasFromOld _ _ _ _ (partsMap_keys_nodup oldParts),
    deltaFor_deltasFromNew _ _ _ _ (partsMap_keys_nodup newParts),
    ← partsMap_get? oldParts partId hold, ← partsMap_get? newParts partId hnew]
  cases hn : JsMap.get? (partsMap newParts) partId <;>
    cases ho : JsMap.get? (partsMap oldParts) partId <;>
    simp [deltaFor, JsMap.get?]

theorem handleSaveManagedParts_of_succeeded {s : AppState} {orderId : String}
    {newPartsList : List PartUsage} {order : WorkOrder}
    (hfind : findOrder s.workOrders orderId = some order)
    (h : (handleSaveManagedParts s orderId newPartsList).succeeded) :
    (applyStockDeltas s.parts (stockDeltas order.partsUsed newPartsList)).2 = none ∧
    (handleSaveManagedParts s orderId newPartsList).state.parts
      = (applyStockDeltas s.parts (stockDeltas order.partsUsed newPartsList)).1 ∧
    (handleSaveManagedParts s orderId newPartsList).state.workOrders
      = updateOrderParts s.workOrders order.fb_id newPartsList := by
  unfold handleSaveManagedParts Outcome.succeeded at h
  unfold handleSaveManagedParts
  split at h
  · simp at h
  · rename_i hid
    rw [if_neg hid]
    rw [hfind] at h ⊢
    dsimp only at h ⊢
    split at h
    · simp at h
    · rename_i parts' heq
      rw [heq]
      exact ⟨rfl, rfl, rfl⟩

/-- C28: after a successful `handleSaveManagedParts` on an order (part ids
distinct within the order's old list and within the new list), for every part
document of the store the new stock plus the part's quantity in the new list
equals the old stock plus its quantity in the old list, a part absent from a
list counting as 0; the order then holds the new list; and saving the list the
order already has changes no stock. -/
theorem reconciliation_conserves_parts (s : AppState) (orderId : String)
    (newPartsList : List PartUsage) (order : WorkOrder)
    (hfind : findOrder s.workOrders orderId = some order)
    (hold : (order.partsUsed.map (fun u => u.partId)).Nodup)
    (hnew : (newPartsList.map (fun u => u.partId)).Nodup)
    (hsucc : (handleSaveManagedParts s orderId newPartsList).succeeded) :
    (∀ partId oldStock, stockOf s.parts partId = some oldStock →
      ∃ newStock,
        stockOf (handleSaveManagedParts s orderId newPartsList).state.parts partId
          = some newStock ∧
        newStock + quantityIn newPartsList partId
          = oldStock + quantityIn order.partsUsed partId) ∧
    (findOrder (handleSaveManagedParts s orderId newPartsList).state.workOrders orderId).map
      (fun o => o.partsUsed) = some newPartsList ∧
    (newPartsList = order.partsUsed →
      ∀ partId, stockOf (handleSaveManagedParts s orderId newPartsList).state.parts partId
        = stockOf s.parts partId) := by
  obtain ⟨hnone, hparts, horders⟩ := handleSaveManagedParts_of_succeeded hfind hsucc
  have hstock : ∀ partId,
      stockOf (handleSaveManagedParts s orderId newPartsList).state.parts partId
        = (stockOf s.parts partId).map
            (fun st => st + (quantityIn order.partsUsed partId - quantityIn newPartsList partId)) := by
    intro partId
    rw [hparts, applyStockDeltas_stock _ _ (stockDeltas_keys_nodup _ _) hnone,
      deltaFor_stockDeltas _ _ hold hnew]
  refine ⟨?_, ?_, ?_⟩
  · intro partId oldStock hs
    refine ⟨oldStock + (quantityIn order.partsUsed partId - quantityIn newPartsList partId),
      ?_, by ring⟩
    rw [hstock, hs]
    rfl
  · rw [horders]
    show (findOrder (updateOrderDoc s.workOrders order.fb_id
      (fun wo => { wo with partsUsed := newPartsList })) orderId).map (fun o => o.partsUsed) = _
    rw [findOrder_updateOrderDoc order.fb_id (fun wo => { wo with partsUsed := newPartsList })
      (fun _ => rfl) hfind, if_pos rfl]
    rfl
  · intro hsame partId
    rw [hstock, hsame, sub_self]
    cases stockOf s.parts partId with
    | none => rfl
    | some st => simp

/-- Witness of C28: the scenario order used 5 units of P1 (stock 3); the list
is changed to 7 units, the stock becomes 1, and 1 + 7 = 3 + 5. -/
theorem reconciliation_conserves_parts_witness :
    findOrder scenarioState.workOrders "MA-25-0001" = some scenarioOrder ∧
    (handleSaveManagedParts scenarioState "MA-25-0001" [⟨"P1", 7⟩]).succeeded ∧
    stockOf (handleSaveManagedParts scenarioState "MA-25-0001" [⟨"P1", 7⟩]).state.parts "P1"
      = some 1 ∧
    ∃ newStock,
      stockOf (handleSaveManagedParts scenarioState "MA-25-0001" [⟨"P1", 7⟩]).state.parts "P1"
        = some newStock ∧
      newStock + quantityIn [⟨"P1", 7⟩] "P1" = 3 + quantityIn scenarioOrder.partsUsed "P1" :=
  ⟨rfl, by decide, by decide,
    (reconciliation_conserves_parts scenarioState "MA-25-0001" [⟨"P1", 7⟩] scenarioOrder rfl
      (by decide) (by decide) (by decide)).1 "P1" 3 (by decide)⟩

/-! ## The proposed id and the checks of `saveWorkOrder` (C29, C30) -/

theorem generateNextWorkOrderId_eq_specNextId (fullYear : Nat) (orders : List WorkOrder)
    (h : IdsWellFormed orders) :
    generateNextWorkOrderId fullYear orders = specNextId fullYear orders := by
  unfold generateNextWorkOrderId specNextId specMaxSequence
  dsimp only
  rw [relevantOrders_wellFormed _ _ h]
  have hmap : (orders.filter (fun wo => startsWith wo.id.toList (yearMark fullYear))).map
      (fun wo => (specSequence wo.id : Int))
      = ((orders.filter (fun wo => startsWith wo.id.toList (yearMark fullYear))).map
          (fun wo => specSequence wo.id)).map (fun (n : Nat) => (n : Int)) := by
    rw [List.map_map]
    rfl
  rw [hmap, maxNumber_cast]
  congr 3
  generalize List.foldl max 0 (List.map (fun wo => specSequence wo.id)
    (List.filter (fun wo => startsWith wo.id.toList (yearMark fullYear)) orders)) = m
  have : ((m : Int) + 1) = ((1 + m : Nat) : Int) := by push_cast; ring
  rw [this]
  rfl

theorem digitChar_digit : ∀ d, d < 10 →
    (Nat.digitChar d).isDigit = true ∧ (Nat.digitChar d).toNat - 48 = d := by
  decide

theorem digitsValue_append_singleton (xs : List Char) (c : Char) :
    digitsValue (xs ++ [c]) = digitsValue xs * 10 + (c.toNat - 48) := by
  simp [digitsValue, List.foldl_append]

theorem toDigitsCore_spec (fuel : Nat) : ∀ n ds, n < fuel →
    ∃ xs, Nat.toDigitsCore 10 fuel n ds = xs ++ ds ∧ xs ≠ [] ∧
      (∀ c ∈ xs, c.isDigit = true) ∧ digitsValue xs = n := by
  induction fuel with
  | zero =>
    intro n ds h
    omega
  | succ fuel ih =>
    intro n ds h
    have hd := digitChar_digit (n % 10) (Nat.mod_lt _ (by decide))
    unfold Nat.toDigitsCore
    dsimp only
    by_cases h0 : n / 10 = 0
    · rw [if_pos h0]
      refine ⟨[Nat.digitChar (n % 10)], rfl, by simp, ?_, ?_⟩
      · intro c hc
        rw [List.mem_singleton.mp hc]
        exact hd.1
      · show 0 * 10 + ((Nat.digitChar (n % 10)).toNat - 48) = n
        rw [hd.2]
        omega
    · rw [if_neg h0]
      obtain ⟨xs, hxs, _, hdig, hval⟩ := ih (n / 10) (Nat.digitChar (n % 10) :: ds) (by omega)
      refine ⟨xs ++ [Nat.digitChar (n % 10)], by rw [hxs]; simp, by simp, ?_, ?_⟩
      · intro c hc
        rcases List.mem_append.mp hc with hc | hc
        · exact hdig c hc
        · rw [List.mem_singleton.mp hc]
          exact hd.1
      · rw [digitsValue_append_singleton, hval, hd.2]
        omega

theorem toString_nat_spec (n : Nat) :
    (toString n).toList ≠ [] ∧ (∀ c ∈ (toString n).toList, c.isDigit = true) ∧
    digitsValue (toString n).toList = n := by
  have h : (toString n).toList = Nat.toDigits 10 n := rfl
  rw [h]
  obtain ⟨xs, hxs, hne, hdig, hval⟩ := toDigitsCore_spec (n + 1) n [] (by omega)
  rw [List.append_nil] at hxs
  unfold Nat.toDigits
  rw [hxs]
  exact ⟨hne, hdig, hval⟩

theorem digitsValue_replicate_zero (k : Nat) (xs : List Char) :
    digitsValue (List.replicate k '0' ++ xs) = digitsValue xs := by
  unfold digitsValue
  rw [List.foldl_append]
  have h0 : List.foldl (fun acc c => acc * 10 + (c.toNat - 48)) 0 (List.replicate k '0') = 0 := by
    induction k with
    | zero => rfl
    | succ k ih =>
      rw [List.replicate_succ, List.foldl_cons]
      exact ih
  rw [h0]

theorem padStart_digits {xs : List Char} (h : ∀ c ∈ xs, c.isDigit = true) :
    ∀ c ∈ padStart 4 '0' xs, c.isDigit = true := by
  intro c hc
  unfold padStart at hc
  rcases List.mem_append.mp hc with hc | hc
  · rw [(List.mem_replicate.mp hc).2]
    rfl
  · exact h c hc

theorem le_foldl_max (l : List Nat) (a : Nat) :
    a ≤ l.foldl max a ∧ ∀ x ∈ l, x ≤ l.foldl max a := by
  induction l generalizing a with
  | nil => exact ⟨le_refl _, fun x hx => absurd hx (List.not_mem_nil x)⟩
  | cons b rest ih =>
    rw [List.foldl_cons]
    obtain ⟨h1, h2⟩ := ih (max a b)
    refine ⟨le_trans (le_max_left a b) h1, ?_⟩
    intro x hx
    rcases List.mem_cons.mp hx with rfl | hx
    · exact le_trans (le_max_right a x) h1
    · exact h2 x hx

theorem yearMark_eq (fullYear : Nat) :
    yearMark fullYear
      = 'M' :: 'A' :: '-' ::
        ((toString fullYear).toList.drop ((toString fullYear).toList.length - 2) ++ ['-']) := rfl

theorem yearDigits_digit (fullYear : Nat) :
    ∀ c ∈ (toString fullYear).toList.drop ((toString fullYear).toList.length - 2),
      c.isDigit = true :=
  fun c hc => (toString_nat_spec fullYear).2.1 c (List.mem_of_mem_drop hc)

theorem mark_split {yy pad : List Char} {y1 y2 n1 n2 n3 n4 : Char}
    (hyy : ∀ c ∈ yy, c ≠ '-') (hy1 : y1 ≠ '-') (hy2 : y2 ≠ '-')
    (h : [y1, y2, '-', n1, n2, n3, n4] = yy ++ '-' :: pad) : pad = [n1, n2, n3, n4] := by
  rcases yy with _ | ⟨a, _ | ⟨b, _ | ⟨c, r⟩⟩⟩
  · simp at h
    exact absurd h.1 hy1
  · simp at h
    exact absurd h.2.1 hy2
  · simp at h
    exact h.2.2.symm
  · simp at h
    exact absurd h.2.2.1.symm (hyy c (by simp))

theorem specSequence_eq_digitsValue {orderId : String} {y1 y2 n1 n2 n3 n4 : Char}
    (h : orderId.toList = ['M', 'A', '-', y1, y2, '-', n1, n2, n3, n4]) :
    specSequence orderId = digitsValue [n1, n2, n3, n4] := by
  unfold specSequence
  rw [h]
  simp [digitsValue]

/-- C29: for a store whose ids all have the form `MA-YY-NNNN`, the id returned
by `generateNextWorkOrderId` differs from the id of every existing order, so the
duplicate-id check of `saveWorkOrder` for a new order does not fire on it. -/
theorem next_id_is_fresh (fullYear : Nat) (orders : List WorkOrder)
    (h : IdsWellFormed orders) :
    (∀ wo ∈ orders, wo.id ≠ generateNextWorkOrderId fullYear orders) ∧
    orders.any (fun wo => wo.id == generateNextWorkOrderId fullYear orders) = false := by
  have hfresh : ∀ wo ∈ orders, wo.id ≠ generateNextWorkOrderId fullYear orders := by
    intro wo hwo heq
    rw [generateNextWorkOrderId_eq_specNextId fullYear orders h] at heq
    obtain ⟨y1, y2, n1, n2, n3, n4, hlist, hy1, hy2, -, -, -, -⟩ := idRegexTest_chars (h wo hwo)
    have hlist2 : wo.id.toList = yearMark fullYear ++ padStart 4 '0'
        (toString (1 + specMaxSequence (yearMark fullYear) orders)).toList := by
      rw [heq]
      rfl
    have hstarts : startsWith wo.id.toList (yearMark fullYear) = true := by
      rw [hlist2]
      exact startsWith_append _ _
    have hle : specSequence wo.id ≤ specMaxSequence (yearMark fullYear) orders := by
      unfold specMaxSequence
      apply (le_foldl_max _ 0).2
      exact List.mem_map_of_mem _ (List.mem_filter.mpr ⟨hwo, hstarts⟩)
    rw [hlist, yearMark_eq] at hlist2
    have htail : [y1, y2, '-', n1, n2, n3, n4]
        = (toString fullYear).toList.drop ((toString fullYear).toList.length - 2) ++
          '-' :: padStart 4 '0'
            (toString (1 + specMaxSequence (yearMark fullYear) orders)).toList := by
      simpa using hlist2
    have hpad := mark_split
      (fun c hc => (digit_not_sep (yearDigits_digit fullYear c hc)).1)
      (digit_not_sep hy1).1 (digit_not_sep hy2).1 htail
    have hval : digitsValue [n1, n2, n3, n4]
        = 1 + specMaxSequence (yearMark fullYear) orders := by
      rw [← hpad]
      unfold padStart
      rw [digitsValue_replicate_zero]
      exact (toString_nat_spec _).2.2
    rw [specSequence_eq_digitsValue hlist, hval] at hle
    omega
  refine ⟨hfresh, ?_⟩
  rw [List.any_eq_false]
  intro wo hwo
  simpa using hfresh wo hwo

/-- Witness of C29: the ids MA-25-0001, MA-25-0007 and MA-24-0042 in 2025. -/
theorem next_id_is_fresh_witness :
    IdsWellFormed idScenarioOrders ∧
    (∀ wo ∈ idScenarioOrders, wo.id ≠ generateNextWorkOrderId 2025 idScenarioOrders) ∧
    idScenarioOrders.any (fun wo => wo.id == generateNextWorkOrderId 2025 idScenarioOrders)
      = false :=
  ⟨idScenarioOrders_wellFormed, next_id_is_fresh 2025 idScenarioOrders idScenarioOrders_wellFormed⟩

theorem yearDigits_length {fullYear : Nat} (h : 10 ≤ fullYear) :
    ((toString fullYear).toList.drop ((toString fullYear).toList.length - 2)).length = 2 := by
  obtain ⟨hne, hdig, hval⟩ := toString_nat_spec fullYear
  have hlen : 2 ≤ (toString fullYear).toList.length := by
    rcases hl : (toString fullYear).toList with _ | ⟨c, _ | ⟨d, r⟩⟩
    · exact absurd hl hne
    · rw [hl] at hdig hval
      have hc := (isDigit_iff c).mp (hdig c (List.mem_singleton.mpr rfl))
      have : digitsValue [c] = c.toNat - 48 := by simp [digitsValue]
      omega
    · simp
  rw [List.length_drop]
  omega

theorem padStart_length {xs : List Char} (h : xs.length ≤ 4) :
    (padStart 4 '0' xs).length = 4 := by
  unfold padStart
  rw [List.length_append, List.length_replicate]
  omega

theorem toString_length_le_four {n : Nat} (h : n < 10000) : (toString n).toList.length ≤ 4 :=
  Nat.repr_length n 4 (by decide) (by omega)

theorem idRegexTest_of_chars {a b p1 p2 p3 p4 : Char} (ha : a.isDigit = true)
    (hb : b.isDigit = true) (h1 : p1.isDigit = true) (h2 : p2.isDigit = true)
    (h3 : p3.isDigit = true) (h4 : p4.isDigit = true) :
    idRegexTest (String.mk ['M', 'A', '-', a, b, '-', p1, p2, p3, p4]) = true := by
  simp [idRegexTest, ha, hb, h1, h2, h3, h4]

/-- Counterexample of C30: the only order is MA-25-9999, whose id has the
form; in 2025 the proposed id is MA-25-10000, which `saveWorkOrder` rejects. -/
theorem next_id_after_9999_is_rejected :
    IdsWellFormed fullYearOrders ∧
    generateNextWorkOrderId 2025 fullYearOrders = "MA-25-10000" ∧
    idRegexTest (generateNextWorkOrderId 2025 fullYearOrders) = false := by
  refine ⟨?_, by decide, by decide⟩
  intro wo hwo
  simp only [fullYearOrders, List.mem_singleton] at hwo
  subst hwo
  decide

/-- C30 (amended): for a store whose ids all have the form `MA-YY-NNNN` and
whose largest sequence number for the current year is below 9999, the current
year having at least two digits, the id returned by `generateNextWorkOrderId`
has that form, so the id-format check of `saveWorkOrder` accepts it. -/
theorem next_id_is_well_formed (fullYear : Nat) (orders : List WorkOrder)
    (h : IdsWellFormed orders) (hyear : 10 ≤ fullYear)
    (hmax : specMaxSequence (yearMark fullYear) orders < 9999) :
    idRegexTest (generateNextWorkOrderId fullYear orders) = true := by
  rw [generateNextWorkOrderId_eq_specNextId fullYear orders h]
  unfold specNextId
  rw [yearMark_eq]
  have hyy := yearDigits_length hyear
  have hyd := yearDigits_digit fullYear
  have hpd := padStart_digits
    (toString_nat_spec (1 + specMaxSequence (yearMark fullYear) orders)).2.1
  have hpl := padStart_length
    (toString_length_le_four (show 1 + specMaxSequence (yearMark fullYear) orders < 10000 by omega))
  rw [← yearMark_eq]
  generalize padStart 4 '0'
    (toString (1 + specMaxSequence (yearMark fullYear) orders)).toList = pad at hpd hpl
  rw [yearMark_eq]
  generalize (toString fullYear).toList.drop ((toString fullYear).toList.length - 2) = yy
    at hyy hyd
  rcases yy with _ | ⟨a, _ | ⟨b, _ | ⟨c, r⟩⟩⟩ <;> simp at hyy
  rcases pad with _ | ⟨p1, _ | ⟨p2, _ | ⟨p3, _ | ⟨p4, _ | ⟨p5, r⟩⟩⟩⟩⟩ <;> simp at hpl
  exact idRegexTest_of_chars (hyd a (by simp)) (hyd b (by simp)) (hpd p1 (by simp))
    (hpd p2 (by simp)) (hpd p3 (by simp)) (hpd p4 (by simp))

/-- Witness of C30: the ids MA-25-0001, MA-25-0007 and MA-24-0042 in 2025; the
proposed id MA-25-0008 has the form. -/
theorem next_id_is_well_formed_witness :
    IdsWellFormed idScenarioOrders ∧ (10 : Nat) ≤ 2025 ∧
    specMaxSequence (yearMark 2025) idScenarioOrders < 9999 ∧
    idRegexTest (generateNextWorkOrderId 2025 idScenarioOrders) = true :=
  ⟨idScenarioOrders_wellFormed, by decide, by decide,
    next_id_is_well_formed 2025 idScenarioOrders idScenarioOrders_wellFormed (by decide)
      (by decide)⟩

end Mantenimiento
